import Mathlib

/-!
# Arbitrary-precision decimal-block integers (`arbitrary.c`)

A shallow embedding of the BigInt arithmetic of `arbitrary.c`.

* The singly linked chain of `Nodo` cells hanging from `cabeza` is a `List Nat`,
  least-significant block first.  The C field `longitud` is only ever changed by
  `bg_prepend` / `bg_append`, which keep it equal to the number of cells, so it
  is modelled as the length of the list.
* `uint32_t` and `uint64_t` values are natural numbers; every place where the C
  code stores into a narrower type carries an explicit reduction modulo `2^32`
  or `2^64`.  `int64_t` intermediates are integers.  Every conversion of a
  `size_t` to `int` is the 32-bit conversion `toInt32`: `(int)len` in
  `bg_desde_cadena`, `(int)n` in `printBigInt`, `(int)longitud` in
  `compararMagnitud` and `(int)dividendo_pos->longitud` in `bg_dividir_largo`.
  The constant subtracted from the converted value to start a descending loop
  is subtracted exactly; the `int` field `signo` and the counter `despl_b` are
  unbounded integers.
* Output written with `putchar` / `printf` is collected in a `List Char`.
-/

namespace CAS

/-! ## Data model -/

/-- Radix of one block: `#define DEC_BASE 1000000000u`. -/
def DEC_BASE : Nat := 1000000000

/-- Decimal digits per block: `#define DEC_DIGITS 9`. -/
def DEC_DIGITS : Nat := 9

/-- The C struct `BigInt`: field `signo` and the chain `cabeza`. -/
structure BigInt where
  signo : Int
  cabeza : List Nat
deriving DecidableEq, Repr

/-- The C field `longitud`, kept equal to the number of cells of the chain. -/
def BigInt.longitud (a : BigInt) : Nat := a.cabeza.length

/-- Conversion of an `int64_t` or `int` value to `uint32_t`. -/
def toU32 (x : Int) : Nat := (x % 4294967296).toNat

/-- Function `bg_nuevo`: sign `+1`, no cells. -/
def bg_nuevo : BigInt := ⟨1, []⟩

/-- Function `bg_prepend`: a new least-significant cell. -/
def bg_prepend (a : BigInt) (v : Nat) : BigInt := ⟨a.signo, v :: a.cabeza⟩

/-- Function `bg_append`: a new most-significant cell. -/
def bg_append (a : BigInt) (v : Nat) : BigInt := ⟨a.signo, a.cabeza ++ [v]⟩

/-! ## Parsing and printing -/

/-- The C library predicate `isspace` in the "C" locale. -/
def esEspacio (c : Char) : Bool :=
  c = ' ' || c = '\t' || c = '\n' || c = '\x0b' || c = '\x0c' || c = '\r'

/-- Digit accumulation of `atoi`: consumes decimal digits until the first
character that is not one. -/
def atoiDigitos : List Char → Nat → Nat
  | [], acc => acc
  | c :: cs, acc => if c.isDigit then atoiDigitos cs (10 * acc + (c.toNat - 48)) else acc

/-- The C library function `atoi`: leading white space, an optional sign, then
decimal digits (values outside the range of `int` are not modelled). -/
def atoi (buf : List Char) : Int :=
  match buf.dropWhile esEspacio with
  | '-' :: cs => - (atoiDigitos cs 0 : Int)
  | '+' :: cs => (atoiDigitos cs 0 : Int)
  | cs => (atoiDigitos cs 0 : Int)

/-- The conversion `(int)len` of a `size_t` to a 32-bit `int`. -/
def toInt32 (n : Nat) : Int :=
  if n % 4294967296 < 2147483648 then (n % 4294967296 : Nat) else (n % 4294967296 : Nat) - 4294967296

/-- The `for (int i = (int)len; i > 0; i -= DEC_DIGITS)` loop of
`bg_desde_cadena`.  The first argument bounds the number of iterations; the
caller passes `len`, which is never exhausted because `i` drops by 9 each
round. -/
def cadenaLoop : Nat → List Char → Int → BigInt → BigInt
  | 0, _, _, r => r
  | fuel + 1, s, i, r =>
    if 0 < i then
      let start : Int := if i - (DEC_DIGITS : Int) < 0 then 0 else i - (DEC_DIGITS : Int)
      let buf := (s.drop start.toNat).take (i - start).toNat
      let bloque := toU32 (atoi buf)
      cadenaLoop fuel s (i - (DEC_DIGITS : Int)) (bg_append r bloque)
    else r

/-- Function `bg_desde_cadena` on a NUL-terminated string given as the list of
its characters before the terminator. -/
def bg_desde_cadena (s : List Char) : BigInt :=
  let r0 := bg_nuevo
  let r1 : BigInt := match s with
    | '-' :: _ => ⟨-1, r0.cabeza⟩
    | _ => r0
  let s1 : List Char := match s with
    | '+' :: t => t
    | '-' :: t => t
    | _ => s
  let len := s1.length
  let r2 := cadenaLoop len s1 (toInt32 len) r1
  if r2.longitud = 0 then bg_append r2 0 else r2

/-- The conversion `printf("%u", v)`: the decimal numeral of `v`. -/
def printf_u (v : Nat) : List Char := Nat.toDigits 10 v

/-- The conversion `printf("%09u", v)`: the decimal numeral of `v`, padded on
the left with `0` to at least nine characters. -/
def printf_09u (v : Nat) : List Char :=
  List.replicate (DEC_DIGITS - (Nat.toDigits 10 v).length) '0' ++ Nat.toDigits 10 v

/-- The `for (int i = (int)n-2; i >= 0; i--) printf("%09u", bloques[i])` loop of
`printBigInt`; the argument is `i + 1`, the number of blocks still to print. -/
def printResto (bloques : List Nat) : Nat → List Char
  | 0 => []
  | i + 1 => printf_09u (bloques.getD i 0) ++ printResto bloques i

/-- Function `printBigInt`: the characters written to standard output.  With no
block at all the C code reads `bloques[n-1]` out of bounds; that case has no
result.  The padded blocks are printed from the `int` index `(int)n - 2` down
to `0`, so none is printed when that index is negative. -/
def printBigInt (a : BigInt) : Option (List Char) :=
  let bloques := a.cabeza
  let n := bloques.length
  if n = 0 then none
  else
    let i : Int := toInt32 n - 2
    some ((if a.signo < 0 then ['-'] else []) ++ printf_u (bloques.getD (n - 1) 0)
      ++ printResto bloques (i + 1).toNat ++ ['\n'])

/-! ## Comparator -/

/-- The descending loop of `compararMagnitud` over the copied arrays
`valores_a`, `valores_b`; the last argument is `i + 1`. -/
def compararDesde (va vb : List Nat) : Nat → Int
  | 0 => 0
  | i + 1 =>
    if va.getD i 0 > vb.getD i 0 then 1
    else if va.getD i 0 < vb.getD i 0 then -1
    else compararDesde va vb i

/-- Function `compararMagnitud`: the first `longitud` blocks of the two chains
are copied, and the copies are compared from the `int` index `(int)longitud - 1`
down to `0`; with a negative index no block is compared and the result is `0`. -/
def compararMagnitud (na nb : List Nat) (longitud : Nat) : Int :=
  let i : Int := toInt32 longitud - 1
  compararDesde (na.take longitud) (nb.take longitud) (i + 1).toNat

/-- Function `compararBigInt`. -/
def compararBigInt (a b : BigInt) : Int :=
  if a.signo > b.signo then 1
  else if a.signo < b.signo then -1
  else if a.longitud > b.longitud then a.signo
  else if a.longitud < b.longitud then -a.signo
  else
    let comparacion := compararMagnitud a.cabeza b.cabeza a.longitud
    if a.signo < 0 then -comparacion else comparacion

/-! ## Additive core -/

/-- The first `while (pa && pb)` loop of `sumarMagnitudes`: the result so far,
what is left of the two chains, and the carry. -/
def sumarAmbos (resultado : BigInt) :
    List Nat → List Nat → Nat → BigInt × List Nat × List Nat × Nat
  | pa :: as, pb :: bs, acarreo =>
    let suma := (pa + pb + acarreo) % 18446744073709551616
    sumarAmbos (bg_append resultado ((suma % DEC_BASE) % 4294967296)) as bs (suma / DEC_BASE)
  | as, bs, acarreo => (resultado, as, bs, acarreo)

/-- The `while (pa)` loop of `sumarMagnitudes`, also used for its `while (pb)`
loop: carry propagation through what is left of one chain. -/
def sumarResto (resultado : BigInt) : List Nat → Nat → BigInt × Nat
  | [], acarreo => (resultado, acarreo)
  | p :: ps, acarreo =>
    let suma := (p + acarreo) % 18446744073709551616
    sumarResto (bg_append resultado ((suma % DEC_BASE) % 4294967296)) ps (suma / DEC_BASE)

/-- Function `sumarMagnitudes`: the three loops in sequence, then the final
carry test. -/
def sumarMagnitudes (a b : BigInt) : BigInt :=
  let e1 := sumarAmbos bg_nuevo a.cabeza b.cabeza 0
  let e2 := sumarResto e1.1 e1.2.1 e1.2.2.2
  let e3 := sumarResto e2.1 e1.2.2.1 e2.2
  if e3.2 > 0 then bg_append e3.1 (e3.2 % 4294967296) else e3.1

/-- The two `while` loops of `restarMagnitudes`; blocks of `b` beyond the end of
`a` are never read. -/
def restarLoop (resultado : BigInt) : List Nat → List Nat → Int → BigInt
  | pa :: as, pb :: bs, prestamo =>
    let resta : Int := (pa : Int) - (pb : Int) - prestamo
    if resta < 0 then restarLoop (bg_append resultado (toU32 (resta + (DEC_BASE : Int)))) as bs 1
    else restarLoop (bg_append resultado (toU32 resta)) as bs 0
  | pa :: as, [], prestamo =>
    let resta : Int := (pa : Int) - prestamo
    if resta < 0 then restarLoop (bg_append resultado (toU32 (resta + (DEC_BASE : Int)))) as [] 1
    else restarLoop (bg_append resultado (toU32 resta)) as [] 0
  | [], _, _ => resultado

/-- Function `restarMagnitudes`. -/
def restarMagnitudes (a b : BigInt) : BigInt :=
  restarLoop bg_nuevo a.cabeza b.cabeza 0

/-- Function `sumar`. -/
def sumar (a b : BigInt) : BigInt :=
  if a.signo = b.signo then
    ⟨a.signo, (sumarMagnitudes a b).cabeza⟩
  else
    let max_len := if a.longitud > b.longitud then a.longitud else b.longitud
    let comparacion : Int :=
      if a.longitud > b.longitud then 1
      else if a.longitud < b.longitud then -1
      else compararMagnitud a.cabeza b.cabeza max_len
    if comparacion = 0 then bg_append bg_nuevo 0
    else if comparacion > 0 then ⟨a.signo, (restarMagnitudes a b).cabeza⟩
    else ⟨b.signo, (restarMagnitudes b a).cabeza⟩

/-! ## Multiplicative core -/

/-- The `for (int i = 0; i < despl_b; i++) bg_append(parcial, 0)` loop. -/
def mulCeros (parcial : BigInt) : Nat → BigInt
  | 0 => parcial
  | n + 1 => mulCeros (bg_append parcial 0) n

/-- The inner `while (pa)` loop of `multiplicar` and the carry test after it. -/
def mulFila (parcial : BigInt) : List Nat → Nat → Nat → BigInt
  | [], _, acarreo =>
    if acarreo > 0 then bg_append parcial (acarreo % 4294967296) else parcial
  | va :: as, vb, acarreo =>
    let producto := (va * vb + acarreo) % 18446744073709551616
    mulFila (bg_append parcial ((producto % DEC_BASE) % 4294967296)) as vb (producto / DEC_BASE)

/-- The outer `while (pb)` loop of `multiplicar`. -/
def mulLoop (a : BigInt) (resultado : BigInt) : List Nat → Nat → BigInt
  | [], _ => resultado
  | vb :: bs, despl_b =>
    let parcial := mulFila (mulCeros bg_nuevo despl_b) a.cabeza vb 0
    mulLoop a (sumar resultado parcial) bs (despl_b + 1)

/-- Function `multiplicar`. -/
def multiplicar (a b : BigInt) : BigInt :=
  ⟨a.signo * b.signo, (mulLoop a (bg_append bg_nuevo 0) b.cabeza 0).cabeza⟩

/-- Function `bg_clone`: a fresh chain with the same sign, built by appending
every block in order. -/
def bg_clone (a : BigInt) : BigInt :=
  a.cabeza.foldl bg_append ⟨a.signo, []⟩

/-- The `for (size_t i = 0; i < bloques; i++) bg_prepend(r, 0)` loop of
`bg_shift`. -/
def shiftLoop (r : BigInt) : Nat → BigInt
  | 0 => r
  | n + 1 => shiftLoop (bg_prepend r 0) n

/-- Function `bg_shift`: multiplication by `DEC_BASE ^ bloques`. -/
def bg_shift (a : BigInt) (bloques : Nat) : BigInt :=
  shiftLoop (bg_clone a) bloques

/-- Function `bg_sumar_magnitud`: `sumar` on copies forced to sign `+1`. -/
def bg_sumar_magnitud (a b : BigInt) : BigInt :=
  let temp_a : BigInt := ⟨1, (bg_clone a).cabeza⟩
  let temp_b : BigInt := ⟨1, (bg_clone b).cabeza⟩
  sumar temp_a temp_b

/-- Function `bg_restar_magnitud`: `sumar` on copies with signs `+1` and `-1`. -/
def bg_restar_magnitud (a b : BigInt) : BigInt :=
  let temp_a : BigInt := ⟨1, (bg_clone a).cabeza⟩
  let temp_b : BigInt := ⟨-1, (bg_clone b).cabeza⟩
  sumar temp_a temp_b

/-- The `while (p)` loop of `bg_split`, carrying the two halves and `idx`. -/
def splitLoop (m : Nat) : List Nat → Nat → BigInt → BigInt → BigInt × BigInt
  | [], _, pLow, pHigh => (pLow, pHigh)
  | v :: p, idx, pLow, pHigh =>
    if idx < m then splitLoop m p (idx + 1) (bg_append pLow v) pHigh
    else splitLoop m p (idx + 1) pLow (bg_append pHigh v)

/-- Function `bg_split`: the pair `(*pLow, *pHigh)`. -/
def bg_split (orig : BigInt) (m : Nat) : BigInt × BigInt :=
  let r := splitLoop m orig.cabeza 0 ⟨orig.signo, []⟩ ⟨orig.signo, []⟩
  if r.2.longitud = 0 then (r.1, bg_append r.2 0) else r

/-- Function `bg_multiplicarKaratsuba`.  The first argument bounds the depth of
the recursion; `none` means the bound was reached. -/
def bg_multiplicarKaratsuba : Nat → BigInt → BigInt → Option BigInt
  | 0, _, _ => none
  | fuel + 1, a, b =>
    let UMBRAL := 2
    if a.longitud ≤ UMBRAL ∨ b.longitud ≤ UMBRAL then some (multiplicar a b)
    else
      let max_len := if a.longitud > b.longitud then a.longitud else b.longitud
      let m := max_len / 2
      let lowA := (bg_split a m).1
      let highA := (bg_split a m).2
      let lowB := (bg_split b m).1
      let highB := (bg_split b m).2
      match bg_multiplicarKaratsuba fuel lowA lowB with
      | none => none
      | some z0 =>
        match bg_multiplicarKaratsuba fuel highA highB with
        | none => none
        | some z2 =>
          let sumA := bg_sumar_magnitud lowA highA
          let sumB := bg_sumar_magnitud lowB highB
          match bg_multiplicarKaratsuba fuel sumA sumB with
          | none => none
          | some z1_temp =>
            let temp1 := bg_restar_magnitud z1_temp z2
            let z1 := bg_restar_magnitud temp1 z0
            let z2_shifted := bg_shift z2 (2 * m)
            let z1_shifted := bg_shift z1 m
            let temp_sum1 := sumar z2_shifted z1_shifted
            let resultado := sumar temp_sum1 z0
            some ⟨a.signo * b.signo, resultado.cabeza⟩

/-! ## Division core -/

/-- Function `bg_es_cero`: exactly one block, equal to zero. -/
def bg_es_cero (a : BigInt) : Bool :=
  a.longitud = 1 ∧ a.cabeza.head? = some 0

/-- Function `bg_cero`. -/
def bg_cero : BigInt := bg_append bg_nuevo 0

/-- Function `bg_uno`. -/
def bg_uno : BigInt := bg_append bg_nuevo 1

/-- Outcomes of `bg_dividir_largo` other than a quotient and a remainder. -/
inductive DivError where
  | divisionPorCero
  | noTermina
deriving DecidableEq, Repr

/-- The correction loop `while (compararBigInt(resto, q_mul) < 0)` of
`bg_dividir_largo`, returning the final `q` and `q_mul`.  Its state is the
32-bit value `q` alone, so a run of `2^32` rounds without leaving the loop
would repeat for ever; the first argument counts the rounds still allowed and
`none` stands for that endless run. -/
def ajustarQ (resto divisor_pos : BigInt) : Nat → Nat → BigInt → Option (Nat × BigInt)
  | 0, _, _ => none
  | rondas + 1, q, q_mul =>
    if compararBigInt resto q_mul < 0 then
      let q1 := (q + 4294967295) % 4294967296
      ajustarQ resto divisor_pos rondas q1 (multiplicar divisor_pos (bg_append bg_nuevo q1))
    else some (q, q_mul)

/-- One round of the `for (int i = longitud - 1; i >= 0; i--)` loop of
`bg_dividir_largo` for the block `digito = digitos[i]`: the new `resto` and the
quotient block `q`. -/
def dividirPaso (divisor_pos resto : BigInt) (digito : Nat) : Option (BigInt × Nat) :=
  let resto1 := bg_shift resto 1
  let extra := bg_append bg_nuevo digito
  let resto2 := sumar resto1 extra
  if compararBigInt resto2 divisor_pos ≥ 0 then
    let r_val : Nat := resto2.cabeza.getLast?.getD 0
    let d_val0 : Nat := divisor_pos.cabeza.getLast?.getD 1
    let d_val : Nat := if d_val0 = 0 then 1 else d_val0
    let q0 : Nat := (r_val / d_val) % 4294967296
    let q : Nat := if q0 = 0 then 1 else q0
    let q_mul := multiplicar divisor_pos (bg_append bg_nuevo q)
    match ajustarQ resto2 divisor_pos 4294967296 q q_mul with
    | none => none
    | some (qf, q_mulf) => some (bg_restar_magnitud resto2 q_mulf, qf)
  else some (resto2, 0)

/-- The main loop of `bg_dividir_largo` over the blocks `digitos[i]` it visits,
most significant first, carrying `cociente` and `resto`. -/
def dividirLoop (divisor_pos : BigInt) : List Nat → BigInt → BigInt → Option (BigInt × BigInt)
  | [], cociente, resto => some (cociente, resto)
  | digito :: ds, cociente, resto =>
    match dividirPaso divisor_pos resto digito with
    | none => none
    | some (resto1, q) => dividirLoop divisor_pos ds (bg_append cociente q) resto1

/-- Function `bg_dividir_largo`: the pair `(cociente, *residuo)`, or the error
for the `exit(1)` on a zero divisor.  The main loop visits `digitos[i]` from the
`int` index `(int)dividendo_pos->longitud - 1` down to `0`. -/
def bg_dividir_largo (dividendo divisor : BigInt) : Except DivError (BigInt × BigInt) :=
  if bg_es_cero divisor then Except.error DivError.divisionPorCero
  else if bg_es_cero dividendo then Except.ok (bg_cero, bg_cero)
  else
    let dividendo_pos : BigInt := ⟨1, (bg_clone dividendo).cabeza⟩
    let divisor_pos : BigInt := ⟨1, (bg_clone divisor).cabeza⟩
    let cmp := compararBigInt dividendo_pos divisor_pos
    if cmp < 0 then Except.ok (bg_cero, dividendo_pos)
    else
      let i : Int := toInt32 dividendo_pos.longitud - 1
      match dividirLoop divisor_pos (dividendo_pos.cabeza.take (i + 1).toNat).reverse
          bg_nuevo bg_cero with
      | none => Except.error DivError.noTermina
      | some (cociente, resto) =>
        Except.ok (⟨dividendo.signo * divisor.signo, cociente.cabeza⟩,
          ⟨dividendo.signo, resto.cabeza⟩)

/-! ## Denotation and well-formedness -/

/-- The natural number denoted by a little-endian chain of blocks. -/
def valorLista : List Nat → Nat
  | [] => 0
  | v :: vs => v + DEC_BASE * valorLista vs

/-- The magnitude of a BigInt. -/
def BigInt.magnitud (a : BigInt) : Nat := valorLista a.cabeza

/-- The integer denoted by a BigInt: sign times magnitude. -/
def BigInt.valor (a : BigInt) : Int := a.signo * (a.magnitud : Int)

/-- Every block is below the radix. -/
def BloquesEnRango (l : List Nat) : Prop := ∀ v ∈ l, v < DEC_BASE

instance BloquesEnRango.decidable (l : List Nat) : Decidable (BloquesEnRango l) :=
  inferInstanceAs (Decidable (∀ v ∈ l, v < DEC_BASE))

/-- No most-significant zero block, unless the chain is the single block `0`. -/
def SinCeroLider (l : List Nat) : Prop := l.getLast? = some 0 → l = [0]

instance SinCeroLider.decidable (l : List Nat) : Decidable (SinCeroLider l) :=
  inferInstanceAs (Decidable (l.getLast? = some 0 → l = [0]))

/-- A well-formed BigInt: sign `+1` or `-1`, at least one block, every block
below the radix, no most-significant zero block unless the value is the single
block `0`. -/
def BienFormado (a : BigInt) : Prop :=
  (a.signo = 1 ∨ a.signo = -1) ∧ a.cabeza ≠ [] ∧ BloquesEnRango a.cabeza ∧
    SinCeroLider a.cabeza

instance BienFormado.decidable (a : BigInt) : Decidable (BienFormado a) :=
  inferInstanceAs (Decidable ((a.signo = 1 ∨ a.signo = -1) ∧ a.cabeza ≠ [] ∧
    BloquesEnRango a.cabeza ∧ SinCeroLider a.cabeza))

/-! ## The same multiplication with unbounded arithmetic

A second transcription of `multiplicar` and of the additive core it calls, in
which `uint64_t`, `int64_t` and `uint32_t` are replaced by unbounded numbers:
no reduction modulo `2^64`, no truncation to 32 bits. -/

/-- Loop `sumarAmbos` with unbounded arithmetic. -/
def sumarAmbosExacto (resultado : BigInt) :
    List Nat → List Nat → Nat → BigInt × List Nat × List Nat × Nat
  | pa :: as, pb :: bs, acarreo =>
    let suma := pa + pb + acarreo
    sumarAmbosExacto (bg_append resultado (suma % DEC_BASE)) as bs (suma / DEC_BASE)
  | as, bs, acarreo => (resultado, as, bs, acarreo)

/-- Loop `sumarResto` with unbounded arithmetic. -/
def sumarRestoExacto (resultado : BigInt) : List Nat → Nat → BigInt × Nat
  | [], acarreo => (resultado, acarreo)
  | p :: ps, acarreo =>
    let suma := p + acarreo
    sumarRestoExacto (bg_append resultado (suma % DEC_BASE)) ps (suma / DEC_BASE)

/-- Function `sumarMagnitudes` with unbounded arithmetic. -/
def sumarMagnitudesExacto (a b : BigInt) : BigInt :=
  let e1 := sumarAmbosExacto bg_nuevo a.cabeza b.cabeza 0
  let e2 := sumarRestoExacto e1.1 e1.2.1 e1.2.2.2
  let e3 := sumarRestoExacto e2.1 e1.2.2.1 e2.2
  if e3.2 > 0 then bg_append e3.1 e3.2 else e3.1

/-- Loop `restarLoop` with unbounded arithmetic. -/
def restarLoopExacto (resultado : BigInt) : List Nat → List Nat → Int → BigInt
  | pa :: as, pb :: bs, prestamo =>
    let resta : Int := (pa : Int) - (pb : Int) - prestamo
    if resta < 0 then
      restarLoopExacto (bg_append resultado (resta + (DEC_BASE : Int)).toNat) as bs 1
    else restarLoopExacto (bg_append resultado resta.toNat) as bs 0
  | pa :: as, [], prestamo =>
    let resta : Int := (pa : Int) - prestamo
    if resta < 0 then
      restarLoopExacto (bg_append resultado (resta + (DEC_BASE : Int)).toNat) as [] 1
    else restarLoopExacto (bg_append resultado resta.toNat) as [] 0
  | [], _, _ => resultado

/-- Function `restarMagnitudes` with unbounded arithmetic. -/
def restarMagnitudesExacto (a b : BigInt) : BigInt :=
  restarLoopExacto bg_nuevo a.cabeza b.cabeza 0

/-- Function `sumar` with unbounded arithmetic. -/
def sumarExacto (a b : BigInt) : BigInt :=
  if a.signo = b.signo then
    ⟨a.signo, (sumarMagnitudesExacto a b).cabeza⟩
  else
    let max_len := if a.longitud > b.longitud then a.longitud else b.longitud
    let comparacion : Int :=
      if a.longitud > b.longitud then 1
      else if a.longitud < b.longitud then -1
      else compararMagnitud a.cabeza b.cabeza max_len
    if comparacion = 0 then bg_append bg_nuevo 0
    else if comparacion > 0 then ⟨a.signo, (restarMagnitudesExacto a b).cabeza⟩
    else ⟨b.signo, (restarMagnitudesExacto b a).cabeza⟩

/-- Loop `mulFila` with unbounded arithmetic. -/
def mulFilaExacto (parcial : BigInt) : List Nat → Nat → Nat → BigInt
  | [], _, acarreo => if acarreo > 0 then bg_append parcial acarreo else parcial
  | va :: as, vb, acarreo =>
    let producto := va * vb + acarreo
    mulFilaExacto (bg_append parcial (producto % DEC_BASE)) as vb (producto / DEC_BASE)

/-- Loop `mulLoop` with unbounded arithmetic. -/
def mulLoopExacto (a : BigInt) (resultado : BigInt) : List Nat → Nat → BigInt
  | [], _ => resultado
  | vb :: bs, despl_b =>
    let parcial := mulFilaExacto (mulCeros bg_nuevo despl_b) a.cabeza vb 0
    mulLoopExacto a (sumarExacto resultado parcial) bs (despl_b + 1)

/-- Function `multiplicar` with unbounded arithmetic. -/
def multiplicarExacto (a b : BigInt) : BigInt :=
  ⟨a.signo * b.signo, (mulLoopExacto a (bg_append bg_nuevo 0) b.cabeza 0).cabeza⟩

/-- The unreduced values `pa->valor * pb->valor + acarreo` met by the inner loop
of `multiplicar` for one block `vb` of `b`, computed without wrap-around, each
paired with the carry `producto / DEC_BASE` it leaves. -/
def mulFilaIntermedios : List Nat → Nat → Nat → List (Nat × Nat)
  | [], _, _ => []
  | va :: as, vb, acarreo =>
    (va * vb + acarreo, (va * vb + acarreo) / DEC_BASE)
      :: mulFilaIntermedios as vb ((va * vb + acarreo) / DEC_BASE)

/-! ## Decimal text -/

/-- The number written by a list of decimal digit characters, most significant
first. -/
def valorDecimal (ds : List Char) : Nat :=
  ds.foldl (fun acc c => 10 * acc + (c.toNat - 48)) 0

/-- Every character is an ASCII decimal digit. -/
def SonDigitos (ds : List Char) : Prop := ∀ c ∈ ds, c.isDigit = true

instance SonDigitos.decidable (ds : List Char) : Decidable (SonDigitos ds) :=
  inferInstanceAs (Decidable (∀ c ∈ ds, c.isDigit = true))

/-- Text `ds` is the canonical numeral of the natural number `n`: a non-empty
run of digits, with no leading `0` unless it is the single digit `0`, which
writes `n`. -/
def EsNumeralCanonico (ds : List Char) (n : Nat) : Prop :=
  ds ≠ [] ∧ SonDigitos ds ∧ (ds.head? = some '0' → ds = ['0']) ∧ valorDecimal ds = n

instance EsNumeralCanonico.decidable (ds : List Char) (n : Nat) :
    Decidable (EsNumeralCanonico ds n) :=
  inferInstanceAs (Decidable (ds ≠ [] ∧ SonDigitos ds ∧
    (ds.head? = some '0' → ds = ['0']) ∧ valorDecimal ds = n))

/-- Text `t` is the canonical decimal form of the integer `v`: a leading `-`
exactly when `v` is negative, followed by the canonical numeral of `|v|`. -/
def EsFormaCanonica (t : List Char) (v : Int) : Prop :=
  if v < 0 then t.head? = some '-' ∧ EsNumeralCanonico t.tail v.natAbs
  else EsNumeralCanonico t v.natAbs

instance EsFormaCanonica.decidable (t : List Char) (v : Int) :
    Decidable (EsFormaCanonica t v) :=
  inferInstanceAs (Decidable (if v < 0 then
    t.head? = some '-' ∧ EsNumeralCanonico t.tail v.natAbs
    else EsNumeralCanonico t v.natAbs))

/-- The integer written by an optional sign character and a run of digits. -/
def valorTexto (signo : Option Char) (ds : List Char) : Int :=
  if signo = some '-' then - (valorDecimal ds : Int) else (valorDecimal ds : Int)

/-- The characters of an optional sign followed by a run of digits. -/
def textoCon (signo : Option Char) (ds : List Char) : List Char :=
  match signo with
  | some c => c :: ds
  | none => ds

/-! ## Sign flip -/

/-- The sign flip `negate` of the specification: the same chain with the
opposite sign.  `arbitrary.c` has no function for it; its callers set `signo`
directly, as `bg_restar_magnitud` does. -/
def negar (a : BigInt) : BigInt := ⟨-a.signo, a.cabeza⟩

/-! ## Behaviour on the inputs of the test functions -/

/-- C1: the division identity fails on the input of `test_division`.  For
`a = 123456789012345678901234567890` and `b = 1234567890` the function returns
the quotient `[0, 1, 1, 1]` and the remainder `[0, 111111010, 222221121, 122, 0]`,
and `sumar (multiplicar q b) r` denotes
`1234568013456789012345678900000000000`, not `a`. -/
theorem division_identidad_falla :
    bg_dividir_largo (bg_desde_cadena "123456789012345678901234567890".toList)
        (bg_desde_cadena "1234567890".toList)
      = Except.ok (⟨1, [0, 1, 1, 1]⟩, ⟨1, [0, 111111010, 222221121, 122, 0]⟩) ∧
    (sumar (multiplicar ⟨1, [0, 1, 1, 1]⟩ (bg_desde_cadena "1234567890".toList))
        ⟨1, [0, 111111010, 222221121, 122, 0]⟩).valor
      = 1234568013456789012345678900000000000 ∧
    (bg_desde_cadena "123456789012345678901234567890".toList).valor
      = 123456789012345678901234567890 := by
  refine ⟨by rfl, by decide, by decide⟩

/-- C2: the remainder bound fails for `a = 10`, `b = 3`.  The function returns
quotient `1` and the remainder `[7, 0]`, whose magnitude `7` is not below the
magnitude `3` of the divisor. -/
theorem division_residuo_no_acotado :
    bg_dividir_largo (bg_desde_cadena "10".toList) (bg_desde_cadena "3".toList)
      = Except.ok (⟨1, [1]⟩, ⟨1, [7, 0]⟩) ∧
    (⟨1, [7, 0]⟩ : BigInt).magnitud = 7 ∧
    (bg_desde_cadena "3".toList).magnitud = 3 ∧
    ¬ ((⟨1, [7, 0]⟩ : BigInt).magnitud < (bg_desde_cadena "3".toList).magnitud) := by
  refine ⟨by rfl, by decide, by decide, by decide⟩

/-- C3: Karatsuba and schoolbook multiplication disagree on operands of opposite
sign.  For `a = 10^18 + 1` and `b = -(10^18 + 1)`, at every recursion bound of
at least two, `bg_multiplicarKaratsuba` returns `[1, 0, 999999998, 999999999, 0]`
with sign `-1`, while `multiplicar` returns `[1, 0, 2, 0, 1]` with sign `-1`,
which denotes `a * b`. -/
theorem karatsuba_signos_opuestos_difiere (n : Nat) :
    bg_multiplicarKaratsuba (n + 2) (bg_desde_cadena "1000000000000000001".toList)
        (bg_desde_cadena "-1000000000000000001".toList)
      = some ⟨-1, [1, 0, 999999998, 999999999, 0]⟩ ∧
    multiplicar (bg_desde_cadena "1000000000000000001".toList)
        (bg_desde_cadena "-1000000000000000001".toList)
      = ⟨-1, [1, 0, 2, 0, 1]⟩ ∧
    (⟨-1, [1, 0, 999999998, 999999999, 0]⟩ : BigInt).valor
      = -999999999999999998000000000000000001 ∧
    (⟨-1, [1, 0, 2, 0, 1]⟩ : BigInt).valor
      = (bg_desde_cadena "1000000000000000001".toList).valor
        * (bg_desde_cadena "-1000000000000000001".toList).valor := by
  refine ⟨by rfl, by decide, by decide, by decide⟩

/-- C4: Karatsuba and schoolbook multiplication disagree on two positive
well-formed operands of three and eight blocks.  For `a = 1999999999999999999`
and `b = 10^63 + 10^45 + 10^27 + 999999999000000000`, at every recursion bound
of at least four, `bg_multiplicarKaratsuba` returns a twelve-block chain whose
value is not `a * b`, while `multiplicar` returns the ten-block chain of
`a * b`. -/
theorem karatsuba_positivos_difiere (n : Nat) :
    bg_multiplicarKaratsuba (n + 4) (bg_desde_cadena "1999999999999999999".toList)
        (bg_desde_cadena
          "1000000000000000001000000000000000001000000000999999999000000000".toList)
      = some ⟨1, [0, 1, 999999999, 999999996, 1, 1, 0, 1, 0, 2, 0, 999999999]⟩ ∧
    multiplicar (bg_desde_cadena "1999999999999999999".toList)
        (bg_desde_cadena
          "1000000000000000001000000000000000001000000000999999999000000000".toList)
      = ⟨1, [0, 1, 999999999, 999999996, 1, 1, 0, 1, 0, 2]⟩ ∧
    (⟨1, [0, 1, 999999999, 999999996, 1, 1, 0, 1, 0, 2, 0, 999999999]⟩ : BigInt).valor
      ≠ (⟨1, [0, 1, 999999999, 999999996, 1, 1, 0, 1, 0, 2]⟩ : BigInt).valor ∧
    (⟨1, [0, 1, 999999999, 999999996, 1, 1, 0, 1, 0, 2]⟩ : BigInt).valor
      = (bg_desde_cadena "1999999999999999999".toList).valor
        * (bg_desde_cadena
          "1000000000000000001000000000000000001000000000999999999000000000".toList).valor := by
  refine ⟨by rfl, by decide, by decide, by decide⟩

/-- On the fixed 51-digit operands of `test_multiplicar` the two multiplications
return the same twelve blocks, at every recursion bound of at least three. -/
theorem karatsuba_prueba_fija (n : Nat) :
    bg_multiplicarKaratsuba (n + 3)
        (bg_desde_cadena "314159265358979323846264338327950288419716939937510".toList)
        (bg_desde_cadena "271828182845904523536028747135266249775724709369995".toList)
      = some ⟨1, [769012450, 238592126, 576232159, 136349617, 833014653, 650690581,
          348885357, 465744950, 635508695, 735670654, 397342226, 85]⟩ ∧
    multiplicar
        (bg_desde_cadena "314159265358979323846264338327950288419716939937510".toList)
        (bg_desde_cadena "271828182845904523536028747135266249775724709369995".toList)
      = ⟨1, [769012450, 238592126, 576232159, 136349617, 833014653, 650690581,
          348885357, 465744950, 635508695, 735670654, 397342226, 85]⟩ := by
  refine ⟨by rfl, by decide⟩

/-- C6: the third case of `test_suma` does not print `1`.  For
`s = 1000000000000000000` and `t = -999999999999999999` the sum is the
three-block chain `[1, 0, 0]` and `printBigInt` writes `0000000000000000001`,
which is not the canonical decimal form of `1`. -/
theorem suma_impresa_no_canonica :
    sumar (bg_desde_cadena "1000000000000000000".toList)
        (bg_desde_cadena "-999999999999999999".toList) = ⟨1, [1, 0, 0]⟩ ∧
    printBigInt (sumar (bg_desde_cadena "1000000000000000000".toList)
        (bg_desde_cadena "-999999999999999999".toList))
      = some ("0000000000000000001".toList ++ ['\n']) ∧
    ¬ EsFormaCanonica "0000000000000000001".toList
        ((bg_desde_cadena "1000000000000000000".toList).valor
          + (bg_desde_cadena "-999999999999999999".toList).valor) := by
  refine ⟨by decide, by decide, by decide⟩

/-- C9: addition is not associative on `a = 1000000000`, `b = -999999999`,
`c = -5`.  The left grouping yields `[999999996, 999999999]` with sign `+1`
(value `999999999999999996`), the right grouping yields `[4, 0]` with sign `-1`
(value `-4`, the true sum), and `compararBigInt` of the two is `1`. -/
theorem suma_no_asociativa :
    sumar (sumar (bg_desde_cadena "1000000000".toList) (bg_desde_cadena "-999999999".toList))
        (bg_desde_cadena "-5".toList) = ⟨1, [999999996, 999999999]⟩ ∧
    sumar (bg_desde_cadena "1000000000".toList)
        (sumar (bg_desde_cadena "-999999999".toList) (bg_desde_cadena "-5".toList))
      = ⟨-1, [4, 0]⟩ ∧
    (⟨1, [999999996, 999999999]⟩ : BigInt).valor = 999999999999999996 ∧
    (⟨-1, [4, 0]⟩ : BigInt).valor = -4 ∧
    compararBigInt ⟨1, [999999996, 999999999]⟩ ⟨-1, [4, 0]⟩ = 1 := by
  refine ⟨by decide, by decide, by decide, by decide, by decide⟩

theorem BienFormado.no_vacio {a : BigInt} (h : BienFormado a) : a.cabeza ≠ [] := h.2.1
theorem BienFormado.en_rango {a : BigInt} (h : BienFormado a) : BloquesEnRango a.cabeza := h.2.2.1
theorem DEC_BASE_eq : DEC_BASE = 1000000000 := rfl

theorem DEC_BASE_pos : 0 < DEC_BASE := by decide

theorem valorLista_append (l1 l2 : List Nat) :
    valorLista (l1 ++ l2) = valorLista l1 + DEC_BASE ^ l1.length * valorLista l2 := by
  induction l1 with
  | nil => simp [valorLista]
  | cons v vs ih =>
    show valorLista (v :: (vs ++ l2)) = _
    simp only [valorLista, ih, List.length_cons, pow_succ]
    ring

theorem valorLista_lt (l : List Nat) (h : BloquesEnRango l) :
    valorLista l < DEC_BASE ^ l.length := by
  induction l with
  | nil => simp [valorLista]
  | cons v vs ih =>
    have hv : v < DEC_BASE := h v (List.mem_cons_self _ _)
    have hvs : valorLista vs < DEC_BASE ^ vs.length :=
      ih (fun x hx => h x (List.mem_cons_of_mem _ hx))
    simp only [valorLista, List.length_cons, pow_succ]
    nlinarith [DEC_BASE_pos]

theorem bloquesEnRango_nil : BloquesEnRango [] := by
  intro v hv; cases hv

theorem bloquesEnRango_cons {v : Nat} {l : List Nat} :
    BloquesEnRango (v :: l) ↔ v < DEC_BASE ∧ BloquesEnRango l := by
  simp [BloquesEnRango]

theorem bloquesEnRango_append {l1 l2 : List Nat} :
    BloquesEnRango (l1 ++ l2) ↔ BloquesEnRango l1 ∧ BloquesEnRango l2 := by
  simp only [BloquesEnRango, List.mem_append]
  constructor
  · intro h
    exact ⟨fun v hv => h v (Or.inl hv), fun v hv => h v (Or.inr hv)⟩
  · rintro ⟨h1, h2⟩ v (hv | hv)
    · exact h1 v hv
    · exact h2 v hv

theorem foldl_bg_append (l : List Nat) (r : BigInt) :
    l.foldl bg_append r = ⟨r.signo, r.cabeza ++ l⟩ := by
  induction l generalizing r with
  | nil => simp
  | cons v vs ih => simp [ih, bg_append]

theorem bg_clone_eq (a : BigInt) : bg_clone a = a := by
  simp [bg_clone, foldl_bg_append]

/-! ## Commutativity of the additive core -/

theorem sumarAmbos_nil_left (r : BigInt) (bs : List Nat) (c : Nat) :
    sumarAmbos r [] bs c = (r, [], bs, c) := by
  simp [sumarAmbos]

theorem sumarAmbos_nil_right (r : BigInt) (as : List Nat) (c : Nat) :
    sumarAmbos r as [] c = (r, as, [], c) := by
  cases as <;> simp [sumarAmbos]

theorem sumarAmbos_swap (as bs : List Nat) (r : BigInt) (c : Nat) :
    sumarAmbos r bs as c =
      ((sumarAmbos r as bs c).1, (sumarAmbos r as bs c).2.2.1,
        (sumarAmbos r as bs c).2.1, (sumarAmbos r as bs c).2.2.2) := by
  induction as generalizing bs r c with
  | nil => simp [sumarAmbos_nil_left, sumarAmbos_nil_right]
  | cons pa as ih =>
    cases bs with
    | nil => simp [sumarAmbos_nil_left, sumarAmbos_nil_right]
    | cons pb bs =>
      simp only [sumarAmbos]
      rw [ih, Nat.add_comm pb pa]

theorem sumarAmbos_resto_vacio (as bs : List Nat) (r : BigInt) (c : Nat) :
    (sumarAmbos r as bs c).2.1 = [] ∨ (sumarAmbos r as bs c).2.2.1 = [] := by
  induction as generalizing bs r c with
  | nil => simp [sumarAmbos_nil_left]
  | cons pa as ih =>
    cases bs with
    | nil => simp [sumarAmbos_nil_right]
    | cons pb bs =>
      simp only [sumarAmbos]
      exact ih _ _ _

theorem sumarResto_nil (r : BigInt) (c : Nat) : sumarResto r [] c = (r, c) := rfl

theorem sumarMagnitudes_comm (a b : BigInt) : sumarMagnitudes a b = sumarMagnitudes b a := by
  unfold sumarMagnitudes
  rw [sumarAmbos_swap a.cabeza b.cabeza]
  rcases sumarAmbos_resto_vacio a.cabeza b.cabeza bg_nuevo 0 with h | h
  · simp only [h, sumarResto_nil]
  · simp only [h, sumarResto_nil]

theorem compararDesde_antisimetrica (va vb : List Nat) (n : Nat) :
    compararDesde vb va n = - compararDesde va vb n := by
  induction n with
  | zero => simp [compararDesde]
  | succ i ih =>
    simp only [compararDesde, gt_iff_lt, ih]
    generalize va.getD i 0 = x
    generalize vb.getD i 0 = y
    split_ifs <;> first | rfl | omega

theorem compararMagnitud_antisimetrica (na nb : List Nat) (n : Nat) :
    compararMagnitud nb na n = - compararMagnitud na nb n := by
  unfold compararMagnitud
  exact compararDesde_antisimetrica _ _ _

theorem sumar_conmutativa (a b : BigInt) : sumar a b = sumar b a := by
  unfold sumar
  by_cases hs : a.signo = b.signo
  · simp only [hs, if_true, sumarMagnitudes_comm a b]
  · have hs2 : ¬ b.signo = a.signo := fun h => hs h.symm
    simp only [hs, hs2, if_false]
    rcases Nat.lt_trichotomy a.longitud b.longitud with h | h | h
    · have h2 : ¬ a.longitud > b.longitud := by omega
      simp [h, h2, bg_append, bg_nuevo]
    · rw [compararMagnitud_antisimetrica b.cabeza a.cabeza, h]
      simp only [gt_iff_lt, lt_irrefl, if_false, neg_eq_zero, Left.neg_pos_iff]
      rcases lt_trichotomy (compararMagnitud b.cabeza a.cabeza b.longitud) 0 with hc | hc | hc
      · simp [hc, hc.ne, not_lt_of_gt hc]
      · simp [hc]
      · simp [hc, hc.ne', not_lt_of_gt hc]
    · have h2 : ¬ a.longitud < b.longitud := by omega
      simp [h, h2, bg_append, bg_nuevo]

/-! ## Machine arithmetic agrees with unbounded arithmetic on blocks in range -/

theorem sumarResto_eq_exacto (ps : List Nat) (r : BigInt) (c : Nat)
    (hp : BloquesEnRango ps) (hc : c ≤ 1) :
    sumarResto r ps c = sumarRestoExacto r ps c := by
  induction ps generalizing r c with
  | nil => rfl
  | cons p ps ih =>
    have hp1 : p < 1000000000 := hp p (List.mem_cons_self _ _)
    have hps : BloquesEnRango ps := fun x hx => hp x (List.mem_cons_of_mem _ hx)
    have h1 : (p + c) % 18446744073709551616 = p + c := Nat.mod_eq_of_lt (by omega)
    have h2 : ((p + c) % DEC_BASE) % 4294967296 = (p + c) % DEC_BASE := by
      rw [DEC_BASE_eq]; omega
    have h3 : (p + c) / DEC_BASE ≤ 1 := by rw [DEC_BASE_eq]; omega
    simp only [sumarResto, sumarRestoExacto, h1, h2]
    exact ih _ _ hps h3

theorem sumarAmbos_eq_exacto (as bs : List Nat) (r : BigInt) (c : Nat)
    (ha : BloquesEnRango as) (hb : BloquesEnRango bs) (hc : c ≤ 1) :
    sumarAmbos r as bs c = sumarAmbosExacto r as bs c := by
  induction as generalizing bs r c with
  | nil => simp [sumarAmbos, sumarAmbosExacto]
  | cons pa as ih =>
    cases bs with
    | nil => simp [sumarAmbos, sumarAmbosExacto]
    | cons pb bs =>
      have hpa : pa < 1000000000 := ha pa (List.mem_cons_self _ _)
      have hpb : pb < 1000000000 := hb pb (List.mem_cons_self _ _)
      have has : BloquesEnRango as := fun x hx => ha x (List.mem_cons_of_mem _ hx)
      have hbs : BloquesEnRango bs := fun x hx => hb x (List.mem_cons_of_mem _ hx)
      have h1 : (pa + pb + c) % 18446744073709551616 = pa + pb + c :=
        Nat.mod_eq_of_lt (by omega)
      have h2 : ((pa + pb + c) % DEC_BASE) % 4294967296 = (pa + pb + c) % DEC_BASE := by
        rw [DEC_BASE_eq]; omega
      have h3 : (pa + pb + c) / DEC_BASE ≤ 1 := by rw [DEC_BASE_eq]; omega
      simp only [sumarAmbos, sumarAmbosExacto, h1, h2]
      exact ih _ _ _ has hbs h3

/-! ## The additive loops with unbounded arithmetic -/

theorem sumarRestoExacto_spec (ps : List Nat) (r : BigInt) (c : Nat)
    (hp : BloquesEnRango ps) (hc : c ≤ 1) :
    ∃ ys c', sumarRestoExacto r ps c = (⟨r.signo, r.cabeza ++ ys⟩, c') ∧
      ys.length = ps.length ∧ BloquesEnRango ys ∧ c' ≤ 1 ∧
      valorLista ys + DEC_BASE ^ ps.length * c' = valorLista ps + c := by
  induction ps generalizing r c with
  | nil => exact ⟨[], c, by simp [sumarRestoExacto], rfl, bloquesEnRango_nil, hc, by simp [valorLista]⟩
  | cons p ps ih =>
    have hp1 : p < 1000000000 := hp p (List.mem_cons_self _ _)
    have hps : BloquesEnRango ps := fun x hx => hp x (List.mem_cons_of_mem _ hx)
    have h3 : (p + c) / DEC_BASE ≤ 1 := by rw [DEC_BASE_eq]; omega
    obtain ⟨ys, c', he, hl, hr, hc', hv⟩ := ih (bg_append r ((p + c) % DEC_BASE)) _ hps h3
    refine ⟨(p + c) % DEC_BASE :: ys, c', ?_, by simp [hl], ?_, hc', ?_⟩
    · simp only [sumarRestoExacto]
      rw [he]
      simp [bg_append]
    · exact bloquesEnRango_cons.mpr ⟨Nat.mod_lt _ DEC_BASE_pos, hr⟩
    · have hm := Nat.mod_add_div (p + c) DEC_BASE
      simp only [valorLista, List.length_cons, pow_succ]
      zify at hv hm ⊢
      linear_combination hm + (DEC_BASE : ℤ) * hv

theorem sumarAmbosExacto_spec (as bs : List Nat) (r : BigInt) (c : Nat)
    (ha : BloquesEnRango as) (hb : BloquesEnRango bs) (hc : c ≤ 1) :
    ∃ xs as' bs' c', sumarAmbosExacto r as bs c = (⟨r.signo, r.cabeza ++ xs⟩, as', bs', c') ∧
      (as' = [] ∨ bs' = []) ∧ BloquesEnRango xs ∧ BloquesEnRango as' ∧ BloquesEnRango bs' ∧
      c' ≤ 1 ∧ xs.length + as'.length = as.length ∧ xs.length + bs'.length = bs.length ∧
      valorLista xs + DEC_BASE ^ xs.length * (valorLista as' + valorLista bs' + c')
        = valorLista as + valorLista bs + c := by
  induction as generalizing bs r c with
  | nil =>
    exact ⟨[], [], bs, c, by simp [sumarAmbosExacto], Or.inl rfl, bloquesEnRango_nil,
      bloquesEnRango_nil, hb, hc, rfl, by simp, by simp [valorLista]⟩
  | cons pa as ih =>
    cases bs with
    | nil =>
      exact ⟨[], pa :: as, [], c, by simp [sumarAmbosExacto], Or.inr rfl, bloquesEnRango_nil,
        ha, bloquesEnRango_nil, hc, by simp, rfl, by simp [valorLista]⟩
    | cons pb bs =>
      have hpa : pa < 1000000000 := ha pa (List.mem_cons_self _ _)
      have hpb : pb < 1000000000 := hb pb (List.mem_cons_self _ _)
      have has : BloquesEnRango as := fun x hx => ha x (List.mem_cons_of_mem _ hx)
      have hbs : BloquesEnRango bs := fun x hx => hb x (List.mem_cons_of_mem _ hx)
      have h3 : (pa + pb + c) / DEC_BASE ≤ 1 := by rw [DEC_BASE_eq]; omega
      obtain ⟨xs, as', bs', c', he, hor, hrx, hra, hrb, hc', hla, hlb, hv⟩ :=
        ih bs (bg_append r ((pa + pb + c) % DEC_BASE)) _ has hbs h3
      refine ⟨(pa + pb + c) % DEC_BASE :: xs, as', bs', c', ?_, hor, ?_, hra, hrb, hc',
        by simp; omega, by simp; omega, ?_⟩
      · simp only [sumarAmbosExacto]
        rw [he]
        simp [bg_append]
      · exact bloquesEnRango_cons.mpr ⟨Nat.mod_lt _ DEC_BASE_pos, hrx⟩
      · have hm := Nat.mod_add_div (pa + pb + c) DEC_BASE
        simp only [valorLista, List.length_cons, pow_succ]
        zify at hv hm ⊢
        linear_combination hm + (DEC_BASE : ℤ) * hv

theorem sumarMagnitudesExacto_spec (a b : BigInt)
    (ha : BloquesEnRango a.cabeza) (hb : BloquesEnRango b.cabeza) :
    ∃ zs, sumarMagnitudesExacto a b = ⟨1, zs⟩ ∧ BloquesEnRango zs ∧
      valorLista zs = valorLista a.cabeza + valorLista b.cabeza ∧
      max a.cabeza.length b.cabeza.length ≤ zs.length ∧
      zs.length ≤ max a.cabeza.length b.cabeza.length + 1 := by
  obtain ⟨xs, as', bs', c1, he1, hor, hrx, hra, hrb, hc1, hla, hlb, hv1⟩ :=
    sumarAmbosExacto_spec a.cabeza b.cabeza bg_nuevo 0 ha hb (Nat.zero_le _)
  obtain ⟨ys, c2, he2, hly, hry, hc2, hv2⟩ :=
    sumarRestoExacto_spec as' ⟨bg_nuevo.signo, bg_nuevo.cabeza ++ xs⟩ c1 hra hc1
  obtain ⟨ws, c3, he3, hlw, hrw, hc3, hv3⟩ :=
    sumarRestoExacto_spec bs' ⟨bg_nuevo.signo, bg_nuevo.cabeza ++ xs ++ ys⟩ c2 hrb hc2
  have hpos : 0 < DEC_BASE ^ xs.length := pow_pos DEC_BASE_pos _
  have hkey : valorLista (xs ++ ys ++ ws) + DEC_BASE ^ (xs ++ ys ++ ws).length * c3
      = valorLista a.cabeza + valorLista b.cabeza := by
    rcases hor with h | h
    · subst h
      simp only [List.length_nil, valorLista, pow_zero, one_mul] at hv2 hly
      have hys : ys = [] := List.length_eq_zero.mp hly
      subst hys
      simp only [valorLista, zero_add] at hv2
      subst hv2
      simp only [List.append_nil, valorLista_append, List.length_append, hlw, pow_add,
        valorLista, zero_add] at hv1 ⊢
      zify at hv1 hv3 ⊢
      linear_combination hv1 + (DEC_BASE : ℤ) ^ xs.length * hv3
    · subst h
      simp only [List.length_nil, valorLista, pow_zero, one_mul] at hv3 hlw
      have hws : ws = [] := List.length_eq_zero.mp hlw
      subst hws
      simp only [valorLista, zero_add] at hv3
      subst hv3
      simp only [List.append_nil, valorLista_append, List.length_append, hly, pow_add,
        valorLista, add_zero] at hv1 ⊢
      zify at hv1 hv2 ⊢
      linear_combination hv1 + (DEC_BASE : ℤ) ^ xs.length * hv2
  have hlen : (xs ++ ys ++ ws).length = max a.cabeza.length b.cabeza.length := by
    simp only [List.length_append, hly, hlw]
    rcases hor with h | h <;> subst h <;> simp at hla hlb ⊢ <;> omega
  have hrxyw : BloquesEnRango (xs ++ ys ++ ws) :=
    bloquesEnRango_append.mpr ⟨bloquesEnRango_append.mpr ⟨hrx, hry⟩, hrw⟩
  have hdef : sumarMagnitudesExacto a b
      = if c3 > 0 then ⟨1, xs ++ ys ++ ws ++ [c3]⟩ else ⟨1, xs ++ ys ++ ws⟩ := by
    simp only [sumarMagnitudesExacto, he1, he2, he3]
    simp [bg_nuevo, bg_append]
  by_cases h0 : c3 > 0
  · have hc31 : c3 = 1 := by omega
    refine ⟨xs ++ ys ++ ws ++ [c3], by rw [hdef, if_pos h0], ?_, ?_, ?_, ?_⟩
    · refine bloquesEnRango_append.mpr ⟨hrxyw, ?_⟩
      intro v hv
      simp only [List.mem_singleton] at hv
      rw [hv, hc31, DEC_BASE_eq]; omega
    · rw [valorLista_append, ← hkey]
      simp [valorLista]
    · simp only [List.length_append, List.length_singleton] at hlen ⊢; omega
    · simp only [List.length_append, List.length_singleton] at hlen ⊢; omega
  · have hc30 : c3 = 0 := by omega
    refine ⟨xs ++ ys ++ ws, by rw [hdef, if_neg h0], hrxyw, ?_, by omega, by omega⟩
    rw [← hkey, hc30]; simp

theorem sumarMagnitudes_eq_exacto (a b : BigInt)
    (ha : BloquesEnRango a.cabeza) (hb : BloquesEnRango b.cabeza) :
    sumarMagnitudes a b = sumarMagnitudesExacto a b := by
  obtain ⟨xs, as', bs', c1, he1, _, _, hra, hrb, hc1, _, _, _⟩ :=
    sumarAmbosExacto_spec a.cabeza b.cabeza bg_nuevo 0 ha hb (Nat.zero_le _)
  obtain ⟨ys, c2, he2, _, _, hc2, _⟩ :=
    sumarRestoExacto_spec as' ⟨bg_nuevo.signo, bg_nuevo.cabeza ++ xs⟩ c1 hra hc1
  obtain ⟨ws, c3, he3, _, _, hc3, _⟩ :=
    sumarRestoExacto_spec bs' ⟨bg_nuevo.signo, bg_nuevo.cabeza ++ xs ++ ys⟩ c2 hrb hc2
  have h1 := sumarAmbos_eq_exacto a.cabeza b.cabeza bg_nuevo 0 ha hb (Nat.zero_le _)
  have h2 := sumarResto_eq_exacto as' ⟨bg_nuevo.signo, bg_nuevo.cabeza ++ xs⟩ c1 hra hc1
  have h3 := sumarResto_eq_exacto bs' ⟨bg_nuevo.signo, bg_nuevo.cabeza ++ xs ++ ys⟩ c2 hrb hc2
  have h4 : c3 % 4294967296 = c3 := Nat.mod_eq_of_lt (by omega)
  simp only [sumarMagnitudes, sumarMagnitudesExacto, h1, he1, h2, he2, h3, he3, h4]

theorem toU32_of_rango (x : Int) (h0 : 0 ≤ x) (h1 : x < 4294967296) : toU32 x = x.toNat := by
  unfold toU32
  rw [Int.emod_eq_of_lt h0 h1]

theorem restarLoop_eq_exacto (as bs : List Nat) (r : BigInt) (p : Int)
    (ha : BloquesEnRango as) (hb : BloquesEnRango bs) (hp : p = 0 ∨ p = 1) :
    restarLoop r as bs p = restarLoopExacto r as bs p := by
  induction as generalizing bs r p with
  | nil => simp [restarLoop, restarLoopExacto]
  | cons pa as ih =>
    have hpa : pa < 1000000000 := ha pa (List.mem_cons_self _ _)
    have has : BloquesEnRango as := fun x hx => ha x (List.mem_cons_of_mem _ hx)
    cases bs with
    | nil =>
      simp only [restarLoop, restarLoopExacto]
      by_cases hneg : (pa : Int) - p < 0
      · rw [if_pos hneg, if_pos hneg,
          toU32_of_rango _ (by rw [DEC_BASE_eq]; omega) (by rw [DEC_BASE_eq]; omega)]
        exact ih [] _ 1 has bloquesEnRango_nil (Or.inr rfl)
      · rw [if_neg hneg, if_neg hneg, toU32_of_rango _ (by omega) (by omega)]
        exact ih [] _ 0 has bloquesEnRango_nil (Or.inl rfl)
    | cons pb bs =>
      have hpb : pb < 1000000000 := hb pb (List.mem_cons_self _ _)
      have hbs : BloquesEnRango bs := fun x hx => hb x (List.mem_cons_of_mem _ hx)
      simp only [restarLoop, restarLoopExacto]
      by_cases hneg : (pa : Int) - (pb : Int) - p < 0
      · rw [if_pos hneg, if_pos hneg,
          toU32_of_rango _ (by rw [DEC_BASE_eq]; omega) (by rw [DEC_BASE_eq]; omega)]
        exact ih bs _ 1 has hbs (Or.inr rfl)
      · rw [if_neg hneg, if_neg hneg, toU32_of_rango _ (by omega) (by omega)]
        exact ih bs _ 0 has hbs (Or.inl rfl)

theorem restarMagnitudes_eq_exacto (a b : BigInt)
    (ha : BloquesEnRango a.cabeza) (hb : BloquesEnRango b.cabeza) :
    restarMagnitudes a b = restarMagnitudesExacto a b :=
  restarLoop_eq_exacto _ _ _ _ ha hb (Or.inl rfl)

theorem sumar_eq_exacto (a b : BigInt)
    (ha : BloquesEnRango a.cabeza) (hb : BloquesEnRango b.cabeza) :
    sumar a b = sumarExacto a b := by
  simp only [sumar, sumarExacto, sumarMagnitudes_eq_exacto a b ha hb,
    restarMagnitudes_eq_exacto a b ha hb, restarMagnitudes_eq_exacto b a hb ha]

/-- The borrow-propagating subtraction: when the subtrahend has no more blocks
than the minuend, the result has the length of the minuend, stays in range and
denotes the difference modulo `DEC_BASE ^ length`. -/
theorem restarLoopExacto_spec (as bs : List Nat) (r : BigInt) (p : Int)
    (ha : BloquesEnRango as) (hb : BloquesEnRango bs) (hp : p = 0 ∨ p = 1)
    (hl : bs.length ≤ as.length) :
    ∃ xs, ∃ p' : Int, restarLoopExacto r as bs p = ⟨r.signo, r.cabeza ++ xs⟩ ∧
      xs.length = as.length ∧ BloquesEnRango xs ∧ (p' = 0 ∨ p' = 1) ∧
      (valorLista xs : Int)
        = (valorLista as : Int) - (valorLista bs : Int) - p
          + p' * (DEC_BASE : Int) ^ as.length := by
  induction as generalizing bs r p with
  | nil =>
    have hbs : bs = [] := List.length_eq_zero.mp (Nat.le_zero.mp hl)
    subst hbs
    rcases hp with hp | hp
    · exact ⟨[], 0, by simp [restarLoopExacto], rfl, bloquesEnRango_nil, Or.inl rfl,
        by simp [valorLista, hp]⟩
    · exact ⟨[], 1, by simp [restarLoopExacto], rfl, bloquesEnRango_nil, Or.inr rfl,
        by simp [valorLista, hp]⟩
  | cons pa as ih =>
    have hpa : pa < 1000000000 := ha pa (List.mem_cons_self _ _)
    have has : BloquesEnRango as := fun x hx => ha x (List.mem_cons_of_mem _ hx)
    cases bs with
    | nil =>
      by_cases hneg : (pa : Int) - p < 0
      · obtain ⟨xs, p', he, hlx, hrx, hp', hv⟩ :=
          ih [] (bg_append r ((pa : Int) - p + (DEC_BASE : Int)).toNat) 1 has
            bloquesEnRango_nil (Or.inr rfl) (Nat.zero_le _)
        refine ⟨((pa : Int) - p + (DEC_BASE : Int)).toNat :: xs, p', ?_, by simp [hlx], ?_,
          hp', ?_⟩
        · simp only [restarLoopExacto, if_pos hneg]
          rw [he]; simp [bg_append]
        · refine bloquesEnRango_cons.mpr ⟨?_, hrx⟩
          rw [DEC_BASE_eq] at *; omega
        · have hcast : ((((pa : Int) - p + (DEC_BASE : Int)).toNat : Nat) : Int)
              = (pa : Int) - p + (DEC_BASE : Int) :=
            Int.toNat_of_nonneg (by rw [DEC_BASE_eq]; omega)
          simp only [valorLista, List.length_cons, pow_succ, Nat.cast_add, Nat.cast_mul,
            hcast, Nat.cast_zero] at hv ⊢
          linear_combination (DEC_BASE : Int) * hv
      · obtain ⟨xs, p', he, hlx, hrx, hp', hv⟩ :=
          ih [] (bg_append r ((pa : Int) - p).toNat) 0 has
            bloquesEnRango_nil (Or.inl rfl) (Nat.zero_le _)
        refine ⟨((pa : Int) - p).toNat :: xs, p', ?_, by simp [hlx], ?_, hp', ?_⟩
        · simp only [restarLoopExacto, if_neg hneg]
          rw [he]; simp [bg_append]
        · refine bloquesEnRango_cons.mpr ⟨?_, hrx⟩
          rw [DEC_BASE_eq] at *; omega
        · have hcast : ((((pa : Int) - p).toNat : Nat) : Int) = (pa : Int) - p :=
            Int.toNat_of_nonneg (by omega)
          simp only [valorLista, List.length_cons, pow_succ, Nat.cast_add, Nat.cast_mul,
            hcast, Nat.cast_zero] at hv ⊢
          linear_combination (DEC_BASE : Int) * hv
    | cons pb bs =>
      have hpb : pb < 1000000000 := hb pb (List.mem_cons_self _ _)
      have hbs : BloquesEnRango bs := fun x hx => hb x (List.mem_cons_of_mem _ hx)
      have hl' : bs.length ≤ as.length := by simpa using hl
      by_cases hneg : (pa : Int) - (pb : Int) - p < 0
      · obtain ⟨xs, p', he, hlx, hrx, hp', hv⟩ :=
          ih bs (bg_append r ((pa : Int) - (pb : Int) - p + (DEC_BASE : Int)).toNat) 1 has
            hbs (Or.inr rfl) hl'
        refine ⟨((pa : Int) - (pb : Int) - p + (DEC_BASE : Int)).toNat :: xs, p', ?_,
          by simp [hlx], ?_, hp', ?_⟩
        · simp only [restarLoopExacto, if_pos hneg]
          rw [he]; simp [bg_append]
        · refine bloquesEnRango_cons.mpr ⟨?_, hrx⟩
          rw [DEC_BASE_eq] at *; omega
        · have hcast : ((((pa : Int) - (pb : Int) - p + (DEC_BASE : Int)).toNat : Nat) : Int)
              = (pa : Int) - (pb : Int) - p + (DEC_BASE : Int) :=
            Int.toNat_of_nonneg (by rw [DEC_BASE_eq]; omega)
          simp only [valorLista, List.length_cons, pow_succ, Nat.cast_add, Nat.cast_mul,
            hcast] at hv ⊢
          linear_combination (DEC_BASE : Int) * hv
      · obtain ⟨xs, p', he, hlx, hrx, hp', hv⟩ :=
          ih bs (bg_append r ((pa : Int) - (pb : Int) - p).toNat) 0 has hbs (Or.inl rfl) hl'
        refine ⟨((pa : Int) - (pb : Int) - p).toNat :: xs, p', ?_, by simp [hlx], ?_, hp', ?_⟩
        · simp only [restarLoopExacto, if_neg hneg]
          rw [he]; simp [bg_append]
        · refine bloquesEnRango_cons.mpr ⟨?_, hrx⟩
          rw [DEC_BASE_eq] at *; omega
        · have hcast : ((((pa : Int) - (pb : Int) - p).toNat : Nat) : Int)
              = (pa : Int) - (pb : Int) - p :=
            Int.toNat_of_nonneg (by omega)
          simp only [valorLista, List.length_cons, pow_succ, Nat.cast_add, Nat.cast_mul,
            hcast] at hv ⊢
          linear_combination (DEC_BASE : Int) * hv

theorem toInt32_pequeno (n : Nat) (h : n < 2147483648) : toInt32 n = (n : Int) := by
  unfold toInt32
  have h1 : n % 4294967296 = n := Nat.mod_eq_of_lt (by omega)
  rw [h1, if_pos h]

/-- C8: addition is commutative.  For all BigInts `a` and `b`, `sumar a b` and
`sumar b a` are the same BigInt, with the same sign and the same chain of
blocks; the restriction to signs `+1`, `-1` and blocks below `10^9` is not
needed. -/
theorem sumar_es_conmutativa (a b : BigInt) :
    sumar a b = sumar b a ∧ (sumar a b).signo = (sumar b a).signo ∧
      (sumar a b).cabeza = (sumar b a).cabeza := by
  have h := sumar_conmutativa a b
  exact ⟨h, by rw [h], by rw [h]⟩

theorem mulCeros_eq (n : Nat) (p : BigInt) :
    mulCeros p n = ⟨p.signo, p.cabeza ++ List.replicate n 0⟩ := by
  induction n generalizing p with
  | zero => simp [mulCeros]
  | succ n ih =>
    simp only [mulCeros, ih, bg_append, List.append_assoc, List.singleton_append]
    rw [← List.replicate_succ, List.replicate_succ']

theorem valorLista_replicate_cero (n : Nat) : valorLista (List.replicate n 0) = 0 := by
  induction n with
  | zero => rfl
  | succ n ih => simp [List.replicate_succ, valorLista, ih]

theorem bloquesEnRango_replicate_cero (n : Nat) : BloquesEnRango (List.replicate n 0) := by
  intro v hv
  rw [List.eq_of_mem_replicate hv]
  exact DEC_BASE_pos

theorem producto_acotado (va vb c : Nat) (ha : va < DEC_BASE) (hb : vb < DEC_BASE)
    (hc : c < DEC_BASE) :
    va * vb + c < 18446744073709551616 ∧ (va * vb + c) / DEC_BASE < DEC_BASE := by
  rw [DEC_BASE_eq] at *
  have h1 : va * vb ≤ 999999999 * 999999999 := Nat.mul_le_mul (by omega) (by omega)
  constructor
  · omega
  · apply Nat.div_lt_of_lt_mul
    omega

theorem mulFila_eq_exacto (as : List Nat) (p : BigInt) (vb c : Nat)
    (ha : BloquesEnRango as) (hb : vb < DEC_BASE) (hc : c < DEC_BASE) :
    mulFila p as vb c = mulFilaExacto p as vb c := by
  induction as generalizing p c with
  | nil =>
    have h : c % 4294967296 = c := Nat.mod_eq_of_lt (by rw [DEC_BASE_eq] at hc; omega)
    simp [mulFila, mulFilaExacto, h]
  | cons va as ih =>
    have hva : va < DEC_BASE := ha va (List.mem_cons_self _ _)
    have has : BloquesEnRango as := fun x hx => ha x (List.mem_cons_of_mem _ hx)
    obtain ⟨h1, h2⟩ := producto_acotado va vb c hva hb hc
    have e1 : (va * vb + c) % 18446744073709551616 = va * vb + c := Nat.mod_eq_of_lt h1
    have e2 : ((va * vb + c) % DEC_BASE) % 4294967296 = (va * vb + c) % DEC_BASE := by
      have := Nat.mod_lt (va * vb + c) DEC_BASE_pos
      rw [DEC_BASE_eq] at this ⊢
      omega
    simp only [mulFila, mulFilaExacto, e1, e2]
    exact ih _ _ has h2

theorem mulFilaExacto_spec (as : List Nat) (p : BigInt) (vb c : Nat)
    (ha : BloquesEnRango as) (hb : vb < DEC_BASE) (hc : c < DEC_BASE) :
    ∃ xs, mulFilaExacto p as vb c = ⟨p.signo, p.cabeza ++ xs⟩ ∧ BloquesEnRango xs ∧
      valorLista xs = valorLista as * vb + c := by
  induction as generalizing p c with
  | nil =>
    by_cases h0 : c > 0
    · refine ⟨[c], by simp [mulFilaExacto, h0, bg_append], ?_, by simp [valorLista]⟩
      intro v hv
      simp only [List.mem_singleton] at hv
      rw [hv]; exact hc
    · have : c = 0 := by omega
      subst this
      exact ⟨[], by simp [mulFilaExacto], bloquesEnRango_nil, by simp [valorLista]⟩
  | cons va as ih =>
    have hva : va < DEC_BASE := ha va (List.mem_cons_self _ _)
    have has : BloquesEnRango as := fun x hx => ha x (List.mem_cons_of_mem _ hx)
    obtain ⟨_, h2⟩ := producto_acotado va vb c hva hb hc
    obtain ⟨xs, he, hr, hv⟩ := ih (bg_append p ((va * vb + c) % DEC_BASE)) _ has h2
    refine ⟨(va * vb + c) % DEC_BASE :: xs, ?_, ?_, ?_⟩
    · simp only [mulFilaExacto]
      rw [he]; simp [bg_append]
    · exact bloquesEnRango_cons.mpr ⟨Nat.mod_lt _ DEC_BASE_pos, hr⟩
    · have hm := Nat.mod_add_div (va * vb + c) DEC_BASE
      simp only [valorLista]
      zify at hv hm ⊢
      linear_combination hm + (DEC_BASE : ℤ) * hv

theorem mulFilaIntermedios_acotados (as : List Nat) (vb c : Nat)
    (ha : BloquesEnRango as) (hb : vb < DEC_BASE) (hc : c < DEC_BASE) :
    ∀ p ∈ mulFilaIntermedios as vb c, p.1 < 18446744073709551616 ∧ p.2 < DEC_BASE := by
  induction as generalizing c with
  | nil => intro p hp; simp [mulFilaIntermedios] at hp
  | cons va as ih =>
    have hva : va < DEC_BASE := ha va (List.mem_cons_self _ _)
    have has : BloquesEnRango as := fun x hx => ha x (List.mem_cons_of_mem _ hx)
    obtain ⟨h1, h2⟩ := producto_acotado va vb c hva hb hc
    intro p hp
    simp only [mulFilaIntermedios, List.mem_cons] at hp
    rcases hp with hp | hp
    · rw [hp]; exact ⟨h1, h2⟩
    · exact ih _ has h2 p hp

/-- One round of the outer loop: the partial product of `a` by the block `vb`,
shifted by `d` blocks. -/
theorem parcial_spec (a : BigInt) (vb d : Nat) (ha : BloquesEnRango a.cabeza)
    (hb : vb < DEC_BASE) :
    ∃ ps, mulFilaExacto (mulCeros bg_nuevo d) a.cabeza vb 0 = ⟨1, ps⟩ ∧ BloquesEnRango ps ∧
      valorLista ps = DEC_BASE ^ d * (valorLista a.cabeza * vb) := by
  obtain ⟨xs, he, hr, hv⟩ :=
    mulFilaExacto_spec a.cabeza (mulCeros bg_nuevo d) vb 0 ha hb DEC_BASE_pos
  refine ⟨List.replicate d 0 ++ xs, ?_, ?_, ?_⟩
  · rw [he, mulCeros_eq]; simp [bg_nuevo]
  · exact bloquesEnRango_append.mpr ⟨bloquesEnRango_replicate_cero d, hr⟩
  · rw [valorLista_append, valorLista_replicate_cero, hv]
    simp

theorem mulLoop_spec (a : BigInt) (ha : BloquesEnRango a.cabeza) (bs : List Nat) :
    ∀ (res : BigInt) (d : Nat), BloquesEnRango bs → res.signo = 1 → BloquesEnRango res.cabeza →
      mulLoop a res bs d = mulLoopExacto a res bs d ∧
      (mulLoopExacto a res bs d).signo = 1 ∧
      BloquesEnRango (mulLoopExacto a res bs d).cabeza ∧
      valorLista (mulLoopExacto a res bs d).cabeza
        = valorLista res.cabeza + DEC_BASE ^ d * (valorLista a.cabeza * valorLista bs) := by
  induction bs with
  | nil =>
    intro res d _ hs hr
    simp [mulLoop, mulLoopExacto, hs, hr, valorLista]
  | cons vb bs ih =>
    intro res d hb hs hr
    have hvb : vb < DEC_BASE := hb vb (List.mem_cons_self _ _)
    have hbs : BloquesEnRango bs := fun x hx => hb x (List.mem_cons_of_mem _ hx)
    obtain ⟨ps, hp, hpr, hpv⟩ := parcial_spec a vb d ha hvb
    have hpm : mulFila (mulCeros bg_nuevo d) a.cabeza vb 0 = ⟨1, ps⟩ := by
      rw [mulFila_eq_exacto a.cabeza _ vb 0 ha hvb DEC_BASE_pos, hp]
    have hss : res.signo = (⟨1, ps⟩ : BigInt).signo := hs
    obtain ⟨zs, hz, hzr, hzv, _, _⟩ := sumarMagnitudesExacto_spec res ⟨1, ps⟩ hr hpr
    have hsx : sumarExacto res ⟨1, ps⟩ = ⟨1, zs⟩ := by
      unfold sumarExacto
      rw [if_pos hss, hz, hs]
    have hsm : sumar res ⟨1, ps⟩ = ⟨1, zs⟩ := by
      rw [sumar_eq_exacto res ⟨1, ps⟩ hr hpr, hsx]
    obtain ⟨e1, e2, e3, e4⟩ := ih ⟨1, zs⟩ (d + 1) hbs rfl hzr
    simp only [mulLoop, mulLoopExacto, hpm, hp, hsm, hsx]
    refine ⟨e1, e2, e3, ?_⟩
    rw [e4]
    simp only [hzv, hpv, valorLista, pow_succ]
    ring

theorem multiplicar_spec (a b : BigInt) (ha : BloquesEnRango a.cabeza)
    (hb : BloquesEnRango b.cabeza) :
    multiplicar a b = multiplicarExacto a b ∧
    (multiplicar a b).signo = a.signo * b.signo ∧
    BloquesEnRango (multiplicar a b).cabeza ∧
    (multiplicar a b).magnitud = a.magnitud * b.magnitud := by
  have h0 : BloquesEnRango (bg_append bg_nuevo 0).cabeza := by decide
  obtain ⟨e1, _, e3, e4⟩ := mulLoop_spec a ha b.cabeza (bg_append bg_nuevo 0) 0 hb rfl h0
  have hm : multiplicar a b = multiplicarExacto a b := by
    simp only [multiplicar, multiplicarExacto, e1]
  refine ⟨hm, rfl, ?_, ?_⟩
  · rw [hm]; exact e3
  · rw [hm]
    simp only [BigInt.magnitud, multiplicarExacto, e4]
    simp [bg_append, bg_nuevo, valorLista]

/-- C10: schoolbook multiplication is value-correct.  For operands with signs in
`{+1, -1}` and every block below `10^9`, the result has sign
`a.signo * b.signo` (again `+1` or `-1`) and magnitude `|a| * |b|`, so it
denotes `valor a * valor b`; every unreduced `block * block + carry` of the
inner loop is below `2^64` and leaves a carry below `10^9`; and the function
computes the same BigInt as its transcription with unbounded arithmetic. -/
theorem multiplicar_correcta (a b : BigInt)
    (hsa : a.signo = 1 ∨ a.signo = -1) (hsb : b.signo = 1 ∨ b.signo = -1)
    (ha : BloquesEnRango a.cabeza) (hb : BloquesEnRango b.cabeza) :
    (multiplicar a b).signo = a.signo * b.signo ∧
    ((multiplicar a b).signo = 1 ∨ (multiplicar a b).signo = -1) ∧
    (multiplicar a b).magnitud = a.magnitud * b.magnitud ∧
    (multiplicar a b).valor = a.valor * b.valor ∧
    (∀ vb ∈ b.cabeza, ∀ p ∈ mulFilaIntermedios a.cabeza vb 0,
      p.1 < 18446744073709551616 ∧ p.2 < DEC_BASE) ∧
    multiplicar a b = multiplicarExacto a b := by
  obtain ⟨h1, h2, _, h4⟩ := multiplicar_spec a b ha hb
  refine ⟨h2, ?_, h4, ?_, ?_, h1⟩
  · rw [h2]
    rcases hsa with h | h <;> rcases hsb with h' | h' <;> simp [h, h']
  · unfold BigInt.valor
    rw [h2, h4]
    push_cast
    ring
  · intro vb hvb
    exact mulFilaIntermedios_acotados a.cabeza vb 0 ha (hb vb hvb) DEC_BASE_pos

/-- Witness for C10 at `a = -999999999999999999`, `b = 999999999`: the
hypotheses hold and the product denotes `valor a * valor b`. -/
theorem multiplicar_correcta_testigo :
    ((-1 : Int) = 1 ∨ (-1 : Int) = -1) ∧ ((1 : Int) = 1 ∨ (1 : Int) = -1) ∧
    BloquesEnRango [999999999, 999999999] ∧ BloquesEnRango [999999999] ∧
    (multiplicar ⟨-1, [999999999, 999999999]⟩ ⟨1, [999999999]⟩).valor
      = (⟨-1, [999999999, 999999999]⟩ : BigInt).valor * (⟨1, [999999999]⟩ : BigInt).valor :=
  ⟨by decide, by decide, by decide, by decide,
    (multiplicar_correcta ⟨-1, [999999999, 999999999]⟩ ⟨1, [999999999]⟩
      (by decide) (by decide) (by decide) (by decide)).2.2.2.1⟩

/-! ## Decimal numerals -/

theorem digito_le_nueve (c : Char) (h : c.isDigit = true) : c.toNat - 48 ≤ 9 := by
  simp only [Char.isDigit, Bool.and_eq_true, decide_eq_true_eq] at h
  have h2 : c.val.toNat ≤ 57 := by
    have := h.2
    exact UInt32.le_def.mp this
  unfold Char.toNat
  omega

theorem foldl_decimal (ys : List Char) (acc : Nat) :
    ys.foldl (fun acc c => 10 * acc + (c.toNat - 48)) acc
      = acc * 10 ^ ys.length + valorDecimal ys := by
  unfold valorDecimal
  induction ys generalizing acc with
  | nil => simp
  | cons c cs ih =>
    simp only [List.foldl_cons, List.length_cons, pow_succ]
    rw [ih, ih (10 * 0 + (c.toNat - 48))]
    ring

theorem valorDecimal_nil : valorDecimal [] = 0 := rfl

theorem valorDecimal_append (xs ys : List Char) :
    valorDecimal (xs ++ ys) = valorDecimal xs * 10 ^ ys.length + valorDecimal ys := by
  unfold valorDecimal
  rw [List.foldl_append, foldl_decimal]
  rfl

theorem valorDecimal_cons (c : Char) (cs : List Char) :
    valorDecimal (c :: cs) = (c.toNat - 48) * 10 ^ cs.length + valorDecimal cs := by
  have := valorDecimal_append [c] cs
  simpa [valorDecimal] using this

theorem sonDigitos_append {xs ys : List Char} :
    SonDigitos (xs ++ ys) ↔ SonDigitos xs ∧ SonDigitos ys := by
  simp only [SonDigitos, List.mem_append]
  constructor
  · intro h
    exact ⟨fun v hv => h v (Or.inl hv), fun v hv => h v (Or.inr hv)⟩
  · rintro ⟨h1, h2⟩ v (hv | hv)
    · exact h1 v hv
    · exact h2 v hv

theorem sonDigitos_take {ds : List Char} (h : SonDigitos ds) (k : Nat) :
    SonDigitos (ds.take k) := fun c hc => h c (List.mem_of_mem_take hc)

theorem sonDigitos_drop {ds : List Char} (h : SonDigitos ds) (k : Nat) :
    SonDigitos (ds.drop k) := fun c hc => h c (List.mem_of_mem_drop hc)

theorem valorDecimal_lt (ds : List Char) (h : SonDigitos ds) :
    valorDecimal ds < 10 ^ ds.length := by
  induction ds with
  | nil => simp [valorDecimal]
  | cons c cs ih =>
    have hc := digito_le_nueve c (h c (List.mem_cons_self _ _))
    have hcs := ih (fun x hx => h x (List.mem_cons_of_mem _ hx))
    rw [valorDecimal_cons, List.length_cons, pow_succ]
    nlinarith

/-! ## The library function `atoi` on a run of digits -/

theorem atoiDigitos_eq (cs : List Char) (acc : Nat) (h : SonDigitos cs) :
    atoiDigitos cs acc = cs.foldl (fun acc c => 10 * acc + (c.toNat - 48)) acc := by
  induction cs generalizing acc with
  | nil => rfl
  | cons c cs ih =>
    have hc : c.isDigit = true := h c (List.mem_cons_self _ _)
    simp only [atoiDigitos, hc, if_true, List.foldl_cons]
    exact ih _ (fun x hx => h x (List.mem_cons_of_mem _ hx))

theorem digito_no_espacio (c : Char) (h : c.isDigit = true) :
    esEspacio c = false ∧ c ≠ '-' ∧ c ≠ '+' := by
  simp only [Char.isDigit, Bool.and_eq_true, decide_eq_true_eq] at h
  have h1 : 48 ≤ c.val.toNat := UInt32.le_def.mp h.1
  have hne : ∀ d : Char, d.val.toNat < 48 → c ≠ d := by
    intro d hd hcd
    rw [hcd] at h1
    omega
  refine ⟨?_, hne '-' (by decide), hne '+' (by decide)⟩
  simp only [esEspacio, Bool.or_eq_false_iff, decide_eq_false_iff_not]
  exact ⟨⟨⟨⟨⟨hne ' ' (by decide), hne '\t' (by decide)⟩, hne '\n' (by decide)⟩,
    hne '\x0b' (by decide)⟩, hne '\x0c' (by decide)⟩, hne '\r' (by decide)⟩

theorem atoi_digitos (buf : List Char) (h : SonDigitos buf) :
    atoi buf = (valorDecimal buf : Int) := by
  cases buf with
  | nil => rfl
  | cons c cs =>
    obtain ⟨h1, h2, h3⟩ := digito_no_espacio c (h c (List.mem_cons_self _ _))
    have hd : (c :: cs).dropWhile esEspacio = c :: cs := by
      simp [List.dropWhile, h1]
    unfold atoi
    rw [hd]
    split
    · rename_i heq
      exact absurd (List.cons.inj heq).1 h2
    · rename_i heq
      exact absurd (List.cons.inj heq).1 h3
    · rw [atoiDigitos_eq _ _ h]
      rfl

theorem toU32_atoi_digitos (buf : List Char) (h : SonDigitos buf) (hl : buf.length ≤ 9) :
    toU32 (atoi buf) = valorDecimal buf ∧ valorDecimal buf < DEC_BASE := by
  have hlt := valorDecimal_lt buf h
  have hpow : 10 ^ buf.length ≤ 10 ^ 9 := Nat.pow_le_pow_right (by decide) hl
  have hb : valorDecimal buf < 1000000000 := by
    have : (10 : Nat) ^ 9 = 1000000000 := by norm_num
    omega
  refine ⟨?_, hb⟩
  rw [atoi_digitos buf h, toU32_of_rango _ (by omega) (by omega)]
  simp

/-! ## The conversions `%u` and `%09u` -/

theorem digitChar_decimal (m : Nat) (hm : m < 10) :
    (Nat.digitChar m).isDigit = true ∧ (Nat.digitChar m).toNat - 48 = m ∧
      (Nat.digitChar m = '0' → m = 0) := by
  interval_cases m <;> decide

/-- What `Nat.toDigitsCore 10` puts in front of its accumulator, given enough
fuel: the canonical numeral of `n`. -/
theorem toDigitsCore_diez (fuel : Nat) :
    ∀ (n : Nat) (acc : List Char), n < fuel →
      ∃ ds, Nat.toDigitsCore 10 fuel n acc = ds ++ acc ∧ ds ≠ [] ∧ SonDigitos ds ∧
        valorDecimal ds = n ∧ (n = 0 → ds = ['0']) ∧
        (n ≠ 0 → ds.head? ≠ some '0' ∧ 10 ^ (ds.length - 1) ≤ n) := by
  induction fuel with
  | zero => intro n acc h; omega
  | succ fuel ih =>
    intro n acc hn
    obtain ⟨hd1, hd2, hd3⟩ := digitChar_decimal (n % 10) (Nat.mod_lt _ (by decide))
    by_cases h0 : n / 10 = 0
    · have hlt : n < 10 := by omega
      have hmod : n % 10 = n := Nat.mod_eq_of_lt hlt
      refine ⟨[Nat.digitChar (n % 10)], by simp [Nat.toDigitsCore, h0], by simp, ?_, ?_, ?_, ?_⟩
      · intro c hc
        simp only [List.mem_singleton] at hc
        rw [hc]; exact hd1
      · simp only [valorDecimal, List.foldl_cons, List.foldl_nil, hd2]
        omega
      · intro hz
        subst hz
        rfl
      · intro hnz
        refine ⟨?_, by simp; omega⟩
        intro hh
        simp only [List.head?_cons, Option.some.injEq] at hh
        exact hnz (by have := hd3 hh; omega)
    · obtain ⟨ds, he, hne, hdig, hval, _, hnz⟩ :=
        ih (n / 10) (Nat.digitChar (n % 10) :: acc) (by omega)
      obtain ⟨hhead, hlen⟩ := hnz h0
      refine ⟨ds ++ [Nat.digitChar (n % 10)], ?_, by simp, ?_, ?_, ?_, ?_⟩
      · simp only [Nat.toDigitsCore, h0, if_false]
        rw [he]; simp
      · refine sonDigitos_append.mpr ⟨hdig, ?_⟩
        intro c hc
        simp only [List.mem_singleton] at hc
        rw [hc]; exact hd1
      · rw [valorDecimal_append, hval]
        simp only [List.length_singleton, pow_one, valorDecimal, List.foldl_cons,
          List.foldl_nil, hd2]
        omega
      · intro hz; omega
      · intro _
        constructor
        · cases ds with
          | nil => exact absurd rfl hne
          | cons c cs => simpa using hhead
        · have hl1 : 1 ≤ ds.length := List.length_pos.mpr hne
          have e : (ds ++ [Nat.digitChar (n % 10)]).length - 1 = (ds.length - 1) + 1 := by
            simp; omega
          rw [e, pow_succ]
          omega

theorem toDigits_diez (n : Nat) :
    (Nat.toDigits 10 n) ≠ [] ∧ SonDigitos (Nat.toDigits 10 n) ∧
      valorDecimal (Nat.toDigits 10 n) = n ∧ (n = 0 → Nat.toDigits 10 n = ['0']) ∧
      (n ≠ 0 → (Nat.toDigits 10 n).head? ≠ some '0' ∧
        10 ^ ((Nat.toDigits 10 n).length - 1) ≤ n) := by
  obtain ⟨ds, he, h1, h2, h3, h4, h5⟩ := toDigitsCore_diez (n + 1) n [] (Nat.lt_succ_self n)
  have : Nat.toDigits 10 n = ds := by
    unfold Nat.toDigits
    rw [he]; simp
  rw [this]
  exact ⟨h1, h2, h3, h4, h5⟩

theorem toDigits_length_le (n : Nat) (h : n < DEC_BASE) : (Nat.toDigits 10 n).length ≤ 9 := by
  obtain ⟨h1, _, _, h4, h5⟩ := toDigits_diez n
  by_cases hz : n = 0
  · rw [h4 hz]; decide
  · obtain ⟨_, hl⟩ := h5 hz
    by_contra hcon
    have h9 : 9 ≤ (Nat.toDigits 10 n).length - 1 := by omega
    have : 10 ^ 9 ≤ 10 ^ ((Nat.toDigits 10 n).length - 1) :=
      Nat.pow_le_pow_right (by decide) h9
    rw [DEC_BASE_eq] at h
    have e : (10 : Nat) ^ 9 = 1000000000 := by norm_num
    omega

theorem valorDecimal_replicate_cero (k : Nat) : valorDecimal (List.replicate k '0') = 0 := by
  induction k with
  | zero => rfl
  | succ k ih =>
    rw [List.replicate_succ, valorDecimal_cons, ih]
    have : '0'.toNat - 48 = 0 := by decide
    rw [this]
    simp

theorem printf_09u_spec (v : Nat) (h : v < DEC_BASE) :
    (printf_09u v).length = 9 ∧ SonDigitos (printf_09u v) ∧ valorDecimal (printf_09u v) = v := by
  obtain ⟨_, h2, h3, _, _⟩ := toDigits_diez v
  have hl := toDigits_length_le v h
  unfold printf_09u
  refine ⟨?_, ?_, ?_⟩
  · simp only [List.length_append, List.length_replicate, DEC_DIGITS]
    omega
  · refine sonDigitos_append.mpr ⟨?_, h2⟩
    intro c hc
    rw [List.eq_of_mem_replicate hc]
    decide
  · rw [valorDecimal_append, valorDecimal_replicate_cero, h3]
    simp

/-- The blocks `i-1, ..., 0` of `v :: rest` are the blocks `i-2, ..., 0` of
`rest` followed by `v`. -/
theorem printResto_cons (v : Nat) (rest : List Nat) (k : Nat) :
    printResto (v :: rest) (k + 1) = printResto rest k ++ printf_09u v := by
  induction k with
  | zero => simp [printResto]
  | succ k ih =>
    rw [printResto, ih, printResto]
    simp [List.getD_cons_succ]

/-- The digits written by `printBigInt` after the sign. -/
theorem cuerpo_impreso (bs : List Nat) (hne : bs ≠ []) (hr : BloquesEnRango bs) :
    SonDigitos (printf_u (bs.getD (bs.length - 1) 0) ++ printResto bs (bs.length - 1)) ∧
    valorDecimal (printf_u (bs.getD (bs.length - 1) 0) ++ printResto bs (bs.length - 1))
      = valorLista bs ∧
    (printf_u (bs.getD (bs.length - 1) 0) ++ printResto bs (bs.length - 1)).head?
      = (printf_u (bs.getLast?.getD 0)).head? ∧
    (bs.length = 1 →
      printf_u (bs.getD (bs.length - 1) 0) ++ printResto bs (bs.length - 1)
        = printf_u (bs.getLast?.getD 0)) := by
  induction bs with
  | nil => exact absurd rfl hne
  | cons v rest ih =>
    have hv : v < DEC_BASE := hr v (List.mem_cons_self _ _)
    have hrest : BloquesEnRango rest := fun x hx => hr x (List.mem_cons_of_mem _ hx)
    cases hrest_nil : rest with
    | nil =>
      obtain ⟨h1, h2, h3, _, _⟩ := toDigits_diez v
      simp only [List.length_singleton, Nat.sub_self, printResto, List.append_nil, printf_u,
        List.getD_cons_zero, List.getLast?_singleton, Option.getD_some, valorLista,
        mul_zero, add_zero]
      exact ⟨h2, h3, by simp, by simp⟩
    | cons w ws =>
      have hne' : rest ≠ [] := by rw [hrest_nil]; simp
      obtain ⟨i1, i2, i3, _⟩ := ih hne' hrest
      rw [hrest_nil] at i1 i2 i3 hrest
      obtain ⟨p1, p2, p3⟩ := printf_09u_spec v hv
      have e1 : (v :: w :: ws).length - 1 = (w :: ws).length - 1 + 1 := by simp
      have e2 : (v :: w :: ws).getD ((w :: ws).length - 1 + 1) 0
          = (w :: ws).getD ((w :: ws).length - 1) 0 := by
        simp [List.getD_cons_succ]
      have e3 : (v :: w :: ws).getLast? = (w :: ws).getLast? := by
        simp [List.getLast?_cons_cons]
      rw [e1, e2, e3, printResto_cons, ← List.append_assoc]
      refine ⟨sonDigitos_append.mpr ⟨i1, p2⟩, ?_, ?_, ?_⟩
      · rw [valorDecimal_append, i2, p1, p3]
        simp only [valorLista, DEC_BASE_eq]
        norm_num
        ring
      · rw [List.head?_append_of_ne_nil, i3]
        intro hnil
        have hnil1 := (List.append_eq_nil.mp hnil).1
        exact (toDigits_diez ((w :: ws).getD ((w :: ws).length - 1) 0)).1 hnil1
      · intro hl
        simp at hl

/-! ## Parsing a run of digits -/

theorem cadenaLoop_no_positivo (fuel : Nat) (s : List Char) (i : Int) (r : BigInt)
    (hi : i ≤ 0) : cadenaLoop fuel s i r = r := by
  cases fuel with
  | zero => rfl
  | succ fuel =>
    have : ¬ 0 < i := by omega
    simp [cadenaLoop, this]

theorem cadenaLoop_paso (fuel : Nat) (s : List Char) (i : Nat) (r : BigInt) (hi : 0 < i) :
    cadenaLoop (fuel + 1) s (i : Int) r
      = cadenaLoop fuel s ((i : Int) - 9)
          (bg_append r (toU32 (atoi ((s.drop (i - 9)).take (i - (i - 9)))))) := by
  have h0 : (0 : Int) < (i : Int) := by exact_mod_cast hi
  have hstart : (if (i : Int) - ((DEC_DIGITS : Nat) : Int) < 0 then (0 : Int)
      else (i : Int) - ((DEC_DIGITS : Nat) : Int)) = ((i - 9 : Nat) : Int) := by
    simp only [DEC_DIGITS]
    split_ifs <;> omega
  simp only [cadenaLoop, h0, if_true, hstart]
  have e1 : ((i - 9 : Nat) : Int).toNat = i - 9 := Int.toNat_natCast _
  have e2 : ((i : Int) - ((i - 9 : Nat) : Int)).toNat = i - (i - 9) := by omega
  rw [e1, e2]
  simp [DEC_DIGITS]

/-- The loop of `bg_desde_cadena` on the first `i` characters of a run of
digits: the appended blocks are in range, denote the number written by those
characters, number `ceil (i / 9)`, and the most significant one is the number
written by the leading group of `((i - 1) mod 9) + 1` digits. -/
theorem cadenaLoop_spec (s : List Char) (hs : SonDigitos s) (fuel : Nat) :
    ∀ (i : Nat) (r : BigInt), i ≤ s.length → i ≤ fuel →
      ∃ bs, cadenaLoop fuel s (i : Int) r = ⟨r.signo, r.cabeza ++ bs⟩ ∧ BloquesEnRango bs ∧
        valorLista bs = valorDecimal (s.take i) ∧ bs.length = (i + 8) / 9 ∧
        (0 < i → bs.getLast? = some (valorDecimal (s.take ((i - 1) % 9 + 1)))) := by
  induction fuel with
  | zero =>
    intro i r _ hf
    have hi0 : i = 0 := by omega
    subst hi0
    exact ⟨[], by simp [cadenaLoop], bloquesEnRango_nil, by simp [valorLista, valorDecimal],
      by simp, fun h => absurd h (by omega)⟩
  | succ fuel ih =>
    intro i r hil hf
    rcases Nat.eq_zero_or_pos i with hi0 | hpos
    · subst hi0
      exact ⟨[], by simp [cadenaLoop], bloquesEnRango_nil, by simp [valorLista, valorDecimal],
        by simp, fun h => absurd h (by omega)⟩
    · rw [cadenaLoop_paso fuel s i r hpos]
      have hbufd : SonDigitos ((s.drop (i - 9)).take (i - (i - 9))) :=
        sonDigitos_take (sonDigitos_drop hs _) _
      have hbufl : ((s.drop (i - 9)).take (i - (i - 9))).length ≤ 9 := by
        rw [List.length_take]; omega
      obtain ⟨hb1, hb2⟩ := toU32_atoi_digitos _ hbufd hbufl
      rw [hb1]
      have hsplit : s.take i = s.take (i - 9) ++ (s.drop (i - 9)).take (i - (i - 9)) := by
        have : i = (i - 9) + (i - (i - 9)) := by omega
        conv_lhs => rw [this]
        rw [List.take_add]
      have hbuflen : ((s.drop (i - 9)).take (i - (i - 9))).length = i - (i - 9) := by
        rw [List.length_take, List.length_drop]; omega
      by_cases h9 : i ≤ 9
      · have hz : i - 9 = 0 := by omega
        rw [cadenaLoop_no_positivo fuel s _ _ (by omega)]
        refine ⟨[valorDecimal ((s.drop (i - 9)).take (i - (i - 9)))], by simp [bg_append], ?_,
          ?_, ?_, ?_⟩
        · intro v hv
          simp only [List.mem_singleton] at hv
          rw [hv]; exact hb2
        · rw [hsplit, hz]
          simp [valorLista, valorDecimal_append, valorDecimal]
        · simp; omega
        · intro _
          have e : (i - 1) % 9 + 1 = i := by omega
          rw [e, hz]
          simp
      · have hcast : (i : Int) - 9 = ((i - 9 : Nat) : Int) := by omega
        rw [hcast]
        obtain ⟨bs, he, hr, hv, hl, hlast⟩ :=
          ih (i - 9) (bg_append r (valorDecimal ((s.drop (i - 9)).take (i - (i - 9)))))
            (by omega) (by omega)
        refine ⟨valorDecimal ((s.drop (i - 9)).take (i - (i - 9))) :: bs, ?_, ?_, ?_, ?_, ?_⟩
        · rw [he]; simp [bg_append]
        · exact bloquesEnRango_cons.mpr ⟨hb2, hr⟩
        · rw [hsplit, valorDecimal_append, hbuflen]
          have e9 : i - (i - 9) = 9 := by omega
          rw [e9]
          simp only [valorLista, hv, DEC_BASE_eq]
          norm_num
          ring
        · simp only [List.length_cons, hl]; omega
        · intro _
          have hlast' := hlast (by omega)
          have e : (i - 9 - 1) % 9 + 1 = (i - 1) % 9 + 1 := by omega
          rw [e] at hlast'
          cases bs with
          | nil => simp at hlast'
          | cons b bs' =>
            rw [List.getLast?_cons_cons]
            exact hlast'

/-- Function `bg_desde_cadena` on an optional sign followed by a non-empty run of
fewer than `2^31` digits. -/
theorem bg_desde_cadena_spec (signo : Option Char) (ds : List Char)
    (hsig : signo = none ∨ signo = some '+' ∨ signo = some '-')
    (hne : ds ≠ []) (hd : SonDigitos ds) (hlen : ds.length < 2147483648) :
    ∃ bs, bg_desde_cadena (textoCon signo ds)
        = ⟨if signo = some '-' then -1 else 1, bs⟩ ∧
      BloquesEnRango bs ∧ valorLista bs = valorDecimal ds ∧
      bs.length = (ds.length + 8) / 9 ∧
      bs.getLast? = some (valorDecimal (ds.take ((ds.length - 1) % 9 + 1))) := by
  have hpos : 0 < ds.length := List.length_pos.mpr hne
  have key : ∀ r1 : BigInt, r1.cabeza = [] →
      ∃ bs, (if (cadenaLoop ds.length ds (toInt32 ds.length) r1).longitud = 0
          then bg_append (cadenaLoop ds.length ds (toInt32 ds.length) r1) 0
          else cadenaLoop ds.length ds (toInt32 ds.length) r1) = ⟨r1.signo, bs⟩ ∧
        BloquesEnRango bs ∧ valorLista bs = valorDecimal ds ∧
        bs.length = (ds.length + 8) / 9 ∧
        bs.getLast? = some (valorDecimal (ds.take ((ds.length - 1) % 9 + 1))) := by
    intro r1 hr1
    obtain ⟨bs, he, hr, hv, hl, hlast⟩ :=
      cadenaLoop_spec ds hd ds.length ds.length r1 (Nat.le_refl _) (Nat.le_refl _)
    rw [toInt32_pequeno _ hlen, he]
    have hlen0 : ¬ (⟨r1.signo, r1.cabeza ++ bs⟩ : BigInt).longitud = 0 := by
      simp only [BigInt.longitud, List.length_append, hl, hr1, List.length_nil]
      omega
    rw [if_neg hlen0, hr1]
    refine ⟨bs, by simp, hr, ?_, hl, hlast hpos⟩
    rw [hv, List.take_length]
  rcases hsig with h | h | h
  · subst h
    cases ds with
    | nil => exact absurd rfl hne
    | cons c cs =>
      obtain ⟨_, h2, h3⟩ := digito_no_espacio c (hd c (List.mem_cons_self _ _))
      have e : bg_desde_cadena (textoCon none (c :: cs))
          = (if (cadenaLoop (c :: cs).length (c :: cs) (toInt32 (c :: cs).length)
                bg_nuevo).longitud = 0
              then bg_append (cadenaLoop (c :: cs).length (c :: cs)
                (toInt32 (c :: cs).length) bg_nuevo) 0
              else cadenaLoop (c :: cs).length (c :: cs) (toInt32 (c :: cs).length)
                bg_nuevo) := by
        simp only [bg_desde_cadena, textoCon]
        split <;> split <;> simp_all
      rw [e]
      simpa [bg_nuevo] using key bg_nuevo rfl
  · subst h
    have e : bg_desde_cadena (textoCon (some '+') ds)
        = (if (cadenaLoop ds.length ds (toInt32 ds.length) bg_nuevo).longitud = 0
            then bg_append (cadenaLoop ds.length ds (toInt32 ds.length) bg_nuevo) 0
            else cadenaLoop ds.length ds (toInt32 ds.length) bg_nuevo) := by
      simp [bg_desde_cadena, textoCon]
    rw [e]
    simpa [bg_nuevo] using key bg_nuevo rfl
  · subst h
    have e : bg_desde_cadena (textoCon (some '-') ds)
        = (if (cadenaLoop ds.length ds (toInt32 ds.length) ⟨-1, []⟩).longitud = 0
            then bg_append (cadenaLoop ds.length ds (toInt32 ds.length) ⟨-1, []⟩) 0
            else cadenaLoop ds.length ds (toInt32 ds.length) ⟨-1, []⟩) := by
      simp [bg_desde_cadena, textoCon, bg_nuevo]
    rw [e]
    simpa using key ⟨-1, []⟩ rfl

/-- The text written by `printBigInt` for a chain of fewer than `2^31` blocks,
all in range, whose most significant block is zero only when it is the only
block: optional `-`, then the canonical numeral of the magnitude, then a
newline. -/
theorem printBigInt_canonico (sg : Int) (bs : List Nat) (hne : bs ≠ [])
    (hr : BloquesEnRango bs) (htop : bs.getLast? = some 0 → bs.length = 1)
    (hcorto : bs.length < 2147483648) :
    ∃ cuerpo, printBigInt ⟨sg, bs⟩
        = some ((if sg < 0 then ['-'] else []) ++ cuerpo ++ ['\n']) ∧
      EsNumeralCanonico cuerpo (valorLista bs) := by
  obtain ⟨c1, c2, c3, c4⟩ := cuerpo_impreso bs hne hr
  have hlen : ¬ bs.length = 0 := fun h => hne (List.length_eq_zero.mp h)
  refine ⟨printf_u (bs.getD (bs.length - 1) 0) ++ printResto bs (bs.length - 1), ?_, ?_, c1,
    ?_, c2⟩
  · have hpos : 0 < bs.length := List.length_pos.mpr hne
    have hidx : (toInt32 bs.length - 2 + 1).toNat = bs.length - 1 := by
      rw [toInt32_pequeno _ hcorto]
      omega
    simp only [printBigInt, if_neg hlen, hidx, List.append_assoc]
  · intro hnil
    exact (toDigits_diez (bs.getD (bs.length - 1) 0)).1 (List.append_eq_nil.mp hnil).1
  · intro hhead
    rw [c3] at hhead
    obtain ⟨_, _, _, h4, h5⟩ := toDigits_diez (bs.getLast?.getD 0)
    have htop0 : bs.getLast?.getD 0 = 0 := by
      by_contra hnz
      exact (h5 hnz).1 hhead
    have hlast : bs.getLast? = some 0 := by
      cases hg : bs.getLast? with
      | none => exact absurd (List.getLast?_eq_none_iff.mp hg) hne
      | some x =>
        rw [hg] at htop0
        simp at htop0
        rw [htop0]
    rw [c4 (htop hlast), printf_u, h4 htop0]

theorem valorDecimal_uno_pos (cs : List Char) : 0 < valorDecimal ('1' :: cs) := by
  rw [valorDecimal_cons]
  have h1 : '1'.toNat - 48 = 1 := by decide
  rw [h1, one_mul]
  exact Nat.lt_of_lt_of_le (pow_pos (by decide) _) (Nat.le_add_right _ _)

/-- A run of `2^31` digits is parsed as the single block `0`: `(int)len` is
negative and the loop body never runs. -/
theorem bg_desde_cadena_largo (c : Char) (cs : List Char) (hc : c.isDigit = true)
    (hlen : (c :: cs).length = 2147483648) :
    printBigInt (bg_desde_cadena (textoCon none (c :: cs))) = some ("0".toList ++ ['\n']) := by
  obtain ⟨_, h2, h3⟩ := digito_no_espacio c hc
  have hcast : toInt32 2147483648 = -2147483648 := by decide
  have e : bg_desde_cadena (textoCon none (c :: cs))
      = (if (cadenaLoop (c :: cs).length (c :: cs) (toInt32 (c :: cs).length)
            bg_nuevo).longitud = 0
          then bg_append (cadenaLoop (c :: cs).length (c :: cs)
            (toInt32 (c :: cs).length) bg_nuevo) 0
          else cadenaLoop (c :: cs).length (c :: cs) (toInt32 (c :: cs).length)
            bg_nuevo) := by
    simp only [bg_desde_cadena, textoCon]
    split <;> split <;> simp_all
  rw [e, hlen, hcast, cadenaLoop_no_positivo _ _ _ _ (by decide)]
  decide

theorem cero_no_canonico_de_positivo (ds : List Char) (h : 0 < valorDecimal ds) :
    ¬ EsFormaCanonica "0".toList (valorTexto none ds) := by
  intro hc
  have hnn : ¬ (valorTexto none ds < 0) := by
    simp only [valorTexto]
    have : ¬ ((none : Option Char) = some '-') := by decide
    rw [if_neg this]
    omega
  simp only [EsFormaCanonica, if_neg hnn, EsNumeralCanonico] at hc
  have hv := hc.2.2.2
  have h0 : valorDecimal "0".toList = 0 := by decide
  have hna : (valorTexto none ds).natAbs = valorDecimal ds := by
    simp only [valorTexto]
    have : ¬ ((none : Option Char) = some '-') := by decide
    rw [if_neg this]
    exact Int.natAbs_ofNat _
  rw [h0, hna] at hv
  omega

/-- C5, as stated, fails: `-0` is printed as `-0`, and the ten digits
`0000000005` are printed back unchanged; neither text is the canonical decimal
form of the number written.  A run of `2^31` digits `1` is parsed as the single
block `0`, because `(int)len` is negative, and printed as `0`. -/
theorem ida_y_vuelta_no_canonica :
    printBigInt (bg_desde_cadena (textoCon (some '-') "0".toList))
      = some ("-0".toList ++ ['\n']) ∧
    ¬ EsFormaCanonica "-0".toList (valorTexto (some '-') "0".toList) ∧
    printBigInt (bg_desde_cadena (textoCon none "0000000005".toList))
      = some ("0000000005".toList ++ ['\n']) ∧
    ¬ EsFormaCanonica "0000000005".toList (valorTexto none "0000000005".toList) ∧
    printBigInt (bg_desde_cadena (textoCon none ('1' :: List.replicate 2147483647 '1')))
      = some ("0".toList ++ ['\n']) ∧
    ¬ EsFormaCanonica "0".toList
        (valorTexto none ('1' :: List.replicate 2147483647 '1')) := by
  refine ⟨by decide, by decide, by decide, by decide, ?_, ?_⟩
  · exact bg_desde_cadena_largo '1' _ (by decide)
      (by rw [List.length_cons, List.length_replicate])
  · exact cero_no_canonico_de_positivo _ (valorDecimal_uno_pos _)

/-- C5, amended: for an optional `+` or `-` followed by a non-empty run of fewer
than `2^31` decimal digits, where the leading group of `((n - 1) mod 9) + 1`
digits is not all zeros unless `n ≤ 9`, and where a leading `-` is not followed by
a numeral of value zero, `printBigInt (bg_desde_cadena s)` writes the canonical
decimal form of the number written by `s`, followed by a newline. -/
theorem ida_y_vuelta_canonica (signo : Option Char) (ds : List Char)
    (hsig : signo = none ∨ signo = some '+' ∨ signo = some '-')
    (hne : ds ≠ []) (hd : SonDigitos ds) (hlen : ds.length < 2147483648)
    (hlead : 9 < ds.length → valorDecimal (ds.take ((ds.length - 1) % 9 + 1)) ≠ 0)
    (hneg : signo = some '-' → valorDecimal ds ≠ 0) :
    ∃ t, printBigInt (bg_desde_cadena (textoCon signo ds)) = some (t ++ ['\n']) ∧
      EsFormaCanonica t (valorTexto signo ds) := by
  obtain ⟨bs, he, hr, hv, hl, hlast⟩ := bg_desde_cadena_spec signo ds hsig hne hd hlen
  have hpos : 0 < ds.length := List.length_pos.mpr hne
  have hbne : bs ≠ [] := by
    intro h
    rw [h] at hl
    simp at hl
    omega
  have htop : bs.getLast? = some 0 → bs.length = 1 := by
    intro h0
    rw [hlast] at h0
    have hz : valorDecimal (ds.take ((ds.length - 1) % 9 + 1)) = 0 := by
      simpa using h0
    have : ¬ 9 < ds.length := fun h9 => hlead h9 hz
    omega
  obtain ⟨cuerpo, hp, hc⟩ := printBigInt_canonico _ bs hbne hr htop (by omega)
  rw [hv] at hc
  rw [he, hp]
  by_cases hm : signo = some '-'
  · have hnz := hneg hm
    have hvneg : valorTexto signo ds < 0 := by
      simp only [valorTexto, if_pos hm]
      omega
    refine ⟨'-' :: cuerpo, by simp [hm], ?_⟩
    simp only [EsFormaCanonica, if_pos hvneg, List.head?_cons, List.tail_cons, true_and]
    have : (valorTexto signo ds).natAbs = valorDecimal ds := by
      simp [valorTexto, hm]
    rw [this]
    exact hc
  · have hvnn : ¬ valorTexto signo ds < 0 := by
      simp only [valorTexto, if_neg hm]
      omega
    refine ⟨cuerpo, by simp [hm], ?_⟩
    simp only [EsFormaCanonica, if_neg hvnn]
    have : (valorTexto signo ds).natAbs = valorDecimal ds := by
      simp [valorTexto, hm]
    rw [this]
    exact hc

/-- Witness for the amended C5 at `s = -0012345678901`: the hypotheses hold, the
printed text is canonical, and it is `-12345678901`. -/
theorem ida_y_vuelta_canonica_testigo :
    ((some '-' : Option Char) = none ∨ (some '-' : Option Char) = some '+'
      ∨ (some '-' : Option Char) = some '-') ∧
    "0012345678901".toList ≠ [] ∧ SonDigitos "0012345678901".toList ∧
    "0012345678901".toList.length < 2147483648 ∧
    (9 < "0012345678901".toList.length →
      valorDecimal ("0012345678901".toList.take
        (("0012345678901".toList.length - 1) % 9 + 1)) ≠ 0) ∧
    ((some '-' : Option Char) = some '-' → valorDecimal "0012345678901".toList ≠ 0) ∧
    (∃ t, printBigInt (bg_desde_cadena (textoCon (some '-') "0012345678901".toList))
        = some (t ++ ['\n']) ∧
      EsFormaCanonica t (valorTexto (some '-') "0012345678901".toList)) ∧
    printBigInt (bg_desde_cadena (textoCon (some '-') "0012345678901".toList))
      = some ("-12345678901".toList ++ ['\n']) :=
  ⟨by decide, by decide, by decide, by decide, by decide, by decide,
    ida_y_vuelta_canonica (some '-') "0012345678901".toList (by decide) (by decide)
      (by decide) (by decide) (by decide) (by decide),
    by decide⟩

/-! ## Further behaviour on concrete inputs -/

/-- C14, as stated, fails: the comparator does not treat the two zeros as equal.
For the single block `0` stored with sign `+1` and with sign `-1`,
`compararBigInt` returns `1` in one order and `-1` in the other; the negative
zero is what `bg_desde_cadena` returns for `-0` and what `multiplicar` returns
for `-5` times `0`, and `bg_es_cero` accepts both as zero. -/
theorem comparar_ceros_distintos :
    compararBigInt ⟨1, [0]⟩ ⟨-1, [0]⟩ = 1 ∧
    compararBigInt ⟨-1, [0]⟩ ⟨1, [0]⟩ = -1 ∧
    bg_desde_cadena "-0".toList = ⟨-1, [0]⟩ ∧
    multiplicar (bg_desde_cadena "-5".toList) (bg_desde_cadena "0".toList) = ⟨-1, [0]⟩ ∧
    bg_desde_cadena "0".toList = ⟨1, [0]⟩ ∧
    bg_es_cero ⟨-1, [0]⟩ = true ∧ bg_es_cero ⟨1, [0]⟩ = true := by
  refine ⟨by decide, by decide, by decide, by decide, by decide, by decide, by decide⟩

/-- C16: the remainder does not take the sign of the dividend when
`|a| < |b|`.  For `a = -3` and `b = 5` the function returns quotient `0` and the
remainder `3` with sign `+1`: a nonzero remainder whose sign is not the sign
`-1` of the dividend.  On the main path, for `a = -10` and `b = 3`, the
remainder does carry the sign of the dividend. -/
theorem division_residuo_signo :
    bg_dividir_largo (bg_desde_cadena "-3".toList) (bg_desde_cadena "5".toList)
      = Except.ok (⟨1, [0]⟩, ⟨1, [3]⟩) ∧
    (bg_desde_cadena "-3".toList).signo = -1 ∧
    (⟨1, [3]⟩ : BigInt).valor = 3 ∧
    (bg_desde_cadena "-3".toList).valor = -3 ∧
    bg_dividir_largo (bg_desde_cadena "-10".toList) (bg_desde_cadena "3".toList)
      = Except.ok (⟨-1, [1]⟩, ⟨-1, [7, 0]⟩) := by
  refine ⟨by rfl, by decide, by decide, by decide, by rfl⟩

/-- C19: addition does not preserve normalisation.  For the well-formed
operands `a = 1000000000` and `b = -999999999` the sum is the chain `[1, 0]`,
which has a most-significant zero block and is not the single block `0`. -/
theorem suma_no_normalizada :
    BienFormado (bg_desde_cadena "1000000000".toList) ∧
    BienFormado (bg_desde_cadena "-999999999".toList) ∧
    sumar (bg_desde_cadena "1000000000".toList) (bg_desde_cadena "-999999999".toList)
      = ⟨1, [1, 0]⟩ ∧
    ¬ SinCeroLider (sumar (bg_desde_cadena "1000000000".toList)
        (bg_desde_cadena "-999999999".toList)).cabeza := by
  refine ⟨by decide, by decide, by decide, by decide⟩

/-! ## Additive inverse -/

theorem compararDesde_refl (va : List Nat) (n : Nat) : compararDesde va va n = 0 := by
  induction n with
  | zero => rfl
  | succ i ih => simp [compararDesde, ih]

theorem compararMagnitud_refl (na : List Nat) (n : Nat) : compararMagnitud na na n = 0 :=
  compararDesde_refl _ _

theorem sumar_negar (a : BigInt) (hs : a.signo ≠ 0) : sumar a (negar a) = ⟨1, [0]⟩ := by
  have h1 : ¬ a.signo = (negar a).signo := by
    simp only [negar]
    omega
  have h2 : (negar a).longitud = a.longitud := rfl
  have h3 : (negar a).cabeza = a.cabeza := rfl
  simp only [sumar, if_neg h1, h2, h3, gt_iff_lt, lt_irrefl, if_false,
    compararMagnitud_refl, if_true]
  rfl

/-- C12: additive inverse.  For every BigInt `a` with sign `+1` or `-1`,
`sumar a (negar a)` is the single block `0` with sign `+1`, and `printBigInt`
writes `0` for it.  The chain of `a` is arbitrary: it need not be non-empty. -/
theorem sumar_inverso_aditivo (a : BigInt) (hs : a.signo = 1 ∨ a.signo = -1) :
    sumar a (negar a) = ⟨1, [0]⟩ ∧
    printBigInt (sumar a (negar a)) = some ("0".toList ++ ['\n']) := by
  have h0 : a.signo ≠ 0 := by
    rcases hs with h | h <;> rw [h] <;> decide
  have h := sumar_negar a h0
  refine ⟨h, ?_⟩
  rw [h]
  decide

/-- Witness for C12 at `a = 123456789`, the fourth case of `test_suma`, whose
second operand `-123456789` is `negar a`. -/
theorem sumar_inverso_aditivo_testigo :
    ((bg_desde_cadena "123456789".toList).signo = 1
      ∨ (bg_desde_cadena "123456789".toList).signo = -1) ∧
    negar (bg_desde_cadena "123456789".toList) = bg_desde_cadena "-123456789".toList ∧
    sumar (bg_desde_cadena "123456789".toList) (negar (bg_desde_cadena "123456789".toList))
      = ⟨1, [0]⟩ ∧
    printBigInt (sumar (bg_desde_cadena "123456789".toList)
        (negar (bg_desde_cadena "123456789".toList)))
      = some ("0".toList ++ ['\n']) :=
  ⟨by decide, by decide,
    (sumar_inverso_aditivo (bg_desde_cadena "123456789".toList) (by decide)).1,
    (sumar_inverso_aditivo (bg_desde_cadena "123456789".toList) (by decide)).2⟩

/-! ## Division by zero -/

theorem bg_es_cero_iff (a : BigInt) : bg_es_cero a = true ↔ a.cabeza = [0] := by
  unfold bg_es_cero BigInt.longitud
  rw [decide_eq_true_iff]
  constructor
  · rintro ⟨hl, hh⟩
    cases hc : a.cabeza with
    | nil => rw [hc] at hl; simp at hl
    | cons v vs =>
      rw [hc] at hl hh
      simp only [List.length_cons, Nat.add_left_eq_self, List.length_eq_zero] at hl
      simp only [List.head?_cons, Option.some.injEq] at hh
      rw [hl, hh]
  · intro h
    rw [h]
    exact ⟨rfl, rfl⟩

theorem division_error_iff (a b : BigInt) :
    bg_dividir_largo a b = Except.error DivError.divisionPorCero ↔ b.cabeza = [0] := by
  rw [← bg_es_cero_iff]
  unfold bg_dividir_largo
  by_cases hb : bg_es_cero b = true
  · simp [hb]
  · rw [if_neg hb]
    constructor
    · intro h
      exfalso
      by_cases ha : bg_es_cero a = true
      · rw [if_pos ha] at h
        cases h
      · rw [if_neg ha] at h
        dsimp only at h
        split at h
        · cases h
        · split at h
          · cases h
          · cases h
    · intro h
      exact absurd h hb

/-- C17: division by zero is an error exactly for a zero divisor.  The function
returns the division-by-zero error if and only if the chain of the divisor is
the single block `0`, whatever its sign and whatever the dividend; in
particular it does not return that error for a well-formed divisor of nonzero
value. -/
theorem division_por_cero_exacta (a b : BigInt) :
    (bg_dividir_largo a b = Except.error DivError.divisionPorCero ↔ b.cabeza = [0]) ∧
    (BienFormado b → b.valor ≠ 0 →
      bg_dividir_largo a b ≠ Except.error DivError.divisionPorCero) := by
  refine ⟨division_error_iff a b, ?_⟩
  intro _ hv herr
  have hb0 : b.cabeza = [0] := (division_error_iff a b).mp herr
  apply hv
  simp [BigInt.valor, BigInt.magnitud, hb0, valorLista]

/-- Witness for C17: the divisor `3` is well formed and nonzero and the division
of `10` by it is not the division-by-zero error, while both zeros as divisor
give that error. -/
theorem division_por_cero_exacta_testigo :
    BienFormado (bg_desde_cadena "3".toList) ∧ (bg_desde_cadena "3".toList).valor ≠ 0 ∧
    bg_dividir_largo (bg_desde_cadena "10".toList) (bg_desde_cadena "3".toList)
      ≠ Except.error DivError.divisionPorCero ∧
    bg_dividir_largo (bg_desde_cadena "10".toList) ⟨1, [0]⟩
      = Except.error DivError.divisionPorCero ∧
    bg_dividir_largo (bg_desde_cadena "10".toList) ⟨-1, [0]⟩
      = Except.error DivError.divisionPorCero :=
  ⟨by decide, by decide,
    (division_por_cero_exacta (bg_desde_cadena "10".toList) (bg_desde_cadena "3".toList)).2
      (by decide) (by decide),
    by rfl, by rfl⟩

/-! ## The block constructors -/

/-- C18, as stated, fails: the block constructors have no range check.  Appending
or prepending `1000000000`, or the largest 32-bit value `4294967295`, stores it
as a block. -/
theorem constructores_sin_comprobacion :
    bg_append ⟨1, [3]⟩ 1000000000 = ⟨1, [3, 1000000000]⟩ ∧
    bg_prepend ⟨1, [3]⟩ 1000000000 = ⟨1, [1000000000, 3]⟩ ∧
    bg_append ⟨-1, [3]⟩ 4294967295 = ⟨-1, [3, 4294967295]⟩ ∧
    bg_prepend ⟨-1, [3]⟩ 4294967295 = ⟨-1, [4294967295, 3]⟩ := by
  refine ⟨by decide, by decide, by decide, by decide⟩

/-- C18, amended: for every BigInt `z` and every value `v ≥ 10^9`, `bg_append`
stores `v` as the new most-significant block and `bg_prepend` as the new
least-significant block, keeping the sign and adding one to the length; the
result then has a block out of range. -/
theorem constructores_almacenan (z : BigInt) (v : Nat) (hv : DEC_BASE ≤ v) :
    (bg_append z v).cabeza = z.cabeza ++ [v] ∧ (bg_prepend z v).cabeza = v :: z.cabeza ∧
    (bg_append z v).signo = z.signo ∧ (bg_prepend z v).signo = z.signo ∧
    (bg_append z v).longitud = z.longitud + 1 ∧ (bg_prepend z v).longitud = z.longitud + 1 ∧
    ¬ BloquesEnRango (bg_append z v).cabeza ∧ ¬ BloquesEnRango (bg_prepend z v).cabeza := by
  refine ⟨rfl, rfl, rfl, rfl, ?_, ?_, ?_, ?_⟩
  · simp [bg_append, BigInt.longitud]
  · simp [bg_prepend, BigInt.longitud]
  · intro h
    have := h v (by simp [bg_append])
    omega
  · intro h
    have := h v (by simp [bg_prepend])
    omega

/-- Witness for the amended C18 at the empty BigInt of `bg_nuevo` and
`v = 1000000000`. -/
theorem constructores_almacenan_testigo :
    DEC_BASE ≤ 1000000000 ∧
    (bg_append bg_nuevo 1000000000).cabeza = bg_nuevo.cabeza ++ [1000000000] ∧
    (bg_prepend bg_nuevo 1000000000).cabeza = 1000000000 :: bg_nuevo.cabeza :=
  ⟨by decide, (constructores_almacenan bg_nuevo 1000000000 (by decide)).1,
    (constructores_almacenan bg_nuevo 1000000000 (by decide)).2.1⟩

/-! ## The signed comparator and the integer order -/

theorem compararDesde_trans (x y z : List Nat) (n : Nat)
    (h1 : compararDesde x y n ≤ 0) (h2 : compararDesde y z n ≤ 0) :
    compararDesde x z n ≤ 0 := by
  induction n with
  | zero => simp [compararDesde]
  | succ i ih =>
    simp only [compararDesde, gt_iff_lt] at h1 h2 ⊢
    generalize x.getD i 0 = p at h1 h2 ⊢
    generalize y.getD i 0 = q at h1 h2 ⊢
    generalize z.getD i 0 = r at h1 h2 ⊢
    split_ifs at h1 h2 ⊢ <;> omega

theorem compararMagnitud_trans_le (x y z : List Nat) (n m k : Nat) (hm : n = m) (hk : n = k)
    (h1 : compararMagnitud x y n ≤ 0) (h2 : compararMagnitud y z m ≤ 0) :
    compararMagnitud x z k ≤ 0 := by
  subst hm
  subst hk
  exact compararDesde_trans _ _ _ _ h1 h2

theorem compararMagnitud_trans_ge (x y z : List Nat) (n m k : Nat) (hm : n = m) (hk : n = k)
    (h1 : -compararMagnitud x y n ≤ 0) (h2 : -compararMagnitud y z m ≤ 0) :
    -compararMagnitud x z k ≤ 0 := by
  subst hm
  subst hk
  rw [← compararMagnitud_antisimetrica] at h1 h2 ⊢
  exact compararDesde_trans _ _ _ _ h2 h1

theorem compararBigInt_refl (a : BigInt) : compararBigInt a a = 0 := by
  simp [compararBigInt, compararMagnitud_refl]

theorem compararBigInt_antisimetrica (a b : BigInt) :
    compararBigInt a b = - compararBigInt b a := by
  unfold compararBigInt BigInt.longitud
  rcases lt_trichotomy a.signo b.signo with hs | hs | hs
  · have h1 : ¬ a.signo > b.signo := by omega
    have h2 : b.signo > a.signo := hs
    simp only [h1, hs, h2, if_true, if_false]
  · rw [hs]
    simp only [gt_iff_lt, lt_irrefl, if_false]
    rcases Nat.lt_trichotomy a.cabeza.length b.cabeza.length with hl | hl | hl
    · have hn : ¬ b.cabeza.length < a.cabeza.length := by omega
      simp only [hn, hl, if_true, if_false, neg_neg]
    · rw [hl, compararMagnitud_antisimetrica b.cabeza a.cabeza]
      simp only [lt_irrefl, if_false]
      split_ifs <;> simp
    · have hn : ¬ a.cabeza.length < b.cabeza.length := by omega
      simp only [hn, hl, if_true, if_false, neg_neg]
  · have h1 : ¬ b.signo > a.signo := by omega
    have h2 : ¬ a.signo < b.signo := by omega
    have h3 : a.signo > b.signo := hs
    simp only [h1, h2, h3, hs, if_true, if_false]
    rfl

theorem compararBigInt_trans (a b c : BigInt)
    (hsa : a.signo = 1 ∨ a.signo = -1) (hsb : b.signo = 1 ∨ b.signo = -1)
    (hsc : c.signo = 1 ∨ c.signo = -1)
    (h1 : compararBigInt a b ≤ 0) (h2 : compararBigInt b c ≤ 0) :
    compararBigInt a c ≤ 0 := by
  unfold compararBigInt BigInt.longitud at h1 h2 ⊢
  rcases hsa with sa | sa <;> rcases hsb with sb | sb <;> rcases hsc with sc | sc <;>
    rw [sa, sb] at h1 <;> rw [sb, sc] at h2 <;> rw [sa, sc] <;>
    simp only [gt_iff_lt, lt_irrefl, if_false, if_true, Int.reduceLT, Int.reduceNeg,
      neg_neg] at h1 h2 ⊢ <;>
    first
    | omega
    | (split_ifs at h1 h2 ⊢ <;>
        first
        | omega
        | exact compararMagnitud_trans_le _ _ _ _ _ _ (by omega) (by omega) h1 h2
        | exact compararMagnitud_trans_ge _ _ _ _ _ _ (by omega) (by omega) h1 h2)

/-- C15: the comparator is a total order on representations.  For BigInts with
signs `+1` or `-1`, `compararBigInt a a = 0`,
`compararBigInt a b = -compararBigInt b a`, and `compararBigInt a b ≤ 0` together
with `compararBigInt b c ≤ 0` gives `compararBigInt a c ≤ 0`.  The chains are
arbitrary: they need not be non-empty. -/
theorem comparador_orden_total (a b c : BigInt)
    (hsa : a.signo = 1 ∨ a.signo = -1) (hsb : b.signo = 1 ∨ b.signo = -1)
    (hsc : c.signo = 1 ∨ c.signo = -1) :
    compararBigInt a a = 0 ∧
    compararBigInt a b = - compararBigInt b a ∧
    (compararBigInt a b ≤ 0 → compararBigInt b c ≤ 0 → compararBigInt a c ≤ 0) :=
  ⟨compararBigInt_refl a, compararBigInt_antisimetrica a b,
    compararBigInt_trans a b c hsa hsb hsc⟩

/-- Witness for C15 at `a = -7`, `b = 5`, `c = 1000000000`: the three signs are
`+1` or `-1`, both premises of transitivity hold and so does its conclusion. -/
theorem comparador_orden_total_testigo :
    ((-1 : Int) = 1 ∨ (-1 : Int) = -1) ∧ ((1 : Int) = 1 ∨ (1 : Int) = -1) ∧
    compararBigInt ⟨-1, [7]⟩ ⟨1, [5]⟩ ≤ 0 ∧ compararBigInt ⟨1, [5]⟩ ⟨1, [0, 1]⟩ ≤ 0 ∧
    compararBigInt ⟨-1, [7]⟩ ⟨1, [0, 1]⟩ ≤ 0 :=
  ⟨by decide, by decide, by decide, by decide,
    (comparador_orden_total ⟨-1, [7]⟩ ⟨1, [5]⟩ ⟨1, [0, 1]⟩ (by decide) (by decide)
      (by decide)).2.2 (by decide) (by decide)⟩

/-! ## The block-range invariant -/

theorem toInt32_le (n : Nat) : toInt32 n ≤ (n : Int) := by
  unfold toInt32
  have h := Nat.mod_le n 4294967296
  split_ifs <;> omega

/-- The result of `bg_desde_cadena` after the optional sign has been consumed,
for a run of digits of any length: blocks in range, at least one block. -/
theorem cadena_final_en_rango (ds : List Char) (hd : SonDigitos ds) (r1 : BigInt)
    (hr1 : r1.cabeza = []) :
    BloquesEnRango (if (cadenaLoop ds.length ds (toInt32 ds.length) r1).longitud = 0
        then bg_append (cadenaLoop ds.length ds (toInt32 ds.length) r1) 0
        else cadenaLoop ds.length ds (toInt32 ds.length) r1).cabeza ∧
    (if (cadenaLoop ds.length ds (toInt32 ds.length) r1).longitud = 0
        then bg_append (cadenaLoop ds.length ds (toInt32 ds.length) r1) 0
        else cadenaLoop ds.length ds (toInt32 ds.length) r1).cabeza ≠ [] := by
  have hle := toInt32_le ds.length
  obtain ⟨bs, he, hr, _, _, _⟩ :=
    cadenaLoop_spec ds hd ds.length (toInt32 ds.length).toNat r1 (by omega) (by omega)
  have hloop : cadenaLoop ds.length ds (toInt32 ds.length) r1 = ⟨r1.signo, bs⟩ := by
    by_cases hpos : 0 < toInt32 ds.length
    · have hcast : ((toInt32 ds.length).toNat : Int) = toInt32 ds.length := by omega
      rw [hcast] at he
      rw [he, hr1]
      rfl
    · have hz : (toInt32 ds.length).toNat = 0 := by omega
      rw [hz] at he
      have hbs : cadenaLoop ds.length ds ((0 : Nat) : Int) r1 = r1 :=
        cadenaLoop_no_positivo _ _ _ _ (by simp)
      rw [hbs] at he
      rw [cadenaLoop_no_positivo _ _ _ _ (by omega)]
      rw [hr1] at he
      have hbs' : bs = [] := by
        have := congrArg BigInt.cabeza he
        simpa [hr1] using this.symm
      rw [hbs']
      cases r1
      simp only at hr1
      rw [hr1]
  rw [hloop]
  by_cases h0 : (⟨r1.signo, bs⟩ : BigInt).longitud = 0
  · rw [if_pos h0]
    have hbs : bs = [] := List.length_eq_zero.mp h0
    rw [hbs]
    exact ⟨(by decide : BloquesEnRango [0]), (by decide : ([0] : List Nat) ≠ [])⟩
  · rw [if_neg h0]
    exact ⟨hr, fun h => h0 (by rw [BigInt.longitud, h]; rfl)⟩

/-- Function `bg_desde_cadena` on an optional sign followed by digits reduces to
its loop on the digits, started from an empty chain. -/
theorem bg_desde_cadena_forma (signo : Option Char) (ds : List Char)
    (hsig : signo = none ∨ signo = some '+' ∨ signo = some '-') (hd : SonDigitos ds) :
    ∃ r1 : BigInt, r1.cabeza = [] ∧ r1.signo = (if signo = some '-' then -1 else 1) ∧
      bg_desde_cadena (textoCon signo ds)
        = (if (cadenaLoop ds.length ds (toInt32 ds.length) r1).longitud = 0
            then bg_append (cadenaLoop ds.length ds (toInt32 ds.length) r1) 0
            else cadenaLoop ds.length ds (toInt32 ds.length) r1) := by
  rcases hsig with h | h | h
  · subst h
    refine ⟨bg_nuevo, rfl, rfl, ?_⟩
    cases ds with
    | nil => rfl
    | cons c cs =>
      obtain ⟨_, h2, h3⟩ := digito_no_espacio c (hd c (List.mem_cons_self _ _))
      simp only [bg_desde_cadena, textoCon]
      split <;> split <;> simp_all
  · subst h
    exact ⟨bg_nuevo, rfl, rfl, by simp [bg_desde_cadena, textoCon]⟩
  · subst h
    exact ⟨⟨-1, []⟩, rfl, rfl, by simp [bg_desde_cadena, textoCon, bg_nuevo]⟩

theorem bg_desde_cadena_en_rango (signo : Option Char) (ds : List Char)
    (hsig : signo = none ∨ signo = some '+' ∨ signo = some '-') (hd : SonDigitos ds) :
    BloquesEnRango (bg_desde_cadena (textoCon signo ds)).cabeza ∧
      (bg_desde_cadena (textoCon signo ds)).cabeza ≠ [] := by
  obtain ⟨r1, hr1, _, he⟩ := bg_desde_cadena_forma signo ds hsig hd
  rw [he]
  exact cadena_final_en_rango ds hd r1 hr1

theorem restarMagnitudes_en_rango (a b : BigInt)
    (ha : BloquesEnRango a.cabeza) (hb : BloquesEnRango b.cabeza)
    (hl : b.cabeza.length ≤ a.cabeza.length) :
    BloquesEnRango (restarMagnitudes a b).cabeza ∧
      (restarMagnitudes a b).cabeza.length = a.cabeza.length := by
  obtain ⟨xs, p', he, hlx, hrx, _, _⟩ :=
    restarLoopExacto_spec a.cabeza b.cabeza bg_nuevo 0 ha hb (Or.inl rfl) hl
  have : restarMagnitudes a b = ⟨1, xs⟩ := by
    rw [restarMagnitudes_eq_exacto a b ha hb]
    simpa [restarMagnitudesExacto, bg_nuevo] using he
  rw [this]
  exact ⟨hrx, hlx⟩

theorem sumar_en_rango (a b : BigInt)
    (ha : BloquesEnRango a.cabeza) (hb : BloquesEnRango b.cabeza) :
    BloquesEnRango (sumar a b).cabeza ∧
      (a.cabeza ≠ [] → b.cabeza ≠ [] → (sumar a b).cabeza ≠ []) := by
  by_cases hs : a.signo = b.signo
  · obtain ⟨zs, he, hr, _, hl, _⟩ := sumarMagnitudesExacto_spec a b ha hb
    have hdef : sumar a b = ⟨a.signo, zs⟩ := by
      simp only [sumar, if_pos hs, sumarMagnitudes_eq_exacto a b ha hb, he]
    rw [hdef]
    refine ⟨hr, fun hna _ hz => ?_⟩
    have h1 : 1 ≤ a.cabeza.length := List.length_pos.mpr hna
    have h2 : zs.length = 0 := by
      simp only at hz
      rw [hz]; rfl
    have h3 : a.cabeza.length ≤ max a.cabeza.length b.cabeza.length := Nat.le_max_left _ _
    omega
  · have hcero : BloquesEnRango (bg_append bg_nuevo 0).cabeza ∧
        (bg_append bg_nuevo 0).cabeza ≠ [] := ⟨by decide, by decide⟩
    have hab : b.cabeza.length ≤ a.cabeza.length → a.cabeza ≠ [] →
        BloquesEnRango (⟨a.signo, (restarMagnitudes a b).cabeza⟩ : BigInt).cabeza ∧
        (⟨a.signo, (restarMagnitudes a b).cabeza⟩ : BigInt).cabeza ≠ [] := by
      intro hl hna
      obtain ⟨h1, h2⟩ := restarMagnitudes_en_rango a b ha hb hl
      refine ⟨h1, fun hz => ?_⟩
      have h3 : 1 ≤ a.cabeza.length := List.length_pos.mpr hna
      simp only at hz
      rw [hz] at h2
      simp at h2
      omega
    have hba : a.cabeza.length ≤ b.cabeza.length → b.cabeza ≠ [] →
        BloquesEnRango (⟨b.signo, (restarMagnitudes b a).cabeza⟩ : BigInt).cabeza ∧
        (⟨b.signo, (restarMagnitudes b a).cabeza⟩ : BigInt).cabeza ≠ [] := by
      intro hl hnb
      obtain ⟨h1, h2⟩ := restarMagnitudes_en_rango b a hb ha hl
      refine ⟨h1, fun hz => ?_⟩
      have h3 : 1 ≤ b.cabeza.length := List.length_pos.mpr hnb
      simp only at hz
      rw [hz] at h2
      simp at h2
      omega
    have hrab : b.cabeza.length ≤ a.cabeza.length →
        BloquesEnRango (restarMagnitudes a b).cabeza :=
      fun hl => (restarMagnitudes_en_rango a b ha hb hl).1
    have hrba : a.cabeza.length ≤ b.cabeza.length →
        BloquesEnRango (restarMagnitudes b a).cabeza :=
      fun hl => (restarMagnitudes_en_rango b a hb ha hl).1
    unfold sumar
    rw [if_neg hs]
    simp only [BigInt.longitud]
    rcases Nat.lt_trichotomy a.cabeza.length b.cabeza.length with hl | hl | hl
    · have h1 : ¬ a.cabeza.length > b.cabeza.length := by omega
      simp only [h1, hl, if_true, if_false]
      have hn1 : ¬ ((-1 : Int) = 0) := by decide
      have hn2 : ¬ ((-1 : Int) > 0) := by decide
      rw [if_neg hn1, if_neg hn2]
      exact ⟨hrba (by omega), fun _ hnb => (hba (by omega) hnb).2⟩
    · simp only [hl, gt_iff_lt, lt_irrefl, if_false]
      split_ifs
      · exact ⟨hcero.1, fun _ _ => hcero.2⟩
      · exact ⟨hrab (by omega), fun hna _ => (hab (by omega) hna).2⟩
      · exact ⟨hrba (by omega), fun _ hnb => (hba (by omega) hnb).2⟩
    · have h1 : a.cabeza.length > b.cabeza.length := hl
      simp only [h1, if_true]
      have hn1 : ¬ ((1 : Int) = 0) := by decide
      have hp2 : ((1 : Int) > 0) := by decide
      rw [if_neg hn1, if_pos hp2]
      exact ⟨hrab (by omega), fun hna _ => (hab (by omega) hna).2⟩

theorem mulLoopExacto_no_vacio (a : BigInt) (ha : BloquesEnRango a.cabeza) (bs : List Nat) :
    ∀ (res : BigInt) (d : Nat), BloquesEnRango bs → res.signo = 1 → BloquesEnRango res.cabeza →
      res.cabeza ≠ [] → (mulLoopExacto a res bs d).cabeza ≠ [] := by
  induction bs with
  | nil => intro res d _ _ _ hne; simpa [mulLoopExacto] using hne
  | cons vb bs ih =>
    intro res d hb hs hr hne
    have hvb : vb < DEC_BASE := hb vb (List.mem_cons_self _ _)
    have hbs : BloquesEnRango bs := fun x hx => hb x (List.mem_cons_of_mem _ hx)
    obtain ⟨ps, hp, hpr, _⟩ := parcial_spec a vb d ha hvb
    have hss : res.signo = (⟨1, ps⟩ : BigInt).signo := hs
    obtain ⟨zs, hz, hzr, _, hzl, _⟩ := sumarMagnitudesExacto_spec res ⟨1, ps⟩ hr hpr
    have hsx : sumarExacto res ⟨1, ps⟩ = ⟨1, zs⟩ := by
      unfold sumarExacto
      rw [if_pos hss, hz, hs]
    simp only [mulLoopExacto, hp, hsx]
    apply ih ⟨1, zs⟩ (d + 1) hbs rfl hzr
    intro hzs
    simp only at hzs
    have h1 : 1 ≤ res.cabeza.length := List.length_pos.mpr hne
    have h2 : res.cabeza.length ≤ max res.cabeza.length (⟨1, ps⟩ : BigInt).cabeza.length :=
      Nat.le_max_left _ _
    have h3 : zs.length = 0 := by rw [hzs]; rfl
    omega

theorem multiplicar_no_vacio (a b : BigInt) (ha : BloquesEnRango a.cabeza)
    (hb : BloquesEnRango b.cabeza) : (multiplicar a b).cabeza ≠ [] := by
  rw [(multiplicar_spec a b ha hb).1]
  exact mulLoopExacto_no_vacio a ha b.cabeza (bg_append bg_nuevo 0) 0 hb rfl (by decide)
    (by decide)

/-- C20: the block-range invariant.  For an optional sign followed by a run of
decimal digits of any length, and for BigInts `a`, `b` with at least one block
each and every block below `10^9` (normalised or not, any signs), every block of
`bg_desde_cadena s`, of `sumar a b` and of `multiplicar a b` is below `10^9`, and
each of the three results has at least one block. -/
theorem invariante_de_rango (signo : Option Char) (ds : List Char) (a b : BigInt)
    (hsig : signo = none ∨ signo = some '+' ∨ signo = some '-') (hd : SonDigitos ds)
    (ha : BloquesEnRango a.cabeza) (hb : BloquesEnRango b.cabeza)
    (hna : a.cabeza ≠ []) (hnb : b.cabeza ≠ []) :
    (BloquesEnRango (bg_desde_cadena (textoCon signo ds)).cabeza ∧
      1 ≤ (bg_desde_cadena (textoCon signo ds)).longitud) ∧
    (BloquesEnRango (sumar a b).cabeza ∧ 1 ≤ (sumar a b).longitud) ∧
    (BloquesEnRango (multiplicar a b).cabeza ∧ 1 ≤ (multiplicar a b).longitud) := by
  obtain ⟨c1, c2⟩ := bg_desde_cadena_en_rango signo ds hsig hd
  obtain ⟨s1, s2⟩ := sumar_en_rango a b ha hb
  exact ⟨⟨c1, List.length_pos.mpr c2⟩, ⟨s1, List.length_pos.mpr (s2 hna hnb)⟩,
    ⟨(multiplicar_spec a b ha hb).2.2.1, List.length_pos.mpr (multiplicar_no_vacio a b ha hb)⟩⟩

/-- Witness for C20 at `s = -0000000000`, `a = [999999999, 0]` with sign `-1`
(not normalised) and `b = [999999999]`. -/
theorem invariante_de_rango_testigo :
    ((some '-' : Option Char) = none ∨ (some '-' : Option Char) = some '+'
      ∨ (some '-' : Option Char) = some '-') ∧
    SonDigitos "0000000000".toList ∧
    BloquesEnRango [999999999, 0] ∧ BloquesEnRango [999999999] ∧
    ([999999999, 0] : List Nat) ≠ [] ∧ ([999999999] : List Nat) ≠ [] ∧
    ((BloquesEnRango (bg_desde_cadena (textoCon (some '-') "0000000000".toList)).cabeza ∧
      1 ≤ (bg_desde_cadena (textoCon (some '-') "0000000000".toList)).longitud) ∧
    (BloquesEnRango (sumar ⟨-1, [999999999, 0]⟩ ⟨1, [999999999]⟩).cabeza ∧
      1 ≤ (sumar ⟨-1, [999999999, 0]⟩ ⟨1, [999999999]⟩).longitud) ∧
    (BloquesEnRango (multiplicar ⟨-1, [999999999, 0]⟩ ⟨1, [999999999]⟩).cabeza ∧
      1 ≤ (multiplicar ⟨-1, [999999999, 0]⟩ ⟨1, [999999999]⟩).longitud)) :=
  ⟨by decide, by decide, by decide, by decide, by decide, by decide,
    invariante_de_rango (some '-') "0000000000".toList ⟨-1, [999999999, 0]⟩ ⟨1, [999999999]⟩
      (by decide) (by decide) (by decide) (by decide) (by decide) (by decide)⟩

/-! ## Commutativity of schoolbook multiplication -/

/-- A chain with blocks in range is determined by its length and its value. -/
theorem lista_unica (xs : List Nat) :
    ∀ ys : List Nat, xs.length = ys.length → BloquesEnRango xs → BloquesEnRango ys →
      valorLista xs = valorLista ys → xs = ys := by
  induction xs with
  | nil =>
    intro ys hl _ _ _
    exact (List.length_eq_zero.mp hl.symm).symm
  | cons x xs ih =>
    intro ys hl hx hy hv
    cases ys with
    | nil => simp at hl
    | cons y ys =>
      have hx1 : x < 1000000000 := hx x (List.mem_cons_self _ _)
      have hy1 : y < 1000000000 := hy y (List.mem_cons_self _ _)
      have hxs : BloquesEnRango xs := fun v hv => hx v (List.mem_cons_of_mem _ hv)
      have hys : BloquesEnRango ys := fun v hv => hy v (List.mem_cons_of_mem _ hv)
      simp only [valorLista, DEC_BASE_eq] at hv
      have h1 : x = y := by omega
      have h2 : valorLista xs = valorLista ys := by omega
      rw [h1, ih ys (by simpa using hl) hxs hys h2]

/-- The inner loop of `multiplicar` in carry-out form: as many blocks as `as`,
then the final carry as one more block when it is not zero. -/
theorem mulFilaExacto_forma (as : List Nat) (p : BigInt) (vb c : Nat)
    (ha : BloquesEnRango as) (hb : vb < DEC_BASE) (hc : c < DEC_BASE) :
    ∃ ys cf, mulFilaExacto p as vb c
        = (if cf > 0 then ⟨p.signo, p.cabeza ++ ys ++ [cf]⟩ else ⟨p.signo, p.cabeza ++ ys⟩) ∧
      ys.length = as.length ∧ BloquesEnRango ys ∧ cf < DEC_BASE ∧
      valorLista ys + DEC_BASE ^ as.length * cf = valorLista as * vb + c := by
  induction as generalizing p c with
  | nil =>
    refine ⟨[], c, ?_, rfl, bloquesEnRango_nil, hc, by simp [valorLista]⟩
    simp [mulFilaExacto, bg_append]
  | cons va as ih =>
    have hva : va < DEC_BASE := ha va (List.mem_cons_self _ _)
    have has : BloquesEnRango as := fun x hx => ha x (List.mem_cons_of_mem _ hx)
    obtain ⟨_, h2⟩ := producto_acotado va vb c hva hb hc
    obtain ⟨ys, cf, he, hl, hr, hcf, hv⟩ := ih (bg_append p ((va * vb + c) % DEC_BASE)) _ has h2
    refine ⟨(va * vb + c) % DEC_BASE :: ys, cf, ?_, by simp [hl], ?_, hcf, ?_⟩
    · simp only [mulFilaExacto]
      rw [he]
      simp [bg_append]
    · exact bloquesEnRango_cons.mpr ⟨Nat.mod_lt _ DEC_BASE_pos, hr⟩
    · have hm := Nat.mod_add_div (va * vb + c) DEC_BASE
      simp only [valorLista, List.length_cons, pow_succ]
      zify at hv hm ⊢
      linear_combination hm + (DEC_BASE : ℤ) * hv

/-- Function `sumarMagnitudes` in carry-out form: as many blocks as the longer
operand, then the final carry as one more block when it is not zero. -/
theorem sumarMagnitudesExacto_forma (a b : BigInt)
    (ha : BloquesEnRango a.cabeza) (hb : BloquesEnRango b.cabeza) :
    ∃ ys cf, sumarMagnitudesExacto a b
        = (if cf > 0 then ⟨1, ys ++ [cf]⟩ else ⟨1, ys⟩) ∧
      ys.length = max a.cabeza.length b.cabeza.length ∧ BloquesEnRango ys ∧ cf ≤ 1 ∧
      valorLista ys + DEC_BASE ^ (max a.cabeza.length b.cabeza.length) * cf
        = valorLista a.cabeza + valorLista b.cabeza := by
  obtain ⟨xs, as', bs', c1, he1, hor, hrx, hra, hrb, hc1, hla, hlb, hv1⟩ :=
    sumarAmbosExacto_spec a.cabeza b.cabeza bg_nuevo 0 ha hb (Nat.zero_le _)
  obtain ⟨us, c2, he2, hlu, hru, hc2, hv2⟩ :=
    sumarRestoExacto_spec as' ⟨bg_nuevo.signo, bg_nuevo.cabeza ++ xs⟩ c1 hra hc1
  obtain ⟨ws, c3, he3, hlw, hrw, hc3, hv3⟩ :=
    sumarRestoExacto_spec bs' ⟨bg_nuevo.signo, bg_nuevo.cabeza ++ xs ++ us⟩ c2 hrb hc2
  have hlen : (xs ++ us ++ ws).length = max a.cabeza.length b.cabeza.length := by
    simp only [List.length_append, hlu, hlw]
    rcases hor with h | h <;> subst h <;> simp at hla hlb ⊢ <;> omega
  refine ⟨xs ++ us ++ ws, c3, ?_, hlen, ?_, hc3, ?_⟩
  · simp only [sumarMagnitudesExacto, he1, he2, he3]
    simp [bg_nuevo, bg_append]
  · exact bloquesEnRango_append.mpr ⟨bloquesEnRango_append.mpr ⟨hrx, hru⟩, hrw⟩
  · rw [← hlen]
    rcases hor with h | h
    · subst h
      simp only [List.length_nil, valorLista, pow_zero, one_mul] at hv2 hlu
      have hus : us = [] := List.length_eq_zero.mp hlu
      subst hus
      simp only [valorLista, zero_add] at hv2
      subst hv2
      simp only [List.append_nil, valorLista_append, List.length_append, hlw, pow_add,
        valorLista, zero_add] at hv1 ⊢
      zify at hv1 hv3 ⊢
      linear_combination hv1 + (DEC_BASE : ℤ) ^ xs.length * hv3
    · subst h
      simp only [List.length_nil, valorLista, pow_zero, one_mul] at hv3 hlw
      have hws : ws = [] := List.length_eq_zero.mp hlw
      subst hws
      simp only [valorLista, zero_add] at hv3
      subst hv3
      simp only [List.append_nil, valorLista_append, List.length_append, hlu, pow_add,
        valorLista, add_zero] at hv1 ⊢
      zify at hv1 hv2 ⊢
      linear_combination hv1 + (DEC_BASE : ℤ) ^ xs.length * hv2


theorem parcial_forma (a : BigInt) (vb d : Nat) (ha : BloquesEnRango a.cabeza)
    (hb : vb < DEC_BASE) :
    ∃ ps, mulFilaExacto (mulCeros bg_nuevo d) a.cabeza vb 0 = ⟨1, ps⟩ ∧ BloquesEnRango ps ∧
      valorLista ps = DEC_BASE ^ d * (valorLista a.cabeza * vb) ∧
      a.cabeza.length + d ≤ ps.length ∧ ps.length ≤ a.cabeza.length + d + 1 ∧
      (ps.length = a.cabeza.length + d + 1 →
        DEC_BASE ^ (a.cabeza.length + d) ≤ valorLista ps) := by
  obtain ⟨ys, cf, he, hl, hr, hcf, hv⟩ :=
    mulFilaExacto_forma a.cabeza (mulCeros bg_nuevo d) vb 0 ha hb DEC_BASE_pos
  have hz := valorLista_replicate_cero d
  have hrz := bloquesEnRango_replicate_cero d
  have hmc : mulCeros bg_nuevo d = ⟨1, List.replicate d 0⟩ := by
    rw [mulCeros_eq]; simp [bg_nuevo]
  rw [hmc] at he ⊢
  simp only at he
  by_cases h0 : cf > 0
  · rw [if_pos h0] at he
    refine ⟨List.replicate d 0 ++ ys ++ [cf], he, ?_, ?_, ?_, ?_, ?_⟩
    · refine bloquesEnRango_append.mpr ⟨bloquesEnRango_append.mpr ⟨hrz, hr⟩, ?_⟩
      intro v hv'
      simp only [List.mem_singleton] at hv'
      rw [hv']; exact hcf
    · simp only [valorLista_append, hz, List.length_append, List.length_replicate, hl,
        valorLista, mul_zero, add_zero, zero_add, pow_add]
      zify at hv ⊢
      linear_combination (DEC_BASE : ℤ) ^ d * hv
    · simp [hl]; omega
    · simp [hl]; omega
    · intro _
      simp only [valorLista_append, hz, List.length_append, List.length_replicate, hl,
        valorLista, mul_zero, add_zero, zero_add]
      have hp : 0 < DEC_BASE ^ (d + a.cabeza.length) := pow_pos DEC_BASE_pos _
      have e : a.cabeza.length + d = d + a.cabeza.length := Nat.add_comm _ _
      rw [e]
      have : DEC_BASE ^ (d + a.cabeza.length) * 1 ≤ DEC_BASE ^ (d + a.cabeza.length) * cf :=
        Nat.mul_le_mul_left _ h0
      omega
  · rw [if_neg h0] at he
    have hcf0 : cf = 0 := by omega
    subst hcf0
    refine ⟨List.replicate d 0 ++ ys, he, bloquesEnRango_append.mpr ⟨hrz, hr⟩, ?_, ?_, ?_, ?_⟩
    · simp only [valorLista_append, hz, List.length_replicate, zero_add]
      simp only [mul_zero, add_zero] at hv
      rw [hv]
    · simp [hl]; omega
    · simp [hl]; omega
    · intro h
      simp [hl] at h
      omega

/-- One round of the outer loop of `multiplicar`, with the length of the new
running total.  Before the round the total has at most `la + d` blocks and is
below `DEC_BASE ^ (la + d)`; after it the total has `la + d` or `la + d + 1`
blocks, the latter only when its value reaches `DEC_BASE ^ (la + d)`. -/
theorem paso_largo (a : BigInt) (ha : BloquesEnRango a.cabeza) (vb d : Nat) (res : BigInt)
    (hvb : vb < DEC_BASE) (hs : res.signo = 1) (hr : BloquesEnRango res.cabeza)
    (hv : valorLista res.cabeza < DEC_BASE ^ (a.cabeza.length + d))
    (hl : res.cabeza.length ≤ a.cabeza.length + d) :
    ∃ zs, sumarExacto res (mulFilaExacto (mulCeros bg_nuevo d) a.cabeza vb 0) = ⟨1, zs⟩ ∧
      BloquesEnRango zs ∧
      valorLista zs < DEC_BASE ^ (a.cabeza.length + (d + 1)) ∧
      zs.length ≤ a.cabeza.length + (d + 1) ∧ a.cabeza.length + d ≤ zs.length ∧
      (zs.length = a.cabeza.length + d + 1 →
        DEC_BASE ^ (a.cabeza.length + d) ≤ valorLista zs) := by
  obtain ⟨ps, hp, hpr, hpv, hpl1, hpl2, hpl3⟩ := parcial_forma a vb d ha hvb
  obtain ⟨ys, cf, he, hyl, hyr, hcf, hyv⟩ := sumarMagnitudesExacto_forma res ⟨1, ps⟩ hr hpr
  have hmax : max res.cabeza.length (⟨1, ps⟩ : BigInt).cabeza.length = ps.length :=
    Nat.max_eq_right (by simp only; omega)
  rw [hmax] at hyl hyv
  have hss : res.signo = (⟨1, ps⟩ : BigInt).signo := hs
  have hsx : sumarExacto res ⟨1, ps⟩ = ⟨1, (sumarMagnitudesExacto res ⟨1, ps⟩).cabeza⟩ := by
    unfold sumarExacto
    rw [if_pos hss, hs]
  have hva : valorLista a.cabeza < DEC_BASE ^ a.cabeza.length := valorLista_lt _ ha
  have hbound : valorLista res.cabeza + valorLista ps
      < DEC_BASE ^ (a.cabeza.length + (d + 1)) := by
    rw [hpv]
    obtain ⟨k, hk⟩ : ∃ k, DEC_BASE = k + 1 := ⟨999999999, rfl⟩
    have h1 : valorLista a.cabeza * vb ≤ DEC_BASE ^ a.cabeza.length * k :=
      Nat.mul_le_mul (Nat.le_of_lt hva) (by omega)
    have h2 : DEC_BASE ^ d * (valorLista a.cabeza * vb)
        ≤ DEC_BASE ^ d * (DEC_BASE ^ a.cabeza.length * k) := Nat.mul_le_mul_left _ h1
    have h3 : DEC_BASE ^ (a.cabeza.length + (d + 1))
        = DEC_BASE ^ (a.cabeza.length + d) + DEC_BASE ^ d * (DEC_BASE ^ a.cabeza.length * k) := by
      rw [← Nat.add_assoc, pow_succ, pow_add]
      nth_rewrite 3 [hk]
      ring
    omega
  simp only at hyv
  have hysum : valorLista ys + DEC_BASE ^ ps.length * cf
      < DEC_BASE ^ (a.cabeza.length + (d + 1)) := by
    rw [hyv]; exact hbound
  rw [hp, hsx, he]
  by_cases h0 : cf > 0
  · rw [if_pos h0]
    have hcf1 : cf = 1 := by omega
    subst hcf1
    have hzv : valorLista (ys ++ [1]) = valorLista ys + DEC_BASE ^ ps.length * 1 := by
      rw [valorLista_append, hyl]
      simp [valorLista]
    have hplen : ps.length = a.cabeza.length + d := by
      by_contra hne
      have hp1 : ps.length = a.cabeza.length + (d + 1) := by omega
      rw [hp1] at hysum
      omega
    refine ⟨ys ++ [1], rfl, ?_, ?_, ?_, ?_, ?_⟩
    · refine bloquesEnRango_append.mpr ⟨hyr, ?_⟩
      intro v hv'
      simp only [List.mem_singleton] at hv'
      rw [hv']; decide
    · rw [hzv]; exact hysum
    · simp [hyl]; omega
    · simp [hyl]; omega
    · intro _
      rw [hzv, hplen]
      omega
  · rw [if_neg h0]
    have hcf0 : cf = 0 := by omega
    subst hcf0
    simp only [mul_zero, add_zero] at hyv hysum
    refine ⟨ys, rfl, hyr, hysum, by omega, by omega, ?_⟩
    intro hlen
    rw [hyv]
    have := hpl3 (by omega)
    omega

theorem mulLoopExacto_largo (a : BigInt) (ha : BloquesEnRango a.cabeza) (bs : List Nat) :
    ∀ (res : BigInt) (d : Nat), bs ≠ [] → BloquesEnRango bs → res.signo = 1 →
      BloquesEnRango res.cabeza → valorLista res.cabeza < DEC_BASE ^ (a.cabeza.length + d) →
      res.cabeza.length ≤ a.cabeza.length + d →
      a.cabeza.length + d + bs.length ≤ (mulLoopExacto a res bs d).cabeza.length + 1 ∧
      (mulLoopExacto a res bs d).cabeza.length ≤ a.cabeza.length + d + bs.length ∧
      ((mulLoopExacto a res bs d).cabeza.length = a.cabeza.length + d + bs.length →
        DEC_BASE ^ (a.cabeza.length + d + bs.length - 1)
          ≤ valorLista (mulLoopExacto a res bs d).cabeza) := by
  induction bs with
  | nil => intro res d hne; exact absurd rfl hne
  | cons vb bs ih =>
    intro res d _ hb hs hr hv hl
    have hvb : vb < DEC_BASE := hb vb (List.mem_cons_self _ _)
    have hbs : BloquesEnRango bs := fun x hx => hb x (List.mem_cons_of_mem _ hx)
    obtain ⟨zs, hz, hzr, hzv, hzl1, hzl2, hzl3⟩ := paso_largo a ha vb d res hvb hs hr hv hl
    simp only [mulLoopExacto, hz]
    cases hbs_nil : bs with
    | nil =>
      simp only [mulLoopExacto, List.length_singleton]
      refine ⟨by omega, by omega, ?_⟩
      intro h
      have := hzl3 h
      simpa using this
    | cons vb' bs' =>
      have hne' : bs ≠ [] := by rw [hbs_nil]; simp
      obtain ⟨i1, i2, i3⟩ := ih ⟨1, zs⟩ (d + 1) hne' hbs rfl hzr hzv hzl1
      rw [hbs_nil] at i1 i2 i3
      have e : a.cabeza.length + (d + 1) + (vb' :: bs').length
          = a.cabeza.length + d + (vb :: vb' :: bs').length := by
        simp only [List.length_cons]; omega
      rw [e] at i1 i2 i3
      exact ⟨i1, i2, i3⟩

/-- The number of blocks of a product: `la + lb - 1`, or `la + lb` when the value
reaches `DEC_BASE ^ (la + lb - 1)`. -/
theorem multiplicar_largo (a b : BigInt) (ha : BloquesEnRango a.cabeza)
    (hb : BloquesEnRango b.cabeza) (hna : a.cabeza ≠ []) (hnb : b.cabeza ≠ []) :
    (multiplicar a b).cabeza.length
      = if valorLista a.cabeza * valorLista b.cabeza
            < DEC_BASE ^ (a.cabeza.length + b.cabeza.length - 1)
        then a.cabeza.length + b.cabeza.length - 1
        else a.cabeza.length + b.cabeza.length := by
  obtain ⟨hm, _, hr, hv⟩ := multiplicar_spec a b ha hb
  have h1 : 1 ≤ a.cabeza.length := List.length_pos.mpr hna
  have h2 : 1 ≤ b.cabeza.length := List.length_pos.mpr hnb
  have hp : 1 ≤ DEC_BASE ^ a.cabeza.length := Nat.one_le_pow _ _ DEC_BASE_pos
  obtain ⟨l1, l2, l3⟩ := mulLoopExacto_largo a ha b.cabeza (bg_append bg_nuevo 0) 0 hnb hb rfl
    (by decide) (by simp [bg_append, bg_nuevo, valorLista]; omega)
    (by simp [bg_append, bg_nuevo]; omega)
  have hc : (multiplicar a b).cabeza = (mulLoopExacto a (bg_append bg_nuevo 0) b.cabeza 0).cabeza := by
    rw [hm]; rfl
  rw [← hc] at l1 l2 l3
  simp only [Nat.add_zero] at l1 l2 l3
  have hlt := valorLista_lt _ hr
  unfold BigInt.magnitud at hv
  rw [hv] at l3 hlt
  split_ifs with hif
  · by_contra hne
    have hfull : (multiplicar a b).cabeza.length = a.cabeza.length + b.cabeza.length := by omega
    have := l3 hfull
    omega
  · by_contra hne
    have hshort : (multiplicar a b).cabeza.length = a.cabeza.length + b.cabeza.length - 1 := by
      omega
    rw [hshort] at hlt
    omega

theorem multiplicar_conmutativa (a b : BigInt) (ha : BloquesEnRango a.cabeza)
    (hb : BloquesEnRango b.cabeza) (hna : a.cabeza ≠ []) (hnb : b.cabeza ≠ []) :
    multiplicar a b = multiplicar b a := by
  obtain ⟨_, _, hr1, hv1⟩ := multiplicar_spec a b ha hb
  obtain ⟨_, _, hr2, hv2⟩ := multiplicar_spec b a hb ha
  have hl1 := multiplicar_largo a b ha hb hna hnb
  have hl2 := multiplicar_largo b a hb ha hnb hna
  have hlen : (multiplicar a b).cabeza.length = (multiplicar b a).cabeza.length := by
    rw [hl1, hl2, Nat.mul_comm (valorLista b.cabeza), Nat.add_comm b.cabeza.length]
  have hval : valorLista (multiplicar a b).cabeza = valorLista (multiplicar b a).cabeza := by
    unfold BigInt.magnitud at hv1 hv2
    rw [hv1, hv2, Nat.mul_comm]
  have hcab := lista_unica _ _ hlen hr1 hr2 hval
  have hsig : (multiplicar a b).signo = (multiplicar b a).signo := by
    show a.signo * b.signo = b.signo * a.signo
    exact Int.mul_comm _ _
  cases hx : multiplicar a b with
  | mk s1 c1 =>
    cases hy : multiplicar b a with
    | mk s2 c2 =>
      rw [hx, hy] at hcab hsig
      simp only at hcab hsig
      rw [hcab, hsig]

/-- C11: schoolbook multiplication is commutative.  For well-formed `a` and `b`
(zero operands and operands of different lengths included), `multiplicar a b`
and `multiplicar b a` are the same BigInt: same sign, same chain of blocks. -/
theorem multiplicar_es_conmutativa (a b : BigInt) (ha : BienFormado a) (hb : BienFormado b) :
    multiplicar a b = multiplicar b a ∧
    (multiplicar a b).signo = (multiplicar b a).signo ∧
    (multiplicar a b).cabeza = (multiplicar b a).cabeza := by
  have h := multiplicar_conmutativa a b ha.en_rango hb.en_rango ha.no_vacio hb.no_vacio
  exact ⟨h, by rw [h], by rw [h]⟩

/-- Witness for C11 at `a = -1000000000000000001` (three blocks) and `b = 0`:
both orders give three zero blocks with sign `-1`. -/
theorem multiplicar_es_conmutativa_testigo :
    BienFormado ⟨-1, [1, 0, 1]⟩ ∧ BienFormado ⟨1, [0]⟩ ∧
    multiplicar ⟨-1, [1, 0, 1]⟩ ⟨1, [0]⟩ = multiplicar ⟨1, [0]⟩ ⟨-1, [1, 0, 1]⟩ ∧
    multiplicar ⟨-1, [1, 0, 1]⟩ ⟨1, [0]⟩ = ⟨-1, [0, 0, 0]⟩ :=
  ⟨by decide, by decide,
    (multiplicar_es_conmutativa ⟨-1, [1, 0, 1]⟩ ⟨1, [0]⟩ (by decide) (by decide)).1,
    by decide⟩

/-- C14, amended: the comparator orders the two zeros by their stored signs.  For
chains that are the single block `0`, `compararBigInt` returns `1` when the first
stored sign is the larger, `-1` when it is the smaller, and `0` exactly when the
two stored signs are equal. -/
theorem comparar_ceros_por_signo (s t : Int) :
    (compararBigInt ⟨s, [0]⟩ ⟨t, [0]⟩ = if s > t then 1 else if s < t then -1 else 0) ∧
    (compararBigInt ⟨s, [0]⟩ ⟨t, [0]⟩ = 0 ↔ s = t) := by
  have h : compararBigInt ⟨s, [0]⟩ ⟨t, [0]⟩ = if s > t then 1 else if s < t then -1 else 0 := by
    unfold compararBigInt
    by_cases h1 : s > t
    · simp only [h1, if_true]
    · by_cases h2 : s < t
      · simp only [h1, h2, if_true, if_false]
      · have hc : compararMagnitud [0] [0] 1 = 0 := by decide
        simp only [h1, h2, if_false, BigInt.longitud, List.length_singleton, gt_iff_lt,
          lt_irrefl, hc, neg_zero, ite_self]
  refine ⟨h, ?_⟩
  rw [h]
  split_ifs with h1 h2
  · exact ⟨fun h' => absurd h' (by decide), fun h' => by omega⟩
  · exact ⟨fun h' => absurd h' (by decide), fun h' => by omega⟩
  · exact ⟨fun _ => by omega, fun _ => rfl⟩

/-! ## The blocks of a parsed run of digits -/

/-- Block `k` of the loop of `bg_desde_cadena` on the first `i` characters: the
number written by the `k`-th group of nine digits counted from the right end of
those characters (the last group may be shorter). -/
theorem cadenaLoop_bloques (s : List Char) (hs : SonDigitos s) (fuel : Nat) :
    ∀ (i : Nat) (r : BigInt), i ≤ s.length → i ≤ fuel →
      ∃ bs, cadenaLoop fuel s (i : Int) r = ⟨r.signo, r.cabeza ++ bs⟩ ∧
        bs.length = (i + 8) / 9 ∧
        ∀ k, k < bs.length →
          bs.getD k 0 = valorDecimal ((s.take (i - 9 * k)).drop (i - 9 * k - 9)) := by
  induction fuel with
  | zero =>
    intro i r _ hf
    have hi0 : i = 0 := by omega
    subst hi0
    exact ⟨[], by simp [cadenaLoop], by simp, fun k hk => absurd hk (by simp)⟩
  | succ fuel ih =>
    intro i r hil hf
    rcases Nat.eq_zero_or_pos i with hi0 | hpos
    · subst hi0
      exact ⟨[], by simp [cadenaLoop], by simp, fun k hk => absurd hk (by simp)⟩
    · rw [cadenaLoop_paso fuel s i r hpos]
      have hbufd : SonDigitos ((s.drop (i - 9)).take (i - (i - 9))) :=
        sonDigitos_take (sonDigitos_drop hs _) _
      have hbufl : ((s.drop (i - 9)).take (i - (i - 9))).length ≤ 9 := by
        rw [List.length_take]; omega
      obtain ⟨hb1, _⟩ := toU32_atoi_digitos _ hbufd hbufl
      rw [hb1]
      have hgrupo : (s.drop (i - 9)).take (i - (i - 9)) = (s.take i).drop (i - 9) := by
        rw [List.drop_take]
      by_cases h9 : i ≤ 9
      · rw [cadenaLoop_no_positivo fuel s _ _ (by omega)]
        refine ⟨[valorDecimal ((s.drop (i - 9)).take (i - (i - 9)))], by simp [bg_append],
          by simp; omega, ?_⟩
        intro k hk
        have hk0 : k = 0 := by simpa using hk
        subst hk0
        simp only [List.getD_cons_zero, Nat.mul_zero, Nat.sub_zero]
        rw [hgrupo]
      · have hcast : (i : Int) - 9 = ((i - 9 : Nat) : Int) := by omega
        rw [hcast]
        obtain ⟨bs, he, hl, hk⟩ :=
          ih (i - 9) (bg_append r (valorDecimal ((s.drop (i - 9)).take (i - (i - 9)))))
            (by omega) (by omega)
        refine ⟨valorDecimal ((s.drop (i - 9)).take (i - (i - 9))) :: bs, ?_, ?_, ?_⟩
        · rw [he]; simp [bg_append]
        · simp only [List.length_cons, hl]; omega
        · intro k hkl
          cases k with
          | zero =>
            simp only [List.getD_cons_zero, Nat.mul_zero, Nat.sub_zero]
            rw [hgrupo]
          | succ k =>
            have hk' : k < bs.length := by simpa using hkl
            rw [List.getD_cons_succ, hk k hk']
            have e : i - 9 - 9 * k = i - 9 * (k + 1) := by omega
            rw [e]


theorem bg_desde_cadena_bloques (signo : Option Char) (ds : List Char)
    (hsig : signo = none ∨ signo = some '+' ∨ signo = some '-')
    (hne : ds ≠ []) (hd : SonDigitos ds) (hlen : ds.length < 2147483648) :
    ∃ bs, bg_desde_cadena (textoCon signo ds)
        = ⟨if signo = some '-' then -1 else 1, bs⟩ ∧
      bs.length = (ds.length + 8) / 9 ∧
      ∀ k, k < bs.length →
        bs.getD k 0
          = valorDecimal ((ds.take (ds.length - 9 * k)).drop (ds.length - 9 * k - 9)) := by
  obtain ⟨r1, hr1, hs1, he⟩ := bg_desde_cadena_forma signo ds hsig hd
  obtain ⟨bs, hb, hl, hk⟩ :=
    cadenaLoop_bloques ds hd ds.length ds.length r1 (Nat.le_refl _) (Nat.le_refl _)
  have hpos : 0 < ds.length := List.length_pos.mpr hne
  rw [toInt32_pequeno _ hlen, hb, hr1, hs1] at he
  have hlen0 : ¬ (⟨if signo = some '-' then -1 else 1, [] ++ bs⟩ : BigInt).longitud = 0 := by
    simp only [BigInt.longitud, List.nil_append, hl]
    omega
  rw [if_neg hlen0] at he
  refine ⟨bs, by simpa using he, hl, ?_⟩
  intro k hkl
  have := hk k hkl
  simpa using this

/-- C22: parsing groups the digits into nine-digit blocks from the right.  For an
optional `+` or `-` followed by `n ≥ 1` decimal digits, `n` below `2^31`, the
result has `ceil (n / 9)` blocks, block `k` is the number written by the `k`-th
group of nine digits counted from the right end (the last group may be
shorter), the sign is `-1` exactly when the text starts with `-` and `+1`
otherwise, and the result denotes the integer written by the text. -/
theorem analisis_por_grupos (signo : Option Char) (ds : List Char)
    (hsig : signo = none ∨ signo = some '+' ∨ signo = some '-')
    (hne : ds ≠ []) (hd : SonDigitos ds) (hlen : ds.length < 2147483648) :
    (bg_desde_cadena (textoCon signo ds)).longitud = (ds.length + 8) / 9 ∧
    (∀ k, k < (ds.length + 8) / 9 →
      (bg_desde_cadena (textoCon signo ds)).cabeza.getD k 0
        = valorDecimal ((ds.take (ds.length - 9 * k)).drop (ds.length - 9 * k - 9))) ∧
    ((bg_desde_cadena (textoCon signo ds)).signo = -1 ↔
      (textoCon signo ds).head? = some '-') ∧
    ((bg_desde_cadena (textoCon signo ds)).signo = 1 ↔
      (textoCon signo ds).head? ≠ some '-') ∧
    (bg_desde_cadena (textoCon signo ds)).valor = valorTexto signo ds := by
  obtain ⟨bs, he, hl, hk⟩ := bg_desde_cadena_bloques signo ds hsig hne hd hlen
  obtain ⟨bs', he', _, hv, _, _⟩ := bg_desde_cadena_spec signo ds hsig hne hd hlen
  have hbs : bs' = bs := by
    rw [he] at he'
    exact (BigInt.mk.inj he').2.symm
  rw [hbs] at hv
  have hhead : (textoCon signo ds).head? = some '-' ↔ signo = some '-' := by
    rcases hsig with h | h | h
    · subst h
      cases ds with
      | nil => exact absurd rfl hne
      | cons c cs =>
        obtain ⟨_, h2, _⟩ := digito_no_espacio c (hd c (List.mem_cons_self _ _))
        simp [textoCon, h2]
    · subst h
      simp [textoCon]
    · subst h
      simp [textoCon]
  rw [he]
  refine ⟨hl, ?_, ?_, ?_, ?_⟩
  · intro k hkl
    exact hk k (by rw [hl]; exact hkl)
  · rw [hhead]
    by_cases hm : signo = some '-'
    · simp [hm]
    · simp [hm]
  · rw [Ne, hhead]
    by_cases hm : signo = some '-'
    · simp [hm]
    · simp [hm]
  · simp only [BigInt.valor, BigInt.magnitud, hv, valorTexto]
    by_cases hm : signo = some '-'
    · simp [hm]
    · simp [hm]

/-- Witness for C22 at `s = -123456789012345678901234567890`: thirty digits, four
blocks, the most significant one being the three-digit group `123`. -/
theorem analisis_por_grupos_testigo :
    ((some '-' : Option Char) = none ∨ (some '-' : Option Char) = some '+'
      ∨ (some '-' : Option Char) = some '-') ∧
    "123456789012345678901234567890".toList ≠ [] ∧
    SonDigitos "123456789012345678901234567890".toList ∧
    "123456789012345678901234567890".toList.length < 2147483648 ∧
    (bg_desde_cadena (textoCon (some '-') "123456789012345678901234567890".toList)).longitud
      = ("123456789012345678901234567890".toList.length + 8) / 9 ∧
    bg_desde_cadena (textoCon (some '-') "123456789012345678901234567890".toList)
      = ⟨-1, [234567890, 345678901, 456789012, 123]⟩ :=
  ⟨by decide, by decide, by decide, by decide,
    (analisis_por_grupos (some '-') "123456789012345678901234567890".toList (by decide)
      (by decide) (by decide) (by decide)).1,
    by decide⟩

/-! ## Uniqueness of the canonical numeral -/

theorem digito_ge (c : Char) (h : c.isDigit = true) : 48 ≤ c.toNat := by
  simp only [Char.isDigit, Bool.and_eq_true, decide_eq_true_eq] at h
  exact UInt32.le_def.mp h.1

theorem digito_iny (c d : Char) (hc : c.isDigit = true) (hd : d.isDigit = true)
    (h : c.toNat - 48 = d.toNat - 48) : c = d := by
  have h1 := digito_ge c hc
  have h2 := digito_ge d hd
  apply Char.ext
  apply UInt32.ext
  show c.toNat = d.toNat
  omega

theorem digito_pos (c : Char) (hc : c.isDigit = true) (h0 : c ≠ '0') : 1 ≤ c.toNat - 48 := by
  by_contra hcon
  apply h0
  apply digito_iny c '0' hc (by decide)
  have : '0'.toNat - 48 = 0 := by decide
  omega

theorem numeral_misma_longitud (xs : List Char) :
    ∀ ys : List Char, SonDigitos xs → SonDigitos ys → xs.length = ys.length →
      valorDecimal xs = valorDecimal ys → xs = ys := by
  induction xs with
  | nil =>
    intro ys _ _ hl _
    exact (List.length_eq_zero.mp hl.symm).symm
  | cons c cs ih =>
    intro ys hx hy hl hv
    cases ys with
    | nil => simp at hl
    | cons d ds =>
      have hcs : SonDigitos cs := fun x hx' => hx x (List.mem_cons_of_mem _ hx')
      have hds : SonDigitos ds := fun x hx' => hy x (List.mem_cons_of_mem _ hx')
      have hl' : cs.length = ds.length := by simpa using hl
      have b1 := valorDecimal_lt cs hcs
      have b2 := valorDecimal_lt ds hds
      rw [valorDecimal_cons, valorDecimal_cons, ← hl'] at hv
      rw [← hl'] at b2
      have hdig : c.toNat - 48 = d.toNat - 48 := by
        rcases Nat.lt_trichotomy (c.toNat - 48) (d.toNat - 48) with h | h | h
        · have := Nat.mul_le_mul_right (10 ^ cs.length) (Nat.succ_le_of_lt h)
          rw [Nat.succ_mul] at this
          omega
        · exact h
        · have := Nat.mul_le_mul_right (10 ^ cs.length) (Nat.succ_le_of_lt h)
          rw [Nat.succ_mul] at this
          omega
      have hrest : valorDecimal cs = valorDecimal ds := by
        rw [hdig] at hv
        omega
      rw [digito_iny c d (hx c (List.mem_cons_self _ _)) (hy d (List.mem_cons_self _ _)) hdig,
        ih ds hcs hds hl' hrest]

theorem canonico_cotas (xs : List Char) (n : Nat) (h : EsNumeralCanonico xs n) :
    (n = 0 → xs = ['0']) ∧ (n ≠ 0 → 10 ^ (xs.length - 1) ≤ n) ∧ n < 10 ^ xs.length := by
  obtain ⟨hne, hd, hz, hv⟩ := h
  have hlt := valorDecimal_lt xs hd
  rw [hv] at hlt
  cases xs with
  | nil => exact absurd rfl hne
  | cons c cs =>
    by_cases hc : c = '0'
    · subst hc
      have hxs := hz rfl
      rw [hxs] at hv ⊢
      have : n = 0 := by rw [← hv]; decide
      subst this
      exact ⟨fun _ => rfl, fun h => absurd rfl h, by decide⟩
    · have hp := digito_pos c (hd c (List.mem_cons_self _ _)) hc
      rw [valorDecimal_cons] at hv
      have := Nat.mul_le_mul_right (10 ^ cs.length) hp
      have hpos : 0 < 10 ^ cs.length := pow_pos (by decide) _
      refine ⟨fun h0 => by omega, fun _ => ?_, hlt⟩
      simp only [List.length_cons, Nat.add_sub_cancel]
      omega

/-- A natural number has only one canonical numeral. -/
theorem canonico_unico (xs ys : List Char) (n : Nat) (hx : EsNumeralCanonico xs n)
    (hy : EsNumeralCanonico ys n) : xs = ys := by
  obtain ⟨x0, x1, x2⟩ := canonico_cotas xs n hx
  obtain ⟨y0, y1, y2⟩ := canonico_cotas ys n hy
  by_cases hn : n = 0
  · rw [x0 hn, y0 hn]
  · have hlen : xs.length = ys.length := by
      have a1 := x1 hn
      have a2 := y1 hn
      have c1 : ¬ ys.length ≤ xs.length - 1 := by
        intro hle
        have := Nat.pow_le_pow_right (by decide : 0 < 10) hle
        omega
      have c2 : ¬ xs.length ≤ ys.length - 1 := by
        intro hle
        have := Nat.pow_le_pow_right (by decide : 0 < 10) hle
        omega
      omega
    exact numeral_misma_longitud xs ys hx.2.1 hy.2.1 hlen (by rw [hx.2.2.2, hy.2.2.2])

/-! ## Round trip on canonical text -/

theorem grupo_lider_positivo (ds : List Char) (hd : SonDigitos ds) (hne : ds ≠ [])
    (h0 : ds.head? ≠ some '0') (k : Nat) : 0 < valorDecimal (ds.take (k + 1)) := by
  cases ds with
  | nil => exact absurd rfl hne
  | cons c cs =>
    have hc : c ≠ '0' := by
      intro h
      apply h0
      rw [h]
      rfl
    have hp := digito_pos c (hd c (List.mem_cons_self _ _)) hc
    rw [List.take_succ_cons, valorDecimal_cons]
    have := Nat.mul_le_mul_right (10 ^ (cs.take k).length) hp
    have hpos : 0 < 10 ^ (cs.take k).length := pow_pos (by decide) _
    omega

/-- C24, amended: for a canonical decimal text of fewer than `2^31` digits (the
text `0`, or an optional `-` followed by digits the first of which is not `0`),
`printBigInt (bg_desde_cadena s)` writes exactly `s` followed by a newline, and
`bg_desde_cadena s` is well formed: sign `1` or `-1`, at least one block, every
block below `10^9`, and no most significant zero block unless it is the only one. -/
theorem ida_y_vuelta_exacta (signo : Option Char) (ds : List Char)
    (hsig : signo = none ∨ signo = some '-')
    (hne : ds ≠ []) (hd : SonDigitos ds) (hlen : ds.length < 2147483648)
    (hcan : (signo = none ∧ ds = ['0']) ∨ ds.head? ≠ some '0') :
    printBigInt (bg_desde_cadena (textoCon signo ds)) = some (textoCon signo ds ++ ['\n']) ∧
    BienFormado (bg_desde_cadena (textoCon signo ds)) := by
  have hsig' : signo = none ∨ signo = some '+' ∨ signo = some '-' := by
    rcases hsig with h | h
    · exact Or.inl h
    · exact Or.inr (Or.inr h)
  obtain ⟨bs, he, hr, hv, hl, hlast⟩ := bg_desde_cadena_spec signo ds hsig' hne hd hlen
  have hpos : 0 < ds.length := List.length_pos.mpr hne
  have hbne : bs ≠ [] := by
    intro h
    rw [h] at hl
    simp at hl
    omega
  have htop : bs.getLast? = some 0 → bs.length = 1 := by
    intro h0
    rw [hlast] at h0
    have hz : valorDecimal (ds.take ((ds.length - 1) % 9 + 1)) = 0 := by simpa using h0
    rcases hcan with ⟨_, hds⟩ | hh
    · rw [hl, hds]
      rfl
    · have := grupo_lider_positivo ds hd hne hh ((ds.length - 1) % 9)
      omega
  have hcanon : EsNumeralCanonico ds (valorDecimal ds) := by
    refine ⟨hne, hd, ?_, rfl⟩
    intro h0
    rcases hcan with ⟨_, hds⟩ | hh
    · exact hds
    · exact absurd h0 hh
  obtain ⟨cuerpo, hp, hc⟩ := printBigInt_canonico (if signo = some '-' then -1 else 1) bs hbne
    hr htop (by omega)
  rw [hv] at hc
  have hcd : cuerpo = ds := canonico_unico cuerpo ds _ hc hcanon
  rw [he]
  constructor
  · rw [hp, hcd]
    rcases hsig with h | h
    · subst h
      simp [textoCon]
    · subst h
      simp [textoCon]
  · refine ⟨?_, hbne, hr, ?_⟩
    · by_cases hm : signo = some '-'
      · simp [hm]
      · simp [hm]
    · intro h0
      have h1 := htop h0
      cases bs with
      | nil => exact absurd rfl hbne
      | cons b rest =>
        have hrest : rest = [] := by
          apply List.length_eq_zero.mp
          simpa using h1
        subst hrest
        simp only [List.getLast?_singleton, Option.some.injEq] at h0
        rw [h0]

theorem ida_y_vuelta_exacta_testigo :
    printBigInt (bg_desde_cadena (textoCon (some '-') "123456789012345678901234567890".toList))
      = some (textoCon (some '-') "123456789012345678901234567890".toList ++ ['\n']) ∧
    BienFormado (bg_desde_cadena (textoCon (some '-') "123456789012345678901234567890".toList)) :=
  ida_y_vuelta_exacta (some '-') "123456789012345678901234567890".toList (Or.inr rfl)
    (by decide) (by decide) (by decide) (Or.inr (by decide))

theorem sonDigitos_unos (n : Nat) : SonDigitos ('1' :: List.replicate n '1') := by
  intro x hx
  rcases List.mem_cons.mp hx with h | h
  · rw [h]
    rfl
  · rw [List.eq_of_mem_replicate h]
    rfl

theorem texto_cero_distinto (cs : List Char) :
    some ("0".toList ++ ['\n']) ≠ some (textoCon none ('1' :: cs) ++ ['\n']) := by
  intro h
  simp [textoCon] at h

/-- C24, as stated, fails on a canonical text of `2^31` digits `1`: `(int)len` is
negative, no digit is read, the value is the single block `0`, and the text
printed is `0` instead of the text given. -/
theorem ida_y_vuelta_texto_largo :
    SonDigitos ('1' :: List.replicate 2147483647 '1') ∧
    ('1' :: List.replicate 2147483647 '1').head? ≠ some '0' ∧
    printBigInt (bg_desde_cadena (textoCon none ('1' :: List.replicate 2147483647 '1')))
      = some ("0".toList ++ ['\n']) ∧
    printBigInt (bg_desde_cadena (textoCon none ('1' :: List.replicate 2147483647 '1')))
      ≠ some (textoCon none ('1' :: List.replicate 2147483647 '1') ++ ['\n']) := by
  have h := bg_desde_cadena_largo '1' (List.replicate 2147483647 '1') (by decide)
    (by rw [List.length_cons, List.length_replicate])
  refine ⟨sonDigitos_unos _, ?_, h, ?_⟩
  · intro h0
    exact absurd (Option.some.inj h0) (by decide)
  · rw [h]
    exact texto_cero_distinto _

/-! ## Multiplication by the single block `0` -/

/-- The schoolbook product of `a` by the single block `0` keeps the sign of `a`
and has one zero block per block of `a`. -/
theorem multiplicar_cero_derecha (a : BigInt) (ha : BloquesEnRango a.cabeza)
    (hna : a.cabeza ≠ []) :
    multiplicar a bg_cero = ⟨a.signo, List.replicate a.cabeza.length 0⟩ := by
  have hz : BloquesEnRango bg_cero.cabeza := by decide
  have hnz : bg_cero.cabeza ≠ [] := by decide
  obtain ⟨_, _, hr, hv⟩ := multiplicar_spec a bg_cero ha hz
  have hl := multiplicar_largo a bg_cero ha hz hna hnz
  have hv0 : valorLista bg_cero.cabeza = 0 := by decide
  have hl1 : bg_cero.cabeza.length = 1 := by decide
  have hpos : 0 < DEC_BASE ^ (a.cabeza.length + 1 - 1) := pow_pos DEC_BASE_pos _
  rw [hv0, hl1, Nat.mul_zero, if_pos hpos, Nat.add_sub_cancel] at hl
  have hval : valorLista (multiplicar a bg_cero).cabeza
      = valorLista (List.replicate a.cabeza.length 0) := by
    have h1 : (multiplicar a bg_cero).magnitud = a.magnitud * bg_cero.magnitud := hv
    have h2 : bg_cero.magnitud = 0 := by decide
    rw [h2, Nat.mul_zero] at h1
    rw [valorLista_replicate_cero]
    exact h1
  have hcab := lista_unica (multiplicar a bg_cero).cabeza (List.replicate a.cabeza.length 0)
    (by rw [hl, List.length_replicate]) hr (bloquesEnRango_replicate_cero _) hval
  have hs : (multiplicar a bg_cero).signo = a.signo := by
    show a.signo * 1 = a.signo
    exact mul_one _
  calc multiplicar a bg_cero
      = ⟨(multiplicar a bg_cero).signo, (multiplicar a bg_cero).cabeza⟩ := rfl
    _ = ⟨a.signo, List.replicate a.cabeza.length 0⟩ := by rw [hs, hcab]

theorem karatsuba_caso_base (fuel : Nat) (a b : BigInt)
    (h : a.longitud ≤ 2 ∨ b.longitud ≤ 2) :
    bg_multiplicarKaratsuba (fuel + 1) a b = some (multiplicar a b) := by
  simp only [bg_multiplicarKaratsuba]
  rw [if_pos h]

/-- A positive product by zero of more than one block keeps one zero block per
block of the first operand, is not recognised by `bg_es_cero`, and is printed
with nine more zeros per further block. -/
theorem producto_por_cero_varios_bloques :
    multiplicar ⟨1, [0, 1]⟩ bg_cero = ⟨1, [0, 0]⟩ ∧
    bg_multiplicarKaratsuba 1 ⟨1, [0, 1]⟩ bg_cero = some ⟨1, [0, 0]⟩ ∧
    bg_es_cero (multiplicar ⟨1, [0, 1]⟩ bg_cero) = false ∧
    printBigInt (multiplicar ⟨1, [0, 1]⟩ bg_cero) = some ("0000000000".toList ++ ['\n']) := by
  decide

/-- C21, as stated, fails for a negative first operand: the product of
`-987654321` by the single block `0` is the single block `0` with sign `-1`, from
`multiplicar` and from `bg_multiplicarKaratsuba` alike, and it is printed as
`-0`. -/
theorem producto_por_cero_con_signo :
    BienFormado ⟨-1, [987654321]⟩ ∧
    multiplicar ⟨-1, [987654321]⟩ bg_cero = ⟨-1, [0]⟩ ∧
    bg_multiplicarKaratsuba 1 ⟨-1, [987654321]⟩ bg_cero = some ⟨-1, [0]⟩ ∧
    printBigInt (multiplicar ⟨-1, [987654321]⟩ bg_cero) = some ("-0".toList ++ ['\n']) := by
  decide

/-- C21, amended: for every well-formed `a` and `z` the single block `0` with
sign `+1`, `bg_multiplicarKaratsuba a z` takes its base case and returns what
`multiplicar a z` returns; that result has the stored sign of `a` and magnitude
zero.  When `a` has one block the result is the single block `0`, and when that
`a` is positive it is printed as `0`. -/
theorem multiplicar_por_cero (a : BigInt) (ha : BienFormado a) (fuel : Nat) :
    bg_multiplicarKaratsuba (fuel + 1) a bg_cero = some (multiplicar a bg_cero) ∧
    (multiplicar a bg_cero).signo = a.signo ∧
    (multiplicar a bg_cero).magnitud = 0 ∧
    (a.longitud = 1 → multiplicar a bg_cero = ⟨a.signo, [0]⟩) ∧
    (a.longitud = 1 → a.signo = 1 →
      printBigInt (multiplicar a bg_cero) = some ("0".toList ++ ['\n'])) := by
  obtain ⟨_, hna, hr, _⟩ := ha
  have he := multiplicar_cero_derecha a hr hna
  have h1 : a.longitud = 1 → multiplicar a bg_cero = ⟨a.signo, [0]⟩ := by
    intro hl
    have hl' : a.cabeza.length = 1 := hl
    rw [he, hl']
    rfl
  refine ⟨karatsuba_caso_base fuel a bg_cero (Or.inr (by decide)), ?_, ?_, h1, ?_⟩
  · rw [he]
  · rw [he]
    exact valorLista_replicate_cero _
  · intro hl hs
    rw [h1 hl, hs]
    rfl

theorem multiplicar_por_cero_testigo :
    BienFormado ⟨1, [987654321]⟩ ∧
    bg_multiplicarKaratsuba 1 ⟨1, [987654321]⟩ bg_cero
      = some (multiplicar ⟨1, [987654321]⟩ bg_cero) ∧
    multiplicar ⟨1, [987654321]⟩ bg_cero = ⟨1, [0]⟩ ∧
    printBigInt (multiplicar ⟨1, [987654321]⟩ bg_cero) = some ("0".toList ++ ['\n']) :=
  ⟨by decide,
    (multiplicar_por_cero ⟨1, [987654321]⟩ (by decide) 0).1,
    (multiplicar_por_cero ⟨1, [987654321]⟩ (by decide) 0).2.2.2.1 rfl,
    (multiplicar_por_cero ⟨1, [987654321]⟩ (by decide) 0).2.2.2.2 rfl rfl⟩

/-! ## Termination of the Karatsuba recursion -/

theorem karatsuba_paso_definido (f : Nat) (a b : BigInt) (m : Nat)
    (hm : m = (if a.longitud > b.longitud then a.longitud else b.longitud) / 2)
    (hb : ¬ (a.longitud ≤ 2 ∨ b.longitud ≤ 2))
    (h0 : (bg_multiplicarKaratsuba f (bg_split a m).1 (bg_split b m).1).isSome = true)
    (h2 : (bg_multiplicarKaratsuba f (bg_split a m).2 (bg_split b m).2).isSome = true)
    (h1 : (bg_multiplicarKaratsuba f
      (bg_sumar_magnitud (bg_split a m).1 (bg_split a m).2)
      (bg_sumar_magnitud (bg_split b m).1 (bg_split b m).2)).isSome = true) :
    (bg_multiplicarKaratsuba (f + 1) a b).isSome = true := by
  subst hm
  obtain ⟨z0, e0⟩ := Option.isSome_iff_exists.mp h0
  obtain ⟨z2, e2⟩ := Option.isSome_iff_exists.mp h2
  obtain ⟨z1, e1⟩ := Option.isSome_iff_exists.mp h1
  rw [bg_multiplicarKaratsuba]
  dsimp only
  rw [if_neg hb, e0]
  dsimp only
  rw [e2]
  dsimp only
  rw [e1]
  rfl

theorem karatsuba_mas_combustible (f : Nat) :
    ∀ (a b r : BigInt), bg_multiplicarKaratsuba f a b = some r →
      bg_multiplicarKaratsuba (f + 1) a b = some r := by
  induction f with
  | zero =>
    intro a b r h
    simp [bg_multiplicarKaratsuba] at h
  | succ f ih =>
    intro a b r h
    by_cases hb : a.longitud ≤ 2 ∨ b.longitud ≤ 2
    · rw [karatsuba_caso_base _ a b hb] at h ⊢
      exact h
    · rw [bg_multiplicarKaratsuba] at h ⊢
      dsimp only at h ⊢
      rw [if_neg hb] at h ⊢
      split at h
      · exact absurd h (by simp)
      · rename_i z0 e0
        rw [ih _ _ _ e0]
        dsimp only
        split at h
        · exact absurd h (by simp)
        · rename_i z2 e2
          rw [ih _ _ _ e2]
          dsimp only
          split at h
          · exact absurd h (by simp)
          · rename_i z1 e1
            rw [ih _ _ _ e1]
            exact h

theorem karatsuba_combustible_mayor (f g : Nat) (a b r : BigInt) (hfg : f ≤ g)
    (h : bg_multiplicarKaratsuba f a b = some r) :
    bg_multiplicarKaratsuba g a b = some r := by
  induction g with
  | zero =>
    have : f = 0 := Nat.le_zero.mp hfg
    rw [← this]
    exact h
  | succ g ih =>
    rcases Nat.lt_or_ge f (g + 1) with hlt | hge
    · exact karatsuba_mas_combustible g a b r (ih (Nat.lt_succ_iff.mp hlt))
    · have : f = g + 1 := Nat.le_antisymm hfg hge
      rw [← this]
      exact h

theorem splitLoop_eq (m : Nat) (l : List Nat) :
    ∀ (idx : Nat) (pLow pHigh : BigInt),
      splitLoop m l idx pLow pHigh
        = (⟨pLow.signo, pLow.cabeza ++ l.take (m - idx)⟩,
           ⟨pHigh.signo, pHigh.cabeza ++ l.drop (m - idx)⟩) := by
  induction l with
  | nil =>
    intro idx pLow pHigh
    simp [splitLoop]
  | cons v p ih =>
    intro idx pLow pHigh
    simp only [splitLoop]
    by_cases h : idx < m
    · rw [if_pos h, ih]
      have hm : m - idx = (m - (idx + 1)) + 1 := by omega
      rw [hm]
      simp [bg_append]
    · rw [if_neg h, ih]
      have h1 : m - idx = 0 := by omega
      have h2 : m - (idx + 1) = 0 := by omega
      rw [h1, h2]
      simp [bg_append]

theorem bg_split_eq (a : BigInt) (m : Nat) :
    (bg_split a m).1 = ⟨a.signo, a.cabeza.take m⟩ ∧
    (bg_split a m).2
      = ⟨a.signo, if a.cabeza.drop m = [] then [0] else a.cabeza.drop m⟩ := by
  simp only [bg_split, splitLoop_eq, Nat.sub_zero, List.nil_append, BigInt.longitud]
  by_cases h : a.cabeza.drop m = []
  · rw [h]
    simp [bg_append]
  · rw [if_neg h]
    have : ¬ (List.drop m a.cabeza).length = 0 := fun h0 => h (List.length_eq_zero.mp h0)
    rw [if_neg this]
    exact ⟨rfl, rfl⟩

/-- The two halves of an operand with blocks in range, cut at `m ≥ 1`: both have
at least one block, blocks in range, and block counts `min la m` and
`max (la - m) 1`. -/
theorem bg_split_mitades (a : BigInt) (m : Nat) (hna : a.cabeza ≠ [])
    (hra : BloquesEnRango a.cabeza) (hm : 1 ≤ m) :
    (bg_split a m).1.cabeza ≠ [] ∧ BloquesEnRango (bg_split a m).1.cabeza ∧
    (bg_split a m).2.cabeza ≠ [] ∧ BloquesEnRango (bg_split a m).2.cabeza ∧
    (bg_split a m).1.longitud = min m a.longitud ∧
    (bg_split a m).2.longitud = max (a.longitud - m) 1 := by
  obtain ⟨e1, e2⟩ := bg_split_eq a m
  rw [e1, e2]
  have hpos : 0 < a.cabeza.length := List.length_pos.mpr hna
  have hl1 : (a.cabeza.take m).length = min m a.cabeza.length := List.length_take _ _
  refine ⟨?_, ?_, ?_, ?_, hl1, ?_⟩
  · intro h
    have h0 : (a.cabeza.take m).length = 0 := by
      have h' : a.cabeza.take m = [] := h
      rw [h']
      rfl
    omega
  · intro v hv
    exact hra v (List.mem_of_mem_take hv)
  · show (if a.cabeza.drop m = [] then [0] else a.cabeza.drop m) ≠ []
    by_cases h : a.cabeza.drop m = []
    · rw [if_pos h]
      decide
    · rw [if_neg h]
      exact h
  · show BloquesEnRango (if a.cabeza.drop m = [] then [0] else a.cabeza.drop m)
    by_cases h : a.cabeza.drop m = []
    · rw [if_pos h]
      decide
    · rw [if_neg h]
      intro v hv
      exact hra v (List.mem_of_mem_drop hv)
  · show (if a.cabeza.drop m = [] then [0] else a.cabeza.drop m).length
      = max (a.cabeza.length - m) 1
    have hld : (a.cabeza.drop m).length = a.cabeza.length - m := List.length_drop _ _
    by_cases h : a.cabeza.drop m = []
    · rw [if_pos h]
      rw [h] at hld
      simp only [List.length_nil, List.length_singleton] at hld ⊢
      omega
    · rw [if_neg h, hld]
      have : 0 < (a.cabeza.drop m).length := List.length_pos.mpr h
      omega

/-- Function `bg_sumar_magnitud` on operands with blocks in range: sign `+1`,
blocks in range, and either as many blocks as the longer operand, or one more,
the extra block being the carry `1`. -/
theorem bg_sumar_magnitud_forma (p q : BigInt) (hp : BloquesEnRango p.cabeza)
    (hq : BloquesEnRango q.cabeza) :
    ∃ ys cf, bg_sumar_magnitud p q = (if cf > 0 then ⟨1, ys ++ [cf]⟩ else ⟨1, ys⟩) ∧
      ys.length = max p.cabeza.length q.cabeza.length ∧ BloquesEnRango ys ∧ cf ≤ 1 ∧
      valorLista ys + DEC_BASE ^ (max p.cabeza.length q.cabeza.length) * cf
        = valorLista p.cabeza + valorLista q.cabeza := by
  obtain ⟨ys, cf, he, hl, hr, hc, hv⟩ :=
    sumarMagnitudesExacto_forma ⟨1, p.cabeza⟩ ⟨1, q.cabeza⟩ hp hq
  refine ⟨ys, cf, ?_, hl, hr, hc, hv⟩
  have hdef : bg_sumar_magnitud p q
      = ⟨1, (sumarMagnitudesExacto ⟨1, p.cabeza⟩ ⟨1, q.cabeza⟩).cabeza⟩ := by
    simp only [bg_sumar_magnitud, bg_clone_eq]
    rw [sumar_eq_exacto ⟨1, p.cabeza⟩ ⟨1, q.cabeza⟩ hp hq]
    simp [sumarExacto]
  rw [hdef, he]
  by_cases h : cf > 0
  · rw [if_pos h]
  · rw [if_neg h]

theorem bg_sumar_magnitud_operando (p q : BigInt) (hp : BloquesEnRango p.cabeza)
    (hq : BloquesEnRango q.cabeza) (hnp : p.cabeza ≠ []) :
    (bg_sumar_magnitud p q).cabeza ≠ [] ∧ BloquesEnRango (bg_sumar_magnitud p q).cabeza ∧
    (bg_sumar_magnitud p q).longitud ≤ max p.longitud q.longitud + 1 := by
  obtain ⟨ys, cf, he, hl, hr, hc, _⟩ := bg_sumar_magnitud_forma p q hp hq
  have hpos : 0 < p.cabeza.length := List.length_pos.mpr hnp
  have hyp : 0 < ys.length := by omega
  have hyn : ys ≠ [] := List.length_pos.mp hyp
  rw [he]
  by_cases h : cf > 0
  · rw [if_pos h]
    refine ⟨by simp, ?_, ?_⟩
    · refine bloquesEnRango_append.mpr ⟨hr, ?_⟩
      intro v hv
      rw [List.mem_singleton.mp hv, DEC_BASE_eq]
      omega
    · show (ys ++ [cf]).length ≤ max p.cabeza.length q.cabeza.length + 1
      rw [List.length_append, hl]
      rfl
  · rw [if_neg h]
    refine ⟨hyn, hr, ?_⟩
    show ys.length ≤ max p.cabeza.length q.cabeza.length + 1
    omega

theorem lista_de_tres (l : List Nat) (h : l.length = 3) : ∃ x y t, l = [x, y, t] := by
  match l, h with
  | [x, y, t], _ => exact ⟨x, y, t, rfl⟩

/-- Three blocks cut at `m = 1`: the sum of the halves has two blocks, or it is
`[u, 0, 1]`. -/
theorem suma_mitades_tres (a : BigInt) (hl : a.longitud = 3)
    (hra : BloquesEnRango a.cabeza) :
    (bg_sumar_magnitud (bg_split a 1).1 (bg_split a 1).2).longitud ≤ 2 ∨
    ∃ u, u < DEC_BASE ∧
      (bg_sumar_magnitud (bg_split a 1).1 (bg_split a 1).2).cabeza = [u, 0, 1] := by
  obtain ⟨x, y, t, hc⟩ := lista_de_tres a.cabeza hl
  obtain ⟨e1, e2⟩ := bg_split_eq a 1
  rw [hc] at hra
  have hx : x < 1000000000 := hra x (by simp)
  have hy : y < 1000000000 := hra y (by simp)
  have ht : t < 1000000000 := hra t (by simp)
  have h1 : (bg_split a 1).1 = ⟨a.signo, [x]⟩ := by
    rw [e1, hc]
    rfl
  have h2 : (bg_split a 1).2 = ⟨a.signo, [y, t]⟩ := by
    rw [e2, hc]
    rfl
  rw [h1, h2]
  obtain ⟨ys, cf, he, hly, hry, hcf, hv⟩ :=
    bg_sumar_magnitud_forma ⟨a.signo, [x]⟩ ⟨a.signo, [y, t]⟩ (by
      intro v hv
      rw [List.mem_singleton.mp hv]
      exact hx) (by
      intro v hv
      simp only [List.mem_cons, List.mem_singleton, List.not_mem_nil, or_false] at hv
      rcases hv with h | h
      · rw [h]
        exact hy
      · rw [h]
        exact ht)
  have hly2 : ys.length = 2 := hly
  rw [he]
  by_cases hpos : cf > 0
  · right
    rw [if_pos hpos]
    have hcf1 : cf = 1 := by omega
    subst hcf1
    match ys, hly2 with
    | [u, w], _ =>
      have hu : u < 1000000000 := hry u (by simp)
      simp only [valorLista, DEC_BASE_eq, List.length_cons, List.length_nil,
        List.length_singleton] at hv
      norm_num at hv
      have hw : w = 0 := by omega
      subst hw
      exact ⟨u, hu, rfl⟩
  · left
    rw [if_neg hpos]
    show ys.length ≤ 2
    omega

theorem suma_mitades_especial (a : BigInt) (u : Nat) (hc : a.cabeza = [u, 0, 1])
    (hu : u < DEC_BASE) :
    (bg_sumar_magnitud (bg_split a 1).1 (bg_split a 1).2).longitud ≤ 2 := by
  obtain ⟨e1, e2⟩ := bg_split_eq a 1
  have hu' : u < 1000000000 := hu
  have h1 : (bg_split a 1).1 = ⟨a.signo, [u]⟩ := by
    rw [e1, hc]
    rfl
  have h2 : (bg_split a 1).2 = ⟨a.signo, [0, 1]⟩ := by
    rw [e2, hc]
    rfl
  rw [h1, h2]
  obtain ⟨ys, cf, he, hly, hry, hcf, hv⟩ :=
    bg_sumar_magnitud_forma ⟨a.signo, [u]⟩ ⟨a.signo, [0, 1]⟩ (by
      intro v hv
      rw [List.mem_singleton.mp hv]
      exact hu) (show BloquesEnRango [0, 1] by decide)
  have hly2 : ys.length = 2 := hly
  rw [he]
  have hcf0 : ¬ cf > 0 := by
    intro hpos
    have hcf1 : cf = 1 := by omega
    subst hcf1
    simp only [valorLista, DEC_BASE_eq, List.length_cons, List.length_nil,
      List.length_singleton] at hv
    norm_num at hv
    omega
  rw [if_neg hcf0]
  show ys.length ≤ 2
  omega

/-- Operands `[u, 0, 1]` and any three blocks: every recursive call of the next
level takes the base case. -/
theorem karatsuba_tres_especial (a b : BigInt) (u : Nat) (hc : a.cabeza = [u, 0, 1])
    (hu : u < DEC_BASE) (hlb : b.longitud = 3) (f : Nat) :
    (bg_multiplicarKaratsuba (f + 2) a b).isSome = true := by
  have hla : a.longitud = 3 := by
    show a.cabeza.length = 3
    rw [hc]
    rfl
  have hna : a.cabeza ≠ [] := by
    rw [hc]
    exact List.cons_ne_nil _ _
  have hra : BloquesEnRango a.cabeza := by
    rw [hc]
    intro v hv
    simp only [List.mem_cons, List.mem_singleton, List.not_mem_nil, or_false] at hv
    rcases hv with h | h | h
    · rw [h]
      exact hu
    · rw [h]
      decide
    · rw [h]
      decide
  obtain ⟨_, _, _, _, l1, l2⟩ := bg_split_mitades a 1 hna hra (Nat.le_refl 1)
  refine karatsuba_paso_definido (f + 1) a b 1 ?_ ?_ ?_ ?_ ?_
  · rw [hla, hlb]
    rfl
  · rw [hla, hlb]
    decide
  · rw [karatsuba_caso_base f _ _ (Or.inl (by rw [l1, hla]; decide))]
    rfl
  · rw [karatsuba_caso_base f _ _ (Or.inl (by rw [l2, hla]; decide))]
    rfl
  · rw [karatsuba_caso_base f _ _ (Or.inl (suma_mitades_especial a u hc hu))]
    rfl

/-- With blocks in range and at least one block in each operand, a recursion
depth of `max la lb` is enough for `bg_multiplicarKaratsuba` to return. -/
theorem karatsuba_definido (fuel : Nat) :
    ∀ a b : BigInt, a.cabeza ≠ [] → b.cabeza ≠ [] → BloquesEnRango a.cabeza →
      BloquesEnRango b.cabeza → max a.longitud b.longitud ≤ fuel →
      (bg_multiplicarKaratsuba fuel a b).isSome = true := by
  induction fuel with
  | zero =>
    intro a b hna _ _ _ hf
    have : 0 < a.cabeza.length := List.length_pos.mpr hna
    have h0 : a.cabeza.length ≤ max a.longitud b.longitud := Nat.le_max_left _ _
    omega
  | succ f ih =>
    intro a b hna hnb hra hrb hf
    by_cases hb : a.longitud ≤ 2 ∨ b.longitud ≤ 2
    · rw [karatsuba_caso_base f a b hb]
      rfl
    · have hla : 3 ≤ a.longitud := by omega
      have hlb : 3 ≤ b.longitud := by omega
      have hmax : (if a.longitud > b.longitud then a.longitud else b.longitud)
          = max a.longitud b.longitud := by
        by_cases h : a.longitud > b.longitud
        · rw [if_pos h]
          omega
        · rw [if_neg h]
          omega
      have hm1 : 1 ≤ max a.longitud b.longitud / 2 := by omega
      obtain ⟨an1, ar1, an2, ar2, al1, al2⟩ :=
        bg_split_mitades a (max a.longitud b.longitud / 2) hna hra hm1
      obtain ⟨bn1, br1, bn2, br2, bl1, bl2⟩ :=
        bg_split_mitades b (max a.longitud b.longitud / 2) hnb hrb hm1
      obtain ⟨asn, asr, asl⟩ := bg_sumar_magnitud_operando _ _ ar1 ar2 an1
      obtain ⟨bsn, bsr, bsl⟩ := bg_sumar_magnitud_operando _ _ br1 br2 bn1
      refine karatsuba_paso_definido f a b (max a.longitud b.longitud / 2)
        (by rw [hmax]) hb ?_ ?_ ?_
      · exact ih _ _ an1 bn1 ar1 br1 (by rw [al1, bl1]; omega)
      · exact ih _ _ an2 bn2 ar2 br2 (by rw [al2, bl2]; omega)
      · by_cases h4 : 4 ≤ max a.longitud b.longitud
        · apply ih _ _ asn bsn asr bsr
          rw [al1, al2] at asl
          rw [bl1, bl2] at bsl
          omega
        · have ha3 : a.longitud = 3 := by omega
          have hb3 : b.longitud = 3 := by omega
          have hmm : max a.longitud b.longitud / 2 = 1 := by
            rw [ha3, hb3]
            rfl
          rw [hmm] at asl bsl al1 al2 bl1 bl2 ⊢
          have hf2 : ∃ g, f = g + 2 := ⟨f - 2, by omega⟩
          obtain ⟨g, hg⟩ := hf2
          rcases suma_mitades_tres a ha3 hra with hs | ⟨u, hu, hs⟩
          · rw [hg, karatsuba_caso_base (g + 1) _ _ (Or.inl hs)]
            rfl
          · by_cases hbs : (bg_sumar_magnitud (bg_split b 1).1 (bg_split b 1).2).longitud ≤ 2
            · rw [hg, karatsuba_caso_base (g + 1) _ _ (Or.inr hbs)]
              rfl
            · rw [hg]
              apply karatsuba_tres_especial _ _ u hs hu
              rw [bl1, bl2, hb3] at bsl
              have : max (min 1 3) (max (3 - 1) 1) + 1 = 3 := by decide
              omega

/-- C23: the Karatsuba recursion terminates.  For `a`, `b` with at least one
block each and every block below `10^9`, there is one result `r` that
`bg_multiplicarKaratsuba` returns at every recursion depth allowed from
`max la lb` on.  When neither operand takes the base case, the operands
`lowA + highA` and `lowB + highB` of the third recursive call have at most
`max la lb` blocks: the count need not decrease. -/
theorem karatsuba_termina (a b : BigInt) (hna : a.cabeza ≠ []) (hnb : b.cabeza ≠ [])
    (hra : BloquesEnRango a.cabeza) (hrb : BloquesEnRango b.cabeza) :
    (∃ r, ∀ fuel, max a.longitud b.longitud ≤ fuel →
      bg_multiplicarKaratsuba fuel a b = some r) ∧
    (¬ (a.longitud ≤ 2 ∨ b.longitud ≤ 2) →
      (bg_sumar_magnitud
          (bg_split a ((if a.longitud > b.longitud then a.longitud else b.longitud) / 2)).1
          (bg_split a ((if a.longitud > b.longitud then a.longitud else b.longitud) / 2)).2
        ).longitud ≤ max a.longitud b.longitud ∧
      (bg_sumar_magnitud
          (bg_split b ((if a.longitud > b.longitud then a.longitud else b.longitud) / 2)).1
          (bg_split b ((if a.longitud > b.longitud then a.longitud else b.longitud) / 2)).2
        ).longitud ≤ max a.longitud b.longitud) := by
  constructor
  · have h := karatsuba_definido (max a.longitud b.longitud) a b hna hnb hra hrb
      (Nat.le_refl _)
    obtain ⟨r, hr⟩ := Option.isSome_iff_exists.mp h
    exact ⟨r, fun fuel hf => karatsuba_combustible_mayor _ fuel a b r hf hr⟩
  · intro hb
    have hmax : (if a.longitud > b.longitud then a.longitud else b.longitud)
        = max a.longitud b.longitud := by
      by_cases h : a.longitud > b.longitud
      · rw [if_pos h]
        omega
      · rw [if_neg h]
        omega
    rw [hmax]
    have hm1 : 1 ≤ max a.longitud b.longitud / 2 := by omega
    obtain ⟨an1, ar1, _, ar2, al1, al2⟩ :=
      bg_split_mitades a (max a.longitud b.longitud / 2) hna hra hm1
    obtain ⟨bn1, br1, _, br2, bl1, bl2⟩ :=
      bg_split_mitades b (max a.longitud b.longitud / 2) hnb hrb hm1
    obtain ⟨_, _, asl⟩ := bg_sumar_magnitud_operando _ _ ar1 ar2 an1
    obtain ⟨_, _, bsl⟩ := bg_sumar_magnitud_operando _ _ br1 br2 bn1
    rw [al1, al2] at asl
    rw [bl1, bl2] at bsl
    constructor
    · omega
    · omega

theorem karatsuba_termina_testigo :
    (⟨1, [999999999, 999999999, 999999999]⟩ : BigInt).cabeza ≠ [] ∧
    BloquesEnRango (⟨1, [999999999, 999999999, 999999999]⟩ : BigInt).cabeza ∧
    (bg_sumar_magnitud (bg_split ⟨1, [999999999, 999999999, 999999999]⟩ 1).1
      (bg_split ⟨1, [999999999, 999999999, 999999999]⟩ 1).2).cabeza = [999999998, 0, 1] ∧
    bg_multiplicarKaratsuba 2 ⟨1, [999999999, 999999999, 999999999]⟩
      ⟨1, [999999999, 999999999, 999999999]⟩ = none ∧
    ∃ r, ∀ fuel, 3 ≤ fuel →
      bg_multiplicarKaratsuba fuel ⟨1, [999999999, 999999999, 999999999]⟩
        ⟨1, [999999999, 999999999, 999999999]⟩ = some r :=
  ⟨by decide, by decide, by decide, by decide,
    (karatsuba_termina ⟨1, [999999999, 999999999, 999999999]⟩
      ⟨1, [999999999, 999999999, 999999999]⟩ (by decide) (by decide) (by decide)
      (by decide)).1⟩

/-! ## Chains of `2^31 + 1` blocks -/

end CAS
